import Mathlib

/-!
# The style cascade of eepp: `StyleSheet` and `UIStyle`

A shallow embedding of `src/eepp/ui/css/stylesheet.cpp` and `src/eepp/ui/uistyle.cpp`.

* Widgets are named by natural numbers (`WidgetId`); a `World` gives, for every widget, what
  `getUIStyle()` returns (`none` for `NULL`) and records the calls made on widgets.
* What the sources use but do not define (selector matching, related elements, the scene's
  stylesheet, default arguments declared in headers, the transition parser) is a parameter,
  gathered in `Scene`.
* `std::map<std::string, StyleSheetProperty>` is a list of properties in key order;
  `std::set<UIWidget*>` is a list of widgets in ascending order.
* `onStateChange` calls itself through the related widgets; the embedding takes the call depth
  it may use as a first argument and answers `none` when that depth does not suffice.
-/

namespace EE

/-- A widget (`UIWidget*`), named by a number; pointer order is number order. -/
abbrev WidgetId := Nat

/-! ## CSS data -/

/-- Modelled from the spec: `StyleSheetProperty` (its declaration is not among the sources).
`uistyle.cpp` builds one from a name, a value, a specificity and a volatile flag and reads them
back with `getName`, `getValue`, `getSpecificity`, `isVolatile`. The field `specificity` is what
`getSpecificity()` returns, the scalar that `tryApplyStyle` compares with `>=`; the override
flag of the spec is read off it, see `StyleSheetProperty.important`. -/
structure StyleSheetProperty where
  name : String
  value : String
  specificity : Nat := 0
  isVolatile : Bool := false
deriving DecidableEq, Repr

/-- Modelled from the spec: the specificity of a property that carries the override flag. The
spec has the flag supersede the specificity comparison entirely, and `tryApplyStyle` compares
`getSpecificity()` and nothing else; so the flag shows in `getSpecificity()`, as a value above
the specificity of every selector: the greatest `Uint32`. -/
def importantSpecificity : Nat :=
  4294967295

/-- The empty property returned by `StyleSheetProperty()`. -/
def StyleSheetProperty.empty : StyleSheetProperty :=
  { name := "", value := "" }

/-- Modelled from the spec: `StyleSheetSelector` (its declaration is not among the sources).
What a selector is by itself: its text, its specificity, whether it is cacheable
(`isCacheable()`) and whether it has pseudo-classes (`hasPseudoClasses()`). What it says of a
widget depends on the widget tree and is found in `Scene`. -/
structure StyleSheetSelector where
  name : String
  specificity : Nat := 0
  cacheable : Bool := true
  pseudoClasses : Bool := false
deriving DecidableEq, Repr

/-- Modelled from the spec: `StyleSheetStyle`, a rule: a selector and its properties
(a `std::map` keyed by property name, here in key order), the at-rule kind and the media-query
list it refers to, if any (named by a number). -/
structure StyleSheetStyle where
  selector : StyleSheetSelector
  properties : List StyleSheetProperty := []
  atRuleType : Nat := 0
  mediaQueryList : Option Nat := none
deriving DecidableEq, Repr

/-- Modelled from the spec: `KeyframesDefinition`, a named list of keyframe blocks
(a time and the properties at that time). -/
structure KeyframesDefinition where
  name : String
  blocks : List (Nat × List StyleSheetProperty) := []
deriving DecidableEq, Repr

/-- The members of `StyleSheet`: `mNodes`, `mMediaQueryList`, `mKeyframesMap`. A media-query
list is a shared pointer: `some` of the number that names the list, or `none` for a null
pointer. The keyframes map is a `std::map` keyed by the name of the definition, here in key
order. -/
structure StyleSheet where
  mNodes : List StyleSheetStyle := []
  mMediaQueryList : List (Option Nat) := []
  mKeyframesMap : List KeyframesDefinition := []
deriving DecidableEq, Repr

/-- Modelled from the spec: `TransitionDefinition`, the duration/easing/delay metadata of one
property. -/
structure TransitionDefinition where
  property : String := ""
  duration : Nat := 0
  delay : Nat := 0
  timingFunction : String := ""
deriving DecidableEq, Repr

/-- What the sources use without defining it: the widget tree as the selectors see it.

* `select sel w applyPseudo` is `sel.select( w, applyPseudo )`;
* `selectDefault` is the default of `applyPseudo` in `select` (used by `tryApplyStyle`);
* `elementStylesDefault` is the default of `applyPseudo` in `getElementStyles` (used by `load`);
* `getRelatedElements sel w b` is `sel.getRelatedElements( w, b )`, each element given as the
  widget it is, or `none` when `dynamic_cast<UIWidget*>` fails;
* `styleSheet w` is the stylesheet of `w`'s scene node, `none` when that node is no
  `UISceneNode`;
* `parseTransitionProperties` is `TransitionDefinition::parseTransitionProperties`. -/
structure Scene where
  select : StyleSheetSelector → WidgetId → Bool → Bool
  selectDefault : Bool := true
  elementStylesDefault : Bool := false
  getRelatedElements : StyleSheetSelector → WidgetId → Bool → List (Option WidgetId) :=
    fun _ _ _ => []
  styleSheet : WidgetId → Option StyleSheet := fun _ => none
  parseTransitionProperties : List StyleSheetProperty → List (String × TransitionDefinition) :=
    fun _ => []

/-! ## `StyleSheet` -/

/-- Embedding of `StyleSheet::isEmpty`. -/
def StyleSheet.isEmpty (sheet : StyleSheet) : Bool :=
  sheet.mNodes.isEmpty

/-- Embedding of `StyleSheet::getElementStyles`: walk `mNodes` and push every node whose selector
selects the element onto the result. -/
def StyleSheet.getElementStyles (sc : Scene) (sheet : StyleSheet) (element : WidgetId)
    (applyPseudo : Bool) : List StyleSheetStyle :=
  sheet.mNodes.foldl
    (fun styles node =>
      if sc.select node.selector element applyPseudo then styles ++ [node] else styles)
    []

/-! ## `UIStyle`: data -/

/-- The members of `UIState` that `UIStyle` inherits: the state bitmask, the current and the
previous state. -/
structure UIState where
  mState : Nat := 0
  mCurrentState : Nat := 0
  mPreviousState : Nat := 0
deriving DecidableEq, Repr

/-- The members of `UIStyle`. `mWidget` is the key under which the `World` holds the style;
`mProperties` is the `std::map` of resolved properties in key order, `mTransitions` the map the
transition parser returned, `mRelatedWidgets` and `mSubscribedWidgets` the two `std::set`s in
ascending order. -/
structure UIStyle extends UIState where
  mChangingState : Bool := false
  mElementStyle : StyleSheetStyle := { selector := { name := "" } }
  mCacheableStyles : List StyleSheetStyle := []
  mNoncacheableStyles : List StyleSheetStyle := []
  mProperties : List StyleSheetProperty := []
  mTransitionAttributes : List StyleSheetProperty := []
  mTransitions : List (String × TransitionDefinition) := []
  mRelatedWidgets : List WidgetId := []
  mSubscribedWidgets : List WidgetId := []
deriving DecidableEq, Repr

/-- A call that `UIStyle` makes on its widget. -/
inductive WidgetCall where
  | beginAttributesTransaction (widget : WidgetId)
  | setAttribute (widget : WidgetId) (name value : String) (isVolatile : Bool) (state : Nat)
  | endAttributesTransaction (widget : WidgetId)
deriving DecidableEq, Repr

/-- The user interface as `UIStyle` sees it: `styles w` is what `w->getUIStyle()` returns
(`none` for `NULL`), `calls` the calls made on widgets so far, oldest first. -/
structure World where
  styles : WidgetId → Option UIStyle
  calls : List WidgetCall := []

/-- The world without any `UIStyle`. -/
def World.empty : World :=
  { styles := fun _ => none }

/-- Store `s` as the style of `widget`. -/
def World.setStyle (w : World) (widget : WidgetId) (s : UIStyle) : World :=
  { w with styles := fun b => if b = widget then some s else w.styles b }

/-- Drop the style of `widget`: `getUIStyle()` is `NULL` from now on. -/
def World.dropStyle (w : World) (widget : WidgetId) : World :=
  { w with styles := fun b => if b = widget then none else w.styles b }

/-- The guarded call `if ( NULL != widget->getUIStyle() ) widget->getUIStyle()->f()` for a
member function `f` that only touches its own object. -/
def World.modify (w : World) (widget : WidgetId) (f : UIStyle → UIStyle) : World :=
  { w with styles := fun b => if b = widget then (w.styles b).map f else w.styles b }

/-! ## Containers -/

/-- Embedding of `std::set::insert` on an ascending list. -/
def setInsert (x : WidgetId) (l : List WidgetId) : List WidgetId :=
  if x ∈ l then l else l.orderedInsert (fun a b => a ≤ b) x

/-- Embedding of `std::set::erase` by key. -/
def setErase (x : WidgetId) (l : List WidgetId) : List WidgetId :=
  l.filter (fun y => decide (y ≠ x))

/-- Embedding of `std::map::find` on the property map: the entry stored under `name`, if any. -/
def mapFind (m : List StyleSheetProperty) (name : String) : Option StyleSheetProperty :=
  m.find? (fun q => decide (q.name = name))

/-- Lexicographic order on lists of character codes. -/
def lexLess : List Nat → List Nat → Bool
  | _, [] => false
  | [], _ :: _ => true
  | a :: as, b :: bs => if a < b then true else if b < a then false else lexLess as bs

/-- Embedding of `operator<` of `std::string`, the order of the keys of a `std::map`: the
strings are compared character by character (code points order UTF-8 strings as their bytes
do). -/
def keyLess (a b : String) : Bool :=
  lexLess (a.data.map Char.toNat) (b.data.map Char.toNat)

/-- Embedding of `m[ p.getName() ] = p` on the property map: replace the entry of that name, or
insert the property at its place in key order. -/
def mapAssign : List StyleSheetProperty → StyleSheetProperty → List StyleSheetProperty
  | [], p => [p]
  | q :: m, p =>
    if p.name = q.name then p :: m
    else if keyLess p.name q.name then p :: q :: m
    else q :: mapAssign m p

/-- Embedding of `String::startsWith( s, start )` of the eepp core. -/
def startsWith (s start : String) : Bool :=
  start.data.isPrefixOf s.data

/-! ## `UIStyle`: member functions that touch only their own object -/

namespace UIStyle

/-- A `UIStyle` as its constructor initialises it, before the constructor calls `load()`. -/
def fresh (base : UIState) (elementStyle : StyleSheetStyle) : UIStyle :=
  { toUIState := base, mElementStyle := elementStyle }

/-- Embedding of `UIStyle::isChangingState`. -/
def isChangingState (self : UIStyle) : Bool :=
  self.mChangingState

/-- Embedding of `UIStyle::subscribeRelated`. -/
def subscribeRelated (widget : WidgetId) (self : UIStyle) : UIStyle :=
  { self with mRelatedWidgets := setInsert widget self.mRelatedWidgets }

/-- Embedding of `UIStyle::unsubscribeRelated`. -/
def unsubscribeRelated (widget : WidgetId) (self : UIStyle) : UIStyle :=
  { self with mRelatedWidgets := setErase widget self.mRelatedWidgets }

/-- Embedding of `UIStyle::removeFromSubscribedWidgets`. -/
def removeFromSubscribedWidgets (widget : WidgetId) (self : UIStyle) : UIStyle :=
  { self with mSubscribedWidgets := setErase widget self.mSubscribedWidgets }

/-- The statement `mSubscribedWidgets.insert( widget )` of `subscribeNonCacheableStyles`. -/
def insertSubscribed (widget : WidgetId) (self : UIStyle) : UIStyle :=
  { self with mSubscribedWidgets := setInsert widget self.mSubscribedWidgets }

/-- The body of the loop of `tryApplyStyle` for one property of the rule: the property is
stored when the map has no entry of its name or its specificity is at least the entry's;
a stored property whose name starts with `transition` is also collected. -/
def applyProperty (self : UIStyle) (property : StyleSheetProperty) : UIStyle :=
  let stored : UIStyle :=
    { self with
      mProperties := mapAssign self.mProperties property
      mTransitionAttributes :=
        if startsWith property.name "transition" then self.mTransitionAttributes ++ [property]
        else self.mTransitionAttributes }
  match mapFind self.mProperties property.name with
  | none => stored
  | some it => if property.specificity ≥ it.specificity then stored else self

/-- Embedding of `UIStyle::tryApplyStyle` for the style of `widget`. -/
def tryApplyStyle (sc : Scene) (widget : WidgetId) (self : UIStyle) (style : StyleSheetStyle) :
    UIStyle :=
  if sc.select style.selector widget sc.selectDefault then
    style.properties.foldl applyProperty self
  else self

/-- The first three statements of `UIStyle::onStateChange`: raise `mChangingState`, clear the
property map and the transition attributes. -/
def beginStateChange (self : UIStyle) : UIStyle :=
  { self with mChangingState := true, mProperties := [], mTransitionAttributes := [] }

/-- The first part of `UIStyle::onStateChange` (up to the assignment of `mTransitions`): raise
`mChangingState`, clear the property map and the transition attributes, apply the element
style, the cacheable styles and the non-cacheable styles, parse the transitions. -/
def resolve (sc : Scene) (widget : WidgetId) (self : UIStyle) : UIStyle :=
  let s0 := beginStateChange self
  let s1 := tryApplyStyle sc widget s0 self.mElementStyle
  let s2 := self.mCacheableStyles.foldl (tryApplyStyle sc widget) s1
  let s3 := self.mNoncacheableStyles.foldl (tryApplyStyle sc widget) s2
  { s3 with mTransitions := sc.parseTransitionProperties s3.mTransitionAttributes }

/-- The attribute transaction of `UIStyle::onStateChange`: begin, one `setAttribute` for every
entry of the property map with the current state, end. -/
def attributeCalls (widget : WidgetId) (self : UIStyle) : List WidgetCall :=
  [WidgetCall.beginAttributesTransaction widget]
    ++ self.mProperties.map
        (fun property =>
          WidgetCall.setAttribute widget property.name property.value property.isVolatile
            self.mCurrentState)
    ++ [WidgetCall.endAttributesTransaction widget]

/-- Embedding of `UIStyle::getStyleSheetProperty`. -/
def getStyleSheetProperty (self : UIStyle) (propertyName : String) : StyleSheetProperty :=
  match mapFind self.mProperties propertyName with
  | some property => property
  | none => StyleSheetProperty.empty

end UIStyle

/-! ## `UIStyle`: member functions that reach other widgets -/

/-- Embedding of `UIStyle::onStateChange` of the style of `widget`, with the call depth it may
use. The style resolves its properties, pushes them to its widget in one transaction, calls
`onStateChange` on the style of every related widget that has one, and lowers
`mChangingState`. The test `NULL != mWidget` holds: the constructor stores the widget and
`load()` dereferences it. A widget without style is left alone, as by the test
`NULL != related->getUIStyle()` of the caller. `none`: the depth did not suffice. -/
def onStateChange (sc : Scene) : Nat → WidgetId → World → Option World
  | 0, _, _ => none
  | depth + 1, widget, w =>
    match w.styles widget with
    | none => some w
    | some self =>
      let resolved := UIStyle.resolve sc widget self
      let w1 : World :=
        { styles := (w.setStyle widget resolved).styles
          calls := w.calls ++ UIStyle.attributeCalls widget resolved }
      let afterRelated :=
        resolved.mRelatedWidgets.foldlM (fun w2 related => onStateChange sc depth related w2) w1
      afterRelated.map (fun w2 => w2.modify widget (fun s => { s with mChangingState := false }))

/-- Embedding of `UIStyle::unsubscribeNonCacheableStyles` of the style of `widget`. -/
def unsubscribeNonCacheableStyles (widget : WidgetId) (w : World) : World :=
  match w.styles widget with
  | none => w
  | some self =>
    let w1 := self.mSubscribedWidgets.foldl
      (fun w2 subscribed => w2.modify subscribed (UIStyle.unsubscribeRelated widget)) w
    w1.modify widget (fun s => { s with mSubscribedWidgets := [] })

/-- Embedding of `UIStyle::removeRelatedWidgets` of the style of `widget`. -/
def removeRelatedWidgets (widget : WidgetId) (w : World) : World :=
  match w.styles widget with
  | none => w
  | some self =>
    let w1 := self.mRelatedWidgets.foldl
      (fun w2 related => w2.modify related (UIStyle.removeFromSubscribedWidgets widget)) w
    w1.modify widget (fun s => { s with mRelatedWidgets := [] })

/-- The body of the inner loop of `subscribeNonCacheableStyles` for one related element:
an element that is a widget with a `UIStyle` gets `widget` as related widget and is inserted
into the subscribed widgets of `widget`'s style. -/
def subscribeElement (widget : WidgetId) (w : World) (element : Option WidgetId) : World :=
  match element with
  | none => w
  | some other =>
    match w.styles other with
    | none => w
    | some _ =>
      (w.modify other (UIStyle.subscribeRelated widget)).modify widget
        (UIStyle.insertSubscribed other)

/-- Embedding of `UIStyle::subscribeNonCacheableStyles` of the style of `widget`. -/
def subscribeNonCacheableStyles (sc : Scene) (widget : WidgetId) (w : World) : World :=
  match w.styles widget with
  | none => w
  | some self =>
    self.mNoncacheableStyles.foldl
      (fun w1 style =>
        (sc.getRelatedElements style.selector widget false).foldl (subscribeElement widget) w1)
      w

/-- The loop of `UIStyle::load` over the matched rules: a rule with a cacheable selector goes to
the cacheable styles, any other to the non-cacheable styles. -/
def partitionStyles (self : UIStyle) (styles : List StyleSheetStyle) : UIStyle :=
  styles.foldl
    (fun s style =>
      if style.selector.cacheable then
        { s with mCacheableStyles := s.mCacheableStyles ++ [style] }
      else
        { s with mNoncacheableStyles := s.mNoncacheableStyles ++ [style] })
    self

/-- The four clearing statements of `UIStyle::load`: `mCacheableStyles.clear()`,
`mNoncacheableStyles.clear()`, `mElementStyle.clearProperties()`, `mProperties.clear()`. -/
def UIStyle.clearForLoad (self : UIStyle) : UIStyle :=
  { self with
    mCacheableStyles := []
    mNoncacheableStyles := []
    mElementStyle := { self.mElementStyle with properties := [] }
    mProperties := [] }

/-- Embedding of `UIStyle::load` of the style of `widget`. -/
def load (sc : Scene) (widget : WidgetId) (w : World) : World :=
  let w1 := unsubscribeNonCacheableStyles widget w
  let w2 := w1.modify widget UIStyle.clearForLoad
  match sc.styleSheet widget with
  | none => w2
  | some styleSheet =>
    if styleSheet.isEmpty then w2
    else
      let styles := styleSheet.getElementStyles sc widget sc.elementStylesDefault
      subscribeNonCacheableStyles sc widget
        (w2.modify widget (fun s => partitionStyles s styles))

/-- The constructor `UIStyle::UIStyle( widget )`: initialise the members and call `load()`.
While `load()` runs inside the constructor, `widget->getUIStyle()` does not return the new style
yet, so the code skips the widget when it is among its own related elements. Here the new style
is stored before `load()` runs and such an element is subscribed to; with a scene in which the
widget is not among its own related elements, as in all the examples, this is the constructor
as the code runs it. The worlds reached with this definition include all those the code
builds. -/
def construct (sc : Scene) (base : UIState) (elementStyle : StyleSheetStyle)
    (widget : WidgetId) (w : World) : World :=
  load sc widget (w.setStyle widget (UIStyle.fresh base elementStyle))

/-- The destructor `UIStyle::~UIStyle()`: `removeRelatedWidgets()`, then
`unsubscribeNonCacheableStyles()`; afterwards the widget has no style. -/
def destroy (widget : WidgetId) (w : World) : World :=
  (unsubscribeNonCacheableStyles widget (removeRelatedWidgets widget w)).dropStyle widget

/-! ## `StyleSheet`: rules, media-query lists, keyframes -/

/-- Embedding of `std::map::find` on the keyframes map: the definition stored under `name`, if
any. -/
def keyframesFind (m : List KeyframesDefinition) (name : String) : Option KeyframesDefinition :=
  m.find? (fun q => decide (q.name = name))

/-- Embedding of `m[ k.getName() ] = k` on the keyframes map: replace the definition of that
name, or insert the definition at its place in key order. -/
def keyframesAssign : List KeyframesDefinition → KeyframesDefinition → List KeyframesDefinition
  | [], k => [k]
  | q :: m, k =>
    if k.name = q.name then k :: m
    else if keyLess k.name q.name then k :: q :: m
    else q :: keyframesAssign m k

namespace StyleSheet

/-- Embedding of `StyleSheet::addMediaQueryList`: a list that is not null and is not found
among the registered lists is pushed at their end. -/
def addMediaQueryList (sheet : StyleSheet) (list : Option Nat) : StyleSheet :=
  if list.isSome then
    if list ∈ sheet.mMediaQueryList then sheet
    else { sheet with mMediaQueryList := sheet.mMediaQueryList ++ [list] }
  else sheet

/-- Embedding of `StyleSheet::addStyle`: push the rule, then register its media-query list. -/
def addStyle (sheet : StyleSheet) (node : StyleSheetStyle) : StyleSheet :=
  addMediaQueryList { sheet with mNodes := sheet.mNodes ++ [node] } node.mediaQueryList

/-- Embedding of `StyleSheet::getStyles`. -/
def getStyles (sheet : StyleSheet) : List StyleSheetStyle :=
  sheet.mNodes

/-- Embedding of `StyleSheet::getKeyframes`. -/
def getKeyframes (sheet : StyleSheet) : List KeyframesDefinition :=
  sheet.mKeyframesMap

/-- Embedding of `StyleSheet::addKeyframes( const KeyframesDefinition& )`: `"none"` is a
reserved keyword, a definition of any other name is stored under its name. -/
def addKeyframes (sheet : StyleSheet) (keyframes : KeyframesDefinition) : StyleSheet :=
  if keyframes.name ≠ "none" then
    { sheet with mKeyframesMap := keyframesAssign sheet.mKeyframesMap keyframes }
  else sheet

/-- Embedding of `StyleSheet::addKeyframes( const KeyframesDefinitionMap& )`: every definition
of the map, in key order, goes through `addKeyframes`. The map is given by its definitions. -/
def addKeyframesMap (sheet : StyleSheet) (keyframesMap : List KeyframesDefinition) :
    StyleSheet :=
  keyframesMap.foldl addKeyframes sheet

/-- Embedding of `StyleSheet::combineStyleSheet`: `addStyle` for every rule of the other
stylesheet, then `addKeyframes` of its keyframes. -/
def combineStyleSheet (sheet styleSheet : StyleSheet) : StyleSheet :=
  addKeyframesMap (styleSheet.getStyles.foldl addStyle sheet) styleSheet.getKeyframes

/-- The loop of `StyleSheet::updateMediaLists`: `applyMediaFeatures` is called on the lists in
turn, up to and including the first list that answers `true`, where the loop breaks. The result
is `updateStyles` and the lists on which `applyMediaFeatures` was called, in order; there is no
result when a null pointer is dereferenced. -/
def updateMediaListsLoop (applyMediaFeatures : Nat → Bool) :
    List (Option Nat) → Option (Bool × List Nat)
  | [] => some (false, [])
  | none :: _ => none
  | some list :: rest =>
    if applyMediaFeatures list then some (true, [list])
    else (updateMediaListsLoop applyMediaFeatures rest).map (fun r => (r.1, list :: r.2))

/-- Embedding of `StyleSheet::updateMediaLists( features )`. What `applyMediaFeatures( features )`
answers on a list (whether its truth value changed) is a parameter. -/
def updateMediaLists (applyMediaFeatures : Nat → Bool) (sheet : StyleSheet) :
    Option (Bool × List Nat) :=
  if sheet.mMediaQueryList.isEmpty then some (false, [])
  else updateMediaListsLoop applyMediaFeatures sheet.mMediaQueryList

/-- The stylesheets reached from the empty one by `addStyle`, `addMediaQueryList`,
`addKeyframes` of a definition or of a map, and `combineStyleSheet` with any stylesheet. -/
inductive Reachable : StyleSheet → Prop where
  | empty : Reachable {}
  | addStyle (sheet : StyleSheet) (node : StyleSheetStyle) :
      Reachable sheet → Reachable (sheet.addStyle node)
  | addMediaQueryList (sheet : StyleSheet) (list : Option Nat) :
      Reachable sheet → Reachable (sheet.addMediaQueryList list)
  | addKeyframes (sheet : StyleSheet) (keyframes : KeyframesDefinition) :
      Reachable sheet → Reachable (sheet.addKeyframes keyframes)
  | addKeyframesMap (sheet : StyleSheet) (keyframesMap : List KeyframesDefinition) :
      Reachable sheet → Reachable (sheet.addKeyframesMap keyframesMap)
  | combineStyleSheet (sheet styleSheet : StyleSheet) :
      Reachable sheet → Reachable (sheet.combineStyleSheet styleSheet)

end StyleSheet

/-! ## `UIStyle`: the state and the element style -/

/-- What `uistyle.cpp` uses of the declaration of `UIState`: the number of state flags,
`StateFlagCount`, and the flag of each index, `getStateFlag( i )`. A greater index is a higher
priority. -/
structure StateFlags where
  StateFlagCount : Nat
  getStateFlag : Nat → Nat

/-- The four components of a rectangle as `String::toStr` writes them. -/
structure RectText where
  Left : String
  Right : String
  Top : String
  Bottom : String
deriving DecidableEq, Repr

/-- What `setStyleSheetProperty` uses of `NodeAttribute`: `asRectf name value` is
`NodeAttribute( name, value ).asRectf()` and `asRect name value` is
`NodeAttribute( name, value ).asRect()`, each with its components written by
`String::toStr`. -/
structure NodeAttributeParser where
  asRectf : String → String → RectText
  asRect : String → String → RectText

/-- Modelled from the spec: `StyleSheetStyle::setProperty`, which stores the property under its
name; the names within a rule are unique and the last write wins. -/
def StyleSheetStyle.setProperty (style : StyleSheetStyle) (property : StyleSheetProperty) :
    StyleSheetStyle :=
  { style with properties := mapAssign style.properties property }

namespace UIStyle

/-- Embedding of `UIStyle::stateExists`. -/
def stateExists (_self : UIStyle) (_state : Nat) : Bool :=
  true

/-- The loop of `UIStyle::updateState` over the indices that are left: a flag that is set in
`mState`, exists and is not the current state becomes the current state, the former current
state becomes the previous state, and the loop breaks; at any other flag the loop goes on. -/
def updateStateLoop (flags : StateFlags) (self : UIStyle) : List Nat → UIStyle
  | [] => self
  | i :: rest =>
    if self.mState &&& flags.getStateFlag i = flags.getStateFlag i then
      if self.stateExists (flags.getStateFlag i) then
        if self.mCurrentState ≠ flags.getStateFlag i then
          { self with
            mPreviousState := self.mCurrentState
            mCurrentState := flags.getStateFlag i }
        else updateStateLoop flags self rest
      else updateStateLoop flags self rest
    else updateStateLoop flags self rest

/-- The indices of the loop of `UIStyle::updateState`: from `StateFlagCount - 1` down to `0`. -/
def stateIndices (flags : StateFlags) : List Nat :=
  (List.range flags.StateFlagCount).reverse

/-- Embedding of `UIStyle::setStyleSheetProperty`: `padding` and `margin` are stored as their
four longhands, built from a name, a component of the rectangle, the specificity and the
volatile flag of the attribute (`attr`); any other attribute is stored as it is. -/
def setStyleSheetProperty (parser : NodeAttributeParser) (self : UIStyle)
    (attr : StyleSheetProperty) : UIStyle :=
  if attr.name = "padding" then
    let rect := parser.asRectf attr.name attr.value
    let e1 := self.mElementStyle.setProperty
      { name := "padding-left", value := rect.Left, specificity := attr.specificity,
        isVolatile := attr.isVolatile }
    let e2 := e1.setProperty
      { name := "padding-right", value := rect.Right, specificity := attr.specificity,
        isVolatile := attr.isVolatile }
    let e3 := e2.setProperty
      { name := "padding-top", value := rect.Top, specificity := attr.specificity,
        isVolatile := attr.isVolatile }
    let e4 := e3.setProperty
      { name := "padding-bottom", value := rect.Bottom, specificity := attr.specificity,
        isVolatile := attr.isVolatile }
    { self with mElementStyle := e4 }
  else if attr.name = "margin" then
    let rect := parser.asRect attr.name attr.value
    let e1 := self.mElementStyle.setProperty
      { name := "margin-left", value := rect.Left, specificity := attr.specificity,
        isVolatile := attr.isVolatile }
    let e2 := e1.setProperty
      { name := "margin-right", value := rect.Right, specificity := attr.specificity,
        isVolatile := attr.isVolatile }
    let e3 := e2.setProperty
      { name := "margin-top", value := rect.Top, specificity := attr.specificity,
        isVolatile := attr.isVolatile }
    let e4 := e3.setProperty
      { name := "margin-bottom", value := rect.Bottom, specificity := attr.specificity,
        isVolatile := attr.isVolatile }
    { self with mElementStyle := e4 }
  else
    { self with mElementStyle := self.mElementStyle.setProperty attr }

/-- Embedding of `UIStyle::setStyleSheetProperties`: every property of the map, in key order,
goes through `setStyleSheetProperty`. -/
def setStyleSheetProperties (parser : NodeAttributeParser) (self : UIStyle)
    (properties : List StyleSheetProperty) : UIStyle :=
  properties.foldl (setStyleSheetProperty parser) self

end UIStyle

/-- Embedding of `UIStyle::updateState` of the style of `widget`: the loop over the state
flags, then `onStateChange()`. -/
def updateState (sc : Scene) (flags : StateFlags) (depth : Nat) (widget : WidgetId)
    (w : World) : Option World :=
  onStateChange sc depth widget
    (w.modify widget (fun s => s.updateStateLoop flags (UIStyle.stateIndices flags)))

/-! ## Read accessors -/

/-- Modelled from the spec: `StyleSheetProperty::isEmpty`, which holds of the property without a
name, the one that `StyleSheetProperty()` builds. -/
def StyleSheetProperty.isEmpty (property : StyleSheetProperty) : Bool :=
  decide (property.name = "")

/-- Modelled from the spec: `StyleSheetStyle::getPropertyByName`, the property that the rule
stores under the name, the empty property when it stores none. -/
def StyleSheetStyle.getPropertyByName (style : StyleSheetStyle) (name : String) :
    StyleSheetProperty :=
  match mapFind style.properties name with
  | some property => property
  | none => StyleSheetProperty.empty

/-- The loop of `UIStyle::getStatelessStyleSheetProperty` over the cacheable styles that are
left: the property of the first style without pseudo-classes whose property of that name is not
empty; `none` when the loop ends without a `return`. -/
def UIStyle.statelessLoop (propertyName : String) :
    List StyleSheetStyle → Option StyleSheetProperty
  | [] => none
  | style :: rest =>
    if !style.selector.pseudoClasses then
      if !(style.getPropertyByName propertyName).isEmpty then
        some (style.getPropertyByName propertyName)
      else UIStyle.statelessLoop propertyName rest
    else UIStyle.statelessLoop propertyName rest

/-- Embedding of `UIStyle::getStatelessStyleSheetProperty`. -/
def UIStyle.getStatelessStyleSheetProperty (self : UIStyle) (propertyName : String) :
    StyleSheetProperty :=
  if propertyName ≠ "" then
    if !self.mElementStyle.selector.pseudoClasses
        && !(self.mElementStyle.getPropertyByName propertyName).isEmpty then
      self.mElementStyle.getPropertyByName propertyName
    else
      match UIStyle.statelessLoop propertyName self.mCacheableStyles with
      | some property => property
      | none => StyleSheetProperty.empty
  else StyleSheetProperty.empty

/-- Embedding of `std::map::find` on the transitions map: the definition stored under `name`,
if any. -/
def transitionsFind (m : List (String × TransitionDefinition)) (name : String) :
    Option TransitionDefinition :=
  (m.find? (fun q => decide (q.1 = name))).map (fun q => q.2)

/-- Embedding of `UIStyle::hasTransition`. -/
def UIStyle.hasTransition (self : UIStyle) (propertyName : String) : Bool :=
  (transitionsFind self.mTransitions propertyName).isSome
    || (transitionsFind self.mTransitions "all").isSome

/-- Embedding of `UIStyle::getTransition`; `TransitionDefinition()` is the definition with the
default of every member. -/
def UIStyle.getTransition (self : UIStyle) (propertyName : String) : TransitionDefinition :=
  match transitionsFind self.mTransitions propertyName with
  | some definition => definition
  | none =>
    match transitionsFind self.mTransitions "all" with
    | some definition => definition
    | none => {}

/-- The `static KeyframesDefinition EMPTY` of `StyleSheet::getKeyframesDefinition`. -/
def KeyframesDefinition.EMPTY : KeyframesDefinition :=
  { name := "" }

/-- Embedding of `StyleSheet::isKeyframesDefined`. -/
def StyleSheet.isKeyframesDefined (sheet : StyleSheet) (keyframesName : String) : Bool :=
  (keyframesFind sheet.mKeyframesMap keyframesName).isSome

/-- Embedding of `StyleSheet::getKeyframesDefinition`. -/
def StyleSheet.getKeyframesDefinition (sheet : StyleSheet) (keyframesName : String) :
    KeyframesDefinition :=
  match keyframesFind sheet.mKeyframesMap keyframesName with
  | some definition => definition
  | none => KeyframesDefinition.EMPTY

/-! ## Reading a world -/

/-- The rules of a style in the order in which `onStateChange` applies them: the element
style, the cacheable styles, the non-cacheable styles. -/
def UIStyle.rules (self : UIStyle) : List StyleSheetStyle :=
  self.mElementStyle :: (self.mCacheableStyles ++ self.mNoncacheableStyles)

/-- The properties that reach the loop body of `tryApplyStyle` when the rules are applied in
turn: those of the rules whose selector selects the widget. -/
def appliedProperties (sc : Scene) (widget : WidgetId) (rules : List StyleSheetStyle) :
    List StyleSheetProperty :=
  (rules.filter (fun R => sc.select R.selector widget sc.selectDefault)).flatMap
    (fun R => R.properties)

/-- The rules that `load` gets for a widget: the element styles of the stylesheet of its scene,
none when the scene has no stylesheet. -/
def matchedStyles (sc : Scene) (widget : WidgetId) : List StyleSheetStyle :=
  match sc.styleSheet widget with
  | none => []
  | some styleSheet => styleSheet.getElementStyles sc widget sc.elementStylesDefault

/-- What a resolution writes: the property map, the transition attributes, the transitions. -/
def UIStyle.resolution (self : UIStyle) :
    List StyleSheetProperty × List StyleSheetProperty × List (String × TransitionDefinition) :=
  (self.mProperties, self.mTransitionAttributes, self.mTransitions)

/-- A style without what `onStateChange` writes into it. -/
def UIStyle.unresolved (self : UIStyle) : UIStyle :=
  { self with
    mChangingState := false, mProperties := [], mTransitionAttributes := [], mTransitions := [] }

/-- The style of `widget` once its `onStateChange` has returned. -/
def styleAfterStateChange (sc : Scene) (depth : Nat) (widget : WidgetId) (w : World) :
    Option UIStyle :=
  (onStateChange sc depth widget w).bind (fun w1 => w1.styles widget)

/-- The widget has a `UIStyle`. -/
def World.live (w : World) (widget : WidgetId) : Bool :=
  (w.styles widget).isSome

/-- Whether `other` is in the related widgets of the style of `widget`. -/
def World.hasRelated (w : World) (widget other : WidgetId) : Bool :=
  match w.styles widget with
  | none => false
  | some s => decide (other ∈ s.mRelatedWidgets)

/-- Whether `other` is in the subscribed widgets of the style of `widget`. -/
def World.hasSubscribed (w : World) (widget other : WidgetId) : Bool :=
  match w.styles widget with
  | none => false
  | some s => decide (other ∈ s.mSubscribedWidgets)

/-- A style without its two sets of widgets. -/
def UIStyle.withoutSets (self : UIStyle) : UIStyle :=
  { self with mRelatedWidgets := [], mSubscribedWidgets := [] }

/-- Subscription symmetry: for all widgets `A` and `B` with a style, `A` is in the related
widgets of `B` if and only if `B` is in the subscribed widgets of `A`. -/
def World.symmetric (w : World) : Prop :=
  ∀ A B, w.live A = true → w.live B = true →
    (w.hasRelated B A = true ↔ w.hasSubscribed A B = true)

/-- The two sets mirror each other and name only widgets with a style: a related widget of
`B` has a style and is subscribed to `B`, a subscribed widget of `A` has a style and has `A`
as related widget. -/
def World.wellLinked (w : World) : Prop :=
  (∀ A B, w.hasRelated B A = true → w.live A = true ∧ w.hasSubscribed A B = true)
    ∧ (∀ A B, w.hasSubscribed A B = true → w.live B = true ∧ w.hasRelated B A = true)

/-- The worlds reached from the world without styles by constructing a `UIStyle` for a widget
that has none, by `load()` on a style and by destroying a style, in any scene at each step. -/
inductive Reachable : World → Prop where
  | empty : Reachable World.empty
  | construct (sc : Scene) (base : UIState) (elementStyle : StyleSheetStyle) (widget : WidgetId)
      (w : World) : Reachable w → w.live widget = false →
      Reachable (construct sc base elementStyle widget w)
  | load (sc : Scene) (widget : WidgetId) (w : World) : Reachable w → w.live widget = true →
      Reachable (load sc widget w)
  | destroy (widget : WidgetId) (w : World) : Reachable w → w.live widget = true →
      Reachable (destroy widget w)

/-- What `onStateChange` may do to the styles of a world: every style keeps all but what a
resolution writes, and its resolution is the one it had or the one `resolve` computes. -/
def Pass (sc : Scene) (w w1 : World) : Prop :=
  ∀ b,
    Option.map UIStyle.unresolved (w1.styles b) = Option.map UIStyle.unresolved (w.styles b) ∧
    ∀ s s1, w.styles b = some s → w1.styles b = some s1 →
      s1.resolution = s.resolution ∨ s1.resolution = (UIStyle.resolve sc b s).resolution

/-- What the loop body of `tryApplyStyle` keeps true of a style: every collected transition
attribute has a name that starts with `transition`, and every entry of the property map with
such a name is among the collected transition attributes. -/
def UIStyle.transitionsCollected (s : UIStyle) : Prop :=
  (∀ d ∈ s.mTransitionAttributes, startsWith d.name "transition" = true)
    ∧ (∀ d ∈ s.mProperties, startsWith d.name "transition" = true → d ∈ s.mTransitionAttributes)

/-- The widget on which a call is made. -/
def WidgetCall.widget : WidgetCall → WidgetId
  | WidgetCall.beginAttributesTransaction widget => widget
  | WidgetCall.setAttribute widget _ _ _ _ => widget
  | WidgetCall.endAttributesTransaction widget => widget

/-- The non-cacheable styles of the style of `widget`, none when the widget has no style. -/
def World.noncacheableStyles (w : World) (widget : WidgetId) : List StyleSheetStyle :=
  match w.styles widget with
  | none => []
  | some s => s.mNoncacheableStyles

/-- The calls made on widgets once `onStateChange` of the style of `widget` has returned. -/
def callsAfterStateChange (sc : Scene) (depth : Nat) (widget : WidgetId) (w : World) :
    Option (List WidgetCall) :=
  (onStateChange sc depth widget w).map (fun w1 => w1.calls)

/-- The definition most recently given to `addKeyframes` under the name `n`, when the
definitions `ks` were given in this order; a definition named `none` is not counted. -/
def lastAdded (ks : List KeyframesDefinition) (n : String) : Option KeyframesDefinition :=
  ks.reverse.find? (fun k => decide (k.name = n) && decide (n ≠ "none"))

/-- The world at the moment at which `onStateChange` of the style of `widget` has resolved the
properties, has ended the attribute transaction and is about to call the related widgets:
`mChangingState` of the style is raised. The world itself when the widget has no style. -/
def midStateChange (sc : Scene) (widget : WidgetId) (w : World) : World :=
  match w.styles widget with
  | none => w
  | some self =>
    { styles := (w.setStyle widget (UIStyle.resolve sc widget self)).styles
      calls := w.calls ++ UIStyle.attributeCalls widget (UIStyle.resolve sc widget self) }

/-- The related widgets of the style of `widget`, `none` when the widget has no style. -/
def World.related (w : World) (widget : WidgetId) : Option (List WidgetId) :=
  (w.styles widget).map (fun s => s.mRelatedWidgets)

/-! ## Examples -/

/-- A scene with one widget, `0`, of id `x` and class `a`: the selectors `.a` and `#x.a`
select it. -/
def sceneXA : Scene :=
  { select := fun sel w _ => decide (w = 0) && (sel.name == ".a" || sel.name == "#x.a") }

/-- The declaration `color: red` of the rule `.a`; specificities are written as scalars ordered
like the triples (id, class, type): `10000 * id + 100 * class + type`. -/
def colorRed : StyleSheetProperty :=
  { name := "color", value := "red", specificity := 100 }

/-- The declaration `color: blue` of the rule `#x.a`. -/
def colorBlue : StyleSheetProperty :=
  { name := "color", value := "blue", specificity := 10100 }

/-- The declaration `color: green` of a second rule `.a`. -/
def colorGreen : StyleSheetProperty :=
  { name := "color", value := "green", specificity := 100 }

/-- The rule `.a {color: red}`. -/
def ruleARed : StyleSheetStyle :=
  { selector := { name := ".a", specificity := 100 }, properties := [colorRed] }

/-- The rule `#x.a {color: blue}`. -/
def ruleXABlue : StyleSheetStyle :=
  { selector := { name := "#x.a", specificity := 10100 }, properties := [colorBlue] }

/-- The rule `.a {color: green}`. -/
def ruleAGreen : StyleSheetStyle :=
  { selector := { name := ".a", specificity := 100 }, properties := [colorGreen] }

/-- The world whose only style, that of widget `0`, has the given cacheable and non-cacheable
styles. -/
def worldOf (cacheable noncacheable : List StyleSheetStyle) : World :=
  World.empty.setStyle 0 { mCacheableStyles := cacheable, mNoncacheableStyles := noncacheable }

/-- A scene in which every selector selects every widget. -/
def sceneAll : Scene :=
  { select := fun _ _ _ => true }

/-- Two styles, each the related widget of the other: widget `1` is in the related widgets of
the style of widget `0` and widget `0` in those of the style of widget `1`. -/
def mutualWorld : World :=
  (World.empty.setStyle 0
      { mNoncacheableStyles := [ruleARed], mRelatedWidgets := [1], mSubscribedWidgets := [1] }
    ).setStyle
    1 { mNoncacheableStyles := [ruleAGreen], mRelatedWidgets := [0], mSubscribedWidgets := [0] }

/-- The rule `.b:hover .a {color: red}`: whether it applies to a widget depends on another
widget, so its selector is not cacheable. -/
def ruleHoverRed : StyleSheetStyle :=
  { selector := { name := ".b:hover .a", specificity := 200, cacheable := false,
                  pseudoClasses := true },
    properties := [{ name := "color", value := "red", specificity := 200 }] }

/-- A scene of two widgets, `0` and `1`, with the stylesheet `.b:hover .a {color: red}`; the
rule selects both, its related elements for widget `0` are widget `1` and for widget `1`
widget `0` and an element that is no widget. -/
def sceneMutual : Scene :=
  { select := fun _ _ _ => true
    getRelatedElements := fun _ w _ =>
      if w = 0 then [some 1] else if w = 1 then [some 0, none] else []
    styleSheet := fun _ => some { mNodes := [ruleHoverRed] } }

/-- The element style of a new `UIStyle` in the examples. -/
def inlineStyle : StyleSheetStyle :=
  { selector := { name := "" } }

/-- The styles of widgets `0` and `1` are constructed in `sceneMutual`, then that of widget `0`
is loaded again: each style is subscribed to the other. -/
def worldMutual : World :=
  load sceneMutual 0
    (construct sceneMutual {} inlineStyle 1 (construct sceneMutual {} inlineStyle 0 World.empty))

/-- The declaration `color: red` of the rule `.b ~ .a`. -/
def colorRedSibling : StyleSheetProperty :=
  { name := "color", value := "red", specificity := 200 }

/-- The declaration `color: green` of the rule `.a.c`. -/
def colorGreenClass : StyleSheetProperty :=
  { name := "color", value := "green", specificity := 200 }

/-- The rule `.b ~ .a {color: red}`: it depends on a sibling, its selector is not cacheable. -/
def ruleSiblingRed : StyleSheetStyle :=
  { selector := { name := ".b ~ .a", specificity := 200, cacheable := false },
    properties := [colorRedSibling] }

/-- The rule `.a.c {color: green}`, of the same specificity, with a cacheable selector. -/
def ruleClassGreen : StyleSheetStyle :=
  { selector := { name := ".a.c", specificity := 200 }, properties := [colorGreenClass] }

/-- A scene whose stylesheet is `.b ~ .a {color: red}` followed by `.a.c {color: green}`; both
rules select every widget, the related element of the first is widget `1`. -/
def sceneTie : Scene :=
  { select := fun _ _ _ => true
    getRelatedElements := fun sel _ _ => if sel.cacheable then [] else [some 1]
    styleSheet := fun _ => some { mNodes := [ruleSiblingRed, ruleClassGreen] } }

/-- A scene whose stylesheet is `.a {color: red}` followed by `.a {color: green}`. -/
def sceneRedGreen : Scene :=
  { select := fun _ _ _ => true
    styleSheet := fun _ => some { mNodes := [ruleARed, ruleAGreen] } }

/-- The world with one style, that of widget `0`, as its constructor initialises it. -/
def worldFresh : World :=
  World.empty.setStyle 0 (UIStyle.fresh {} inlineStyle)

/-- The state flags of the examples: six flags, the flag of index `i` is `2 ^ i` (index `0`
the normal state, index `3` hover). -/
def flagsPow : StateFlags :=
  { StateFlagCount := 6, getStateFlag := fun i => 2 ^ i }

/-- A style whose widget is hovered: the flags of indices `0` and `3` are set and the current
state is the flag of index `3`, the highest that is set. -/
def styleHover : UIStyle :=
  { mState := 9, mCurrentState := 8, mPreviousState := 1 }

/-- The keyframes definition `fade`. -/
def keyframesFade : KeyframesDefinition :=
  { name := "fade", blocks := [(0, [colorRed]), (100, [colorBlue])] }

/-- A second keyframes definition `fade`. -/
def keyframesFadeGreen : KeyframesDefinition :=
  { name := "fade", blocks := [(0, [colorGreen])] }

/-- The keyframes definition `spin`. -/
def keyframesSpin : KeyframesDefinition :=
  { name := "spin", blocks := [(0, [])] }

/-- A keyframes definition with the reserved name `none`. -/
def keyframesNone : KeyframesDefinition :=
  { name := "none", blocks := [(0, [colorRed])] }

/-- The rule `.a {color: red}` inside a media block whose media-query list is list `1`. -/
def ruleMediaOne : StyleSheetStyle :=
  { selector := { name := ".a", specificity := 100 }, properties := [colorRed],
    atRuleType := 1, mediaQueryList := some 1 }

/-- The rule `.a {color: green}` inside a media block whose media-query list is list `2`. -/
def ruleMediaTwo : StyleSheetStyle :=
  { selector := { name := ".a", specificity := 100 }, properties := [colorGreen],
    atRuleType := 1, mediaQueryList := some 2 }

/-- A stylesheet with a plain rule, two rules of list `1`, a rule of list `2` and the keyframes
`fade`, built by `addStyle` and `addKeyframes`. -/
def sheetMedia : StyleSheet :=
  (((((({} : StyleSheet).addStyle ruleARed).addStyle ruleMediaOne).addStyle
    ruleMediaOne).addStyle ruleMediaTwo).addKeyframes keyframesNone).addKeyframes keyframesFade

/-- A stylesheet with the keyframes `fade` (another definition) and `spin`, and an entry named
`none` put into its map by hand. -/
def sheetOther : StyleSheet :=
  { mNodes := [ruleAGreen, ruleMediaTwo],
    mKeyframesMap := [keyframesFadeGreen, keyframesNone, keyframesSpin] }

/-- The world whose only style, that of widget `0`, is `styleHover`. -/
def worldHover : World :=
  World.empty.setStyle 0 styleHover

/-- The state of the style of `widget` once `updateState` has returned. -/
def stateAfterUpdateState (sc : Scene) (flags : StateFlags) (depth : Nat) (widget : WidgetId)
    (w : World) : Option UIState :=
  (updateState sc flags depth widget w).bind
    (fun w1 => (w1.styles widget).map (fun s => s.toUIState))

/-- The rule `.a {transition: all 1s; color: red}`. -/
def ruleTransition : StyleSheetStyle :=
  { selector := { name := ".a", specificity := 100 },
    properties := [{ name := "color", value := "red", specificity := 100 },
      { name := "transition", value := "all 1s", specificity := 100 }] }

/-- A parser that reads every value as the rectangle with left `16`, right `8`, top `4` and
bottom `12`, the rectangle of `4 8 12 16`. -/
def parserFixed : NodeAttributeParser :=
  { asRectf := fun _ _ => { Left := "16", Right := "8", Top := "4", Bottom := "12" }
    asRect := fun _ _ => { Left := "16", Right := "8", Top := "4", Bottom := "12" } }

/-- The attribute `padding: 4 8 12 16` with a specificity, the volatile flag and the override
flag. -/
def paddingImportant : StyleSheetProperty :=
  { name := "padding", value := "4 8 12 16", specificity := importantSpecificity,
    isVolatile := true }

/-- The rule `.b:hover .a {width: 10}`: its selector is not cacheable. -/
def ruleHoverWidth : StyleSheetStyle :=
  { selector := { name := ".b:hover .a", specificity := 200, cacheable := false,
                  pseudoClasses := true },
    properties := [{ name := "width", value := "10", specificity := 200 }] }

/-- A scene of three widgets with the stylesheet `.b:hover .a {width: 10}` followed by
`.a {color: green}`: the cacheable rule selects every widget, the other rule selects widget
`1` only, and its related element for widget `1` is widget `0`. -/
def sceneThree : Scene :=
  { select := fun sel w _ => sel.cacheable || decide (w = 1)
    getRelatedElements := fun sel w _ => if w = 1 ∧ sel.cacheable = false then [some 0] else []
    styleSheet := fun _ => some { mNodes := [ruleHoverWidth, ruleAGreen] } }

/-- The scene of `sceneThree` at a moment at which the selector `.a` selects no widget: only
the rule that is not cacheable selects widget `1`. -/
def sceneHover : Scene :=
  { select := fun sel w _ => !sel.cacheable && decide (w = 1)
    getRelatedElements := fun sel w _ => if w = 1 ∧ sel.cacheable = false then [some 0] else []
    styleSheet := fun _ => some { mNodes := [ruleHoverWidth, ruleAGreen] } }

/-- The styles of widgets `0`, `1` and `2` are constructed in `sceneThree`: the style of
widget `1` is subscribed to widget `0`, the style of widget `2` has the cacheable rule only. -/
def worldThree : World :=
  construct sceneThree {} inlineStyle 2
    (construct sceneThree {} inlineStyle 1 (construct sceneThree {} inlineStyle 0 World.empty))

/-- The style of `other` once `onStateChange` of the style of `widget` has returned. -/
def styleOfAfterStateChange (sc : Scene) (depth : Nat) (widget other : WidgetId) (w : World) :
    Option UIStyle :=
  (onStateChange sc depth widget w).bind (fun w1 => w1.styles other)

/-- The declaration `width: 20` of the inline style. -/
def widthInline : StyleSheetProperty :=
  { name := "width", value := "20", specificity := 1000000 }

/-- The rule `.a:hover {color: blue; height: 5}`: cacheable, with a pseudo-class. -/
def ruleAHover : StyleSheetStyle :=
  { selector := { name := ".a:hover", specificity := 200, pseudoClasses := true },
    properties := [{ name := "color", value := "blue", specificity := 200 },
      { name := "height", value := "5", specificity := 200 }] }

/-- A style with the inline declaration `width: 20`, the cacheable rules `.a:hover {color: blue;
height: 5}`, `.a {color: red}` and `.a {color: green}`, and the non-cacheable rule
`.b:hover .a {width: 10}`. -/
def styleStateless : UIStyle :=
  { mElementStyle := { selector := { name := "" }, properties := [widthInline] }
    mCacheableStyles := [ruleAHover, ruleARed, ruleAGreen]
    mNoncacheableStyles := [ruleHoverWidth] }

/-- A style whose transitions map has an entry for `all` and one for `width`. -/
def styleTransitions : UIStyle :=
  { mTransitions := [("all", { property := "all", duration := 100 }),
      ("width", { property := "width", duration := 250 })] }

/-- A style whose transitions map has an entry for `width` only. -/
def styleTransitionWidth : UIStyle :=
  { mTransitions := [("width", { property := "width", duration := 250 })] }

/-- The rule `.b ~ .a {color: blue}` with the specificity of `.a`: not cacheable. -/
def ruleSiblingBlue : StyleSheetStyle :=
  { selector := { name := ".b ~ .a", specificity := 100, cacheable := false },
    properties := [{ name := "color", value := "blue", specificity := 100 }] }

/-- The rule `a {color: gray}`, of a lower specificity than `.a`: not cacheable. -/
def ruleTypeGray : StyleSheetStyle :=
  { selector := { name := ".b ~ a", specificity := 1, cacheable := false },
    properties := [{ name := "color", value := "gray", specificity := 1 }] }

/-- A style with the inline declaration `color: red`, the cacheable rule `.a {color: green}`
and the given non-cacheable rules; the three declarations have the same specificity. -/
def styleTie (noncacheable : List StyleSheetStyle) : UIStyle :=
  { mElementStyle := { selector := { name := "" }, properties := [colorRed] }
    mCacheableStyles := [ruleAGreen]
    mNoncacheableStyles := noncacheable }

/-- The declaration `padding: 4 8 12 16` of a rule `.a`. -/
def paddingShorthand : StyleSheetProperty :=
  { name := "padding", value := "4 8 12 16", specificity := 100 }

/-- The rule `.a {padding: 4 8 12 16}`. -/
def rulePadding : StyleSheetStyle :=
  { selector := { name := ".a", specificity := 100 }, properties := [paddingShorthand] }

/-- The rule `#x.a {padding-left: 1}`, more specific than `.a`. -/
def rulePaddingLeft : StyleSheetStyle :=
  { selector := { name := "#x.a", specificity := 10100 },
    properties := [{ name := "padding-left", value := "1", specificity := 10100 }] }

/-- The world with one style, that of widget `0`: a new style to which the inline attributes
`padding: 4 8 12 16` and `width: 20` were given through `setStyleSheetProperties`. -/
def worldInline : World :=
  World.empty.setStyle 0
    (UIStyle.setStyleSheetProperties parserFixed (UIStyle.fresh {} inlineStyle)
      [paddingImportant, widthInline])

/-- The world `worldMutual` in the middle of `onStateChange` of the style of widget `0`: that
style has resolved its properties and called `onStateChange` of the style of its related widget
`1`, which has resolved its properties and is about to call its related widget `0`. -/
def worldReentered : World :=
  midStateChange sceneMutual 1 (midStateChange sceneMutual 0 worldMutual)

/-! # Properties -/

/-! ## `getElementStyles` -/

theorem getElementStyles_loop (sc : Scene) (element : WidgetId) (applyPseudo : Bool)
    (nodes acc : List StyleSheetStyle) :
    nodes.foldl
        (fun styles node =>
          if sc.select node.selector element applyPseudo then styles ++ [node] else styles)
        acc
      = acc ++ nodes.filter (fun node => sc.select node.selector element applyPseudo) := by
  induction nodes generalizing acc with
  | nil => simp
  | cons node rest ih =>
    by_cases h : sc.select node.selector element applyPseudo = true
    · simp [List.foldl_cons, h, ih]
    · simp [List.foldl_cons, h, ih]

theorem getElementStyles_eq_filter (sc : Scene) (sheet : StyleSheet) (element : WidgetId)
    (applyPseudo : Bool) :
    sheet.getElementStyles sc element applyPseudo
      = sheet.mNodes.filter (fun node => sc.select node.selector element applyPseudo) := by
  simp [StyleSheet.getElementStyles, getElementStyles_loop]

/-- C10. `getElementStyles( widget, applyPseudo )` is the sub-sequence of the stylesheet's
rules whose selector selects the widget, in insertion order: it is the filter of `mNodes`,
a sublist of it, it holds exactly the selected rules, a selected rule as often as the
stylesheet holds it and any other rule not at all. The function is `const`: the stylesheet is
an argument only. -/
theorem getElementStyles_subsequence (sc : Scene) (sheet : StyleSheet) (element : WidgetId)
    (applyPseudo : Bool) :
    sheet.getElementStyles sc element applyPseudo
        = sheet.mNodes.filter (fun node => sc.select node.selector element applyPseudo)
      ∧ (sheet.getElementStyles sc element applyPseudo).Sublist sheet.mNodes
      ∧ (∀ node, node ∈ sheet.getElementStyles sc element applyPseudo
          ↔ node ∈ sheet.mNodes ∧ sc.select node.selector element applyPseudo = true)
      ∧ (∀ node, sc.select node.selector element applyPseudo = true →
          (sheet.getElementStyles sc element applyPseudo).count node
            = sheet.mNodes.count node)
      ∧ (∀ node, sc.select node.selector element applyPseudo = false →
          (sheet.getElementStyles sc element applyPseudo).count node = 0) := by
  rw [getElementStyles_eq_filter]
  refine ⟨rfl, List.filter_sublist _, ?_, ?_, ?_⟩
  · intro node
    simp [List.mem_filter]
  · intro node h
    rw [List.count_filter]
    simpa using h
  · intro node h
    rw [List.count_eq_zero]
    simp [List.mem_filter, h]

/-! ## The property map -/

theorem mapFind_cons (q : StyleSheetProperty) (m : List StyleSheetProperty) (p : String) :
    mapFind (q :: m) p = if q.name = p then some q else mapFind m p := by
  by_cases h : q.name = p <;> simp [mapFind, List.find?_cons, h]

theorem mapFind_mapAssign (m : List StyleSheetProperty) (d : StyleSheetProperty) (p : String) :
    mapFind (mapAssign m d) p = if d.name = p then some d else mapFind m p := by
  induction m with
  | nil => simp [mapAssign, mapFind_cons]
  | cons q m ih =>
    rw [mapAssign]
    by_cases h : d.name = p
    · by_cases hq : d.name = q.name
      · rw [if_pos hq, mapFind_cons, if_pos h, if_pos h]
      · rw [if_neg hq, if_pos h]
        by_cases hl : keyLess d.name q.name = true
        · rw [if_pos hl, mapFind_cons, if_pos h]
        · rw [if_neg hl, mapFind_cons, if_neg (fun e => hq (h.trans e.symm)), ih, if_pos h]
    · rw [if_neg h, mapFind_cons]
      by_cases hq : d.name = q.name
      · rw [if_pos hq, mapFind_cons, if_neg h, if_neg (fun e => h (hq.trans e))]
      · rw [if_neg hq]
        by_cases hl : keyLess d.name q.name = true
        · rw [if_pos hl, mapFind_cons, if_neg h, mapFind_cons]
        · rw [if_neg hl, mapFind_cons, ih, if_neg h]

/-- The property map after the loop body of `tryApplyStyle`. -/
theorem mapFind_applyProperty (s : UIStyle) (d : StyleSheetProperty) (p : String) :
    mapFind (s.applyProperty d).mProperties p =
      if d.name = p then
        (match mapFind s.mProperties p with
          | none => some d
          | some it => if d.specificity ≥ it.specificity then some d else some it)
      else mapFind s.mProperties p := by
  unfold UIStyle.applyProperty
  by_cases h : d.name = p
  · subst h
    rw [if_pos rfl]
    cases hf : mapFind s.mProperties d.name with
    | none => simp [mapFind_mapAssign]
    | some it =>
      by_cases hge : d.specificity ≥ it.specificity
      · simp [hge, mapFind_mapAssign]
      · simp [hge, hf]
  · rw [if_neg h]
    cases hf : mapFind s.mProperties d.name with
    | none => simp [mapFind_mapAssign, h]
    | some it =>
      by_cases hge : d.specificity ≥ it.specificity
      · simp [hge, mapFind_mapAssign, h]
      · simp [hge]

/-! ## The loop of `tryApplyStyle` -/

/-- After the properties `seq` went through the loop body of `tryApplyStyle`, starting without
an entry for `p`: the entry for `p` is a property of `seq` named `p` of greatest specificity,
and there is one as soon as `seq` has a property named `p`. -/
theorem foldl_applyProperty_find (seq : List StyleSheetProperty) (s : UIStyle) (p : String)
    (h0 : mapFind s.mProperties p = none) :
    (∀ d, mapFind (seq.foldl UIStyle.applyProperty s).mProperties p = some d →
        d ∈ seq ∧ d.name = p ∧ ∀ e ∈ seq, e.name = p → e.specificity ≤ d.specificity)
      ∧ (∀ e ∈ seq, e.name = p →
          ∃ d, mapFind (seq.foldl UIStyle.applyProperty s).mProperties p = some d) := by
  induction seq using List.reverseRecOn with
  | nil => simp [h0]
  | append_singleton l a ih =>
    obtain ⟨ih1, ih2⟩ := ih
    rw [List.foldl_append, List.foldl_cons, List.foldl_nil, mapFind_applyProperty]
    by_cases ha : a.name = p
    · rw [if_pos ha]
      cases hf : mapFind (l.foldl UIStyle.applyProperty s).mProperties p with
      | none =>
        have hnone : ∀ e ∈ l, e.name ≠ p := by
          intro e he hn
          obtain ⟨d, hd⟩ := ih2 e he hn
          rw [hf] at hd
          cases hd
        refine ⟨?_, ?_⟩
        · intro d hd
          simp only [Option.some.injEq] at hd
          subst hd
          refine ⟨by simp, ha, ?_⟩
          intro e he hn
          rcases List.mem_append.mp he with he | he
          · exact absurd hn (hnone e he)
          · simp only [List.mem_singleton] at he
            rw [he]
        · intro e _ _
          exact ⟨a, rfl⟩
      | some it =>
        obtain ⟨hit1, hit2, hit3⟩ := ih1 it hf
        by_cases hge : a.specificity ≥ it.specificity
        · simp only [hge, if_true]
          refine ⟨?_, fun e _ _ => ⟨a, rfl⟩⟩
          intro d hd
          simp only [Option.some.injEq] at hd
          subst hd
          refine ⟨by simp, ha, ?_⟩
          intro e he hn
          rcases List.mem_append.mp he with he | he
          · exact le_trans (hit3 e he hn) hge
          · simp only [List.mem_singleton] at he
            rw [he]
        · simp only [hge, if_false]
          refine ⟨?_, fun e _ _ => ⟨it, rfl⟩⟩
          intro d hd
          simp only [Option.some.injEq] at hd
          subst hd
          refine ⟨List.mem_append_left _ hit1, hit2, ?_⟩
          intro e he hn
          rcases List.mem_append.mp he with he | he
          · exact hit3 e he hn
          · simp only [List.mem_singleton] at he
            rw [he]
            omega
    · rw [if_neg ha]
      refine ⟨?_, ?_⟩
      · intro d hd
        obtain ⟨h1, h2, h3⟩ := ih1 d hd
        refine ⟨List.mem_append_left _ h1, h2, ?_⟩
        intro e he hn
        rcases List.mem_append.mp he with he | he
        · exact h3 e he hn
        · simp only [List.mem_singleton] at he
          rw [he] at hn
          exact absurd hn ha
      · intro e he hn
        rcases List.mem_append.mp he with he | he
        · exact ih2 e he hn
        · simp only [List.mem_singleton] at he
          rw [he] at hn
          exact absurd hn ha

/-- The last property of greatest specificity wins: when `d`, named `p`, stands in the second
part of the sequence, nothing named `p` before that part is more specific than `d` and
everything named `p` in that part is `d` or less specific, the entry for `p` is `d`. -/
theorem foldl_applyProperty_last (l1 l2 : List StyleSheetProperty) (s : UIStyle) (p : String)
    (d : StyleSheetProperty) (h0 : mapFind s.mProperties p = none)
    (hd : d ∈ l2) (hn : d.name = p)
    (h1 : ∀ e ∈ l1, e.name = p → e.specificity ≤ d.specificity)
    (h2 : ∀ e ∈ l2, e.name = p → e.specificity < d.specificity ∨ e = d) :
    mapFind ((l1 ++ l2).foldl UIStyle.applyProperty s).mProperties p = some d := by
  induction l2 using List.reverseRecOn with
  | nil => simp at hd
  | append_singleton l a ih =>
    rw [← List.append_assoc, List.foldl_append, List.foldl_cons, List.foldl_nil,
      mapFind_applyProperty]
    have h2l : ∀ e ∈ l, e.name = p → e.specificity < d.specificity ∨ e = d :=
      fun e he => h2 e (List.mem_append_left _ he)
    have hle : ∀ e ∈ l1 ++ l, e.name = p → e.specificity ≤ d.specificity := by
      intro e he hne
      rcases List.mem_append.mp he with he | he
      · exact h1 e he hne
      · rcases h2l e he hne with h | h
        · omega
        · rw [h]
    by_cases ha : a.name = p
    · rw [if_pos ha]
      rcases h2 a (by simp) ha with hlt | heq
      · have hdl : d ∈ l := by
          rcases List.mem_append.mp hd with h | h
          · exact h
          · simp only [List.mem_singleton] at h
            rw [h] at hlt
            omega
        rw [ih hdl h2l]
        have : ¬ a.specificity ≥ d.specificity := by omega
        simp [this]
      · subst heq
        cases hf : mapFind ((l1 ++ l).foldl UIStyle.applyProperty s).mProperties p with
        | none => rfl
        | some it =>
          obtain ⟨hit1, hit2, _⟩ := (foldl_applyProperty_find (l1 ++ l) s p h0).1 it hf
          have := hle it hit1 hit2
          simp [this]
    · rw [if_neg ha]
      have hdl : d ∈ l := by
        rcases List.mem_append.mp hd with h | h
        · exact h
        · simp only [List.mem_singleton] at h
          rw [h] at hn
          exact absurd hn ha
      exact ih hdl h2l

/-! ## The rules in the order of `onStateChange` -/

theorem mem_appliedProperties (sc : Scene) (widget : WidgetId) (rules : List StyleSheetStyle)
    (d : StyleSheetProperty) :
    d ∈ appliedProperties sc widget rules ↔
      ∃ R ∈ rules,
        sc.select R.selector widget sc.selectDefault = true ∧ d ∈ R.properties := by
  simp [appliedProperties, List.mem_flatMap, List.mem_filter, and_assoc]

theorem appliedProperties_append (sc : Scene) (widget : WidgetId)
    (r1 r2 : List StyleSheetStyle) :
    appliedProperties sc widget (r1 ++ r2)
      = appliedProperties sc widget r1 ++ appliedProperties sc widget r2 := by
  simp [appliedProperties, List.filter_append, List.flatMap_append]

theorem foldl_tryApplyStyle (sc : Scene) (widget : WidgetId) (rules : List StyleSheetStyle)
    (s : UIStyle) :
    rules.foldl (UIStyle.tryApplyStyle sc widget) s
      = (appliedProperties sc widget rules).foldl UIStyle.applyProperty s := by
  induction rules generalizing s with
  | nil => simp [appliedProperties]
  | cons R rest ih =>
    rw [List.foldl_cons, ih]
    by_cases h : sc.select R.selector widget sc.selectDefault = true
    · simp [appliedProperties, UIStyle.tryApplyStyle, h, List.foldl_append]
    · simp [appliedProperties, UIStyle.tryApplyStyle, h]

/-- The property map that `resolve` computes: the properties of the matching rules, in the
order of the rules, go through the loop body of `tryApplyStyle`, starting from the empty
map. -/
theorem resolve_mProperties (sc : Scene) (widget : WidgetId) (self : UIStyle) :
    (UIStyle.resolve sc widget self).mProperties
      = ((appliedProperties sc widget self.rules).foldl UIStyle.applyProperty
          self.beginStateChange).mProperties := by
  have h := foldl_tryApplyStyle sc widget self.rules self.beginStateChange
  rw [← h]
  simp [UIStyle.resolve, UIStyle.rules, List.foldl_append]

/-! ## What `resolve` reads and writes -/

theorem applyProperty_withTransitions (s : UIStyle) (d : StyleSheetProperty)
    (t : List (String × TransitionDefinition)) :
    UIStyle.applyProperty { s with mTransitions := t } d
      = { s.applyProperty d with mTransitions := t } := by
  unfold UIStyle.applyProperty
  simp only
  cases mapFind s.mProperties d.name with
  | none => rfl
  | some it => by_cases h : d.specificity ≥ it.specificity <;> simp [h]

theorem foldl_applyProperty_withTransitions (seq : List StyleSheetProperty) (s : UIStyle)
    (t : List (String × TransitionDefinition)) :
    seq.foldl UIStyle.applyProperty { s with mTransitions := t }
      = { seq.foldl UIStyle.applyProperty s with mTransitions := t } := by
  induction seq generalizing s with
  | nil => rfl
  | cons d rest ih => rw [List.foldl_cons, applyProperty_withTransitions, ih, List.foldl_cons]

theorem unresolved_applyProperty (s : UIStyle) (d : StyleSheetProperty) :
    (s.applyProperty d).unresolved = s.unresolved := by
  unfold UIStyle.applyProperty
  simp only
  cases mapFind s.mProperties d.name with
  | none => rfl
  | some it => by_cases h : d.specificity ≥ it.specificity <;> simp [h, UIStyle.unresolved]

theorem unresolved_foldl_applyProperty (seq : List StyleSheetProperty) (s : UIStyle) :
    (seq.foldl UIStyle.applyProperty s).unresolved = s.unresolved := by
  induction seq generalizing s with
  | nil => rfl
  | cons d rest ih => rw [List.foldl_cons, ih, unresolved_applyProperty]

/-- The function `resolve` written as one pass over the applied properties. -/
theorem resolve_eq (sc : Scene) (widget : WidgetId) (self : UIStyle) :
    UIStyle.resolve sc widget self
      = { (appliedProperties sc widget self.rules).foldl UIStyle.applyProperty
            self.beginStateChange with
          mTransitions := sc.parseTransitionProperties
            ((appliedProperties sc widget self.rules).foldl UIStyle.applyProperty
              self.beginStateChange).mTransitionAttributes } := by
  have h := foldl_tryApplyStyle sc widget self.rules self.beginStateChange
  rw [← h]
  simp [UIStyle.resolve, UIStyle.rules, List.foldl_append]

/-- The function `resolve` leaves alone all that it does not write. -/
theorem unresolved_resolve (sc : Scene) (widget : WidgetId) (self : UIStyle) :
    (UIStyle.resolve sc widget self).unresolved = self.unresolved := by
  rw [resolve_eq]
  have h := unresolved_foldl_applyProperty (appliedProperties sc widget self.rules)
    self.beginStateChange
  have h2 : self.beginStateChange.unresolved = self.unresolved := rfl
  rw [h2] at h
  rw [← h]
  rfl

/-- The function `resolve` reads nothing of what it writes. -/
theorem resolve_unresolved (sc : Scene) (widget : WidgetId) (self : UIStyle) :
    UIStyle.resolve sc widget self.unresolved = UIStyle.resolve sc widget self := by
  have key : (appliedProperties sc widget self.rules).foldl UIStyle.applyProperty
        self.beginStateChange
      = { (appliedProperties sc widget self.rules).foldl UIStyle.applyProperty
            self.unresolved.beginStateChange with mTransitions := self.mTransitions } :=
    foldl_applyProperty_withTransitions (appliedProperties sc widget self.rules)
      self.unresolved.beginStateChange self.mTransitions
  rw [resolve_eq, resolve_eq sc widget self, key]
  rfl

theorem resolve_congr (sc : Scene) (widget : WidgetId) (s1 s2 : UIStyle)
    (h : s1.unresolved = s2.unresolved) :
    UIStyle.resolve sc widget s1 = UIStyle.resolve sc widget s2 := by
  rw [← resolve_unresolved sc widget s1, ← resolve_unresolved sc widget s2, h]

/-! ## `onStateChange` through the related widgets -/

theorem pass_refl (sc : Scene) (w : World) : Pass sc w w :=
  fun _ => ⟨rfl, fun s s1 h h1 => Or.inl (by rw [h] at h1; cases h1; rfl)⟩

theorem pass_trans (sc : Scene) (w1 w2 w3 : World) (h12 : Pass sc w1 w2) (h23 : Pass sc w2 w3) :
    Pass sc w1 w3 := by
  intro b
  obtain ⟨e12, r12⟩ := h12 b
  obtain ⟨e23, r23⟩ := h23 b
  refine ⟨e23.trans e12, ?_⟩
  intro s s3 hs hs3
  cases hs2 : w2.styles b with
  | none => rw [hs2, hs] at e12; cases e12
  | some s2 =>
    have hu : s2.unresolved = s.unresolved := by
      rw [hs2, hs] at e12
      simpa using e12
    rcases r23 s2 s3 hs2 hs3 with h | h
    · rcases r12 s s2 hs hs2 with h' | h'
      · exact Or.inl (h.trans h')
      · exact Or.inr (h.trans h')
    · right
      rw [h, resolve_congr sc b s2 s hu]

theorem pass_resolve (sc : Scene) (w : World) (x : WidgetId) (self : UIStyle)
    (calls : List WidgetCall) (h : w.styles x = some self) :
    Pass sc w { styles := (w.setStyle x (UIStyle.resolve sc x self)).styles, calls := calls } := by
  intro b
  by_cases hb : b = x
  · subst hb
    simp only [World.setStyle, if_true, h, Option.map_some', Option.some.injEq]
    refine ⟨unresolved_resolve sc b self, ?_⟩
    intro s s1 hs hs1
    subst hs
    subst hs1
    exact Or.inr rfl
  · simp only [World.setStyle, if_neg hb]
    refine ⟨trivial, ?_⟩
    intro s s1 hs hs1
    rw [hs] at hs1
    cases hs1
    exact Or.inl rfl

theorem pass_lower (sc : Scene) (w : World) (x : WidgetId) :
    Pass sc w (w.modify x (fun s => { s with mChangingState := false })) := by
  intro b
  by_cases hb : b = x
  · subst hb
    simp only [World.modify, if_true]
    cases hs : w.styles b with
    | none => simp
    | some s =>
      refine ⟨rfl, ?_⟩
      intro s0 s1 hs0 hs1
      simp only [Option.map_some', Option.some.injEq] at hs0 hs1
      subst hs0
      subst hs1
      exact Or.inl rfl
  · simp only [World.modify, if_neg hb]
    refine ⟨trivial, ?_⟩
    intro s s1 hs hs1
    rw [hs] at hs1
    cases hs1
    exact Or.inl rfl

/-- A completed `onStateChange` of the style of `x`: every style of the world keeps all but
what a resolution writes and has the resolution it had or the one `resolve` computes for it;
the style of `x` has the one `resolve` computes. -/
theorem onStateChange_pass (sc : Scene) (depth : Nat) :
    ∀ (x : WidgetId) (w w1 : World), onStateChange sc depth x w = some w1 →
      Pass sc w w1 ∧ ∀ s, w.styles x = some s →
        ∃ s1, w1.styles x = some s1 ∧ s1.resolution = (UIStyle.resolve sc x s).resolution := by
  induction depth with
  | zero => intro x w w1 h; simp [onStateChange] at h
  | succ depth ih =>
    intro x w w1 h
    have hloop : ∀ (L : List WidgetId) (wa wb : World),
        L.foldlM (fun w2 related => onStateChange sc depth related w2) wa = some wb →
          Pass sc wa wb := by
      intro L
      induction L with
      | nil =>
        intro wa wb hab
        simp only [List.foldlM_nil, Option.pure_def, Option.some.injEq] at hab
        subst hab
        exact pass_refl sc wa
      | cons r rest ihL =>
        intro wa wb hab
        rw [List.foldlM_cons] at hab
        cases hr : onStateChange sc depth r wa with
        | none => rw [hr] at hab; simp at hab
        | some wr =>
          rw [hr] at hab
          simp only [Option.bind_eq_bind, Option.some_bind] at hab
          exact pass_trans sc wa wr wb (ih r wa wr hr).1 (ihL wr wb hab)
    rw [onStateChange] at h
    cases hs : w.styles x with
    | none =>
      rw [hs] at h
      simp only [Option.some.injEq] at h
      subst h
      exact ⟨pass_refl sc w, fun s h => by cases h⟩
    | some self =>
      rw [hs] at h
      simp only [Option.map_eq_some'] at h
      obtain ⟨w2, hw2, rfl⟩ := h
      have p1 := pass_resolve sc w x self (w.calls ++ UIStyle.attributeCalls x
        (UIStyle.resolve sc x self)) hs
      have p2 := hloop _ _ _ hw2
      have p3 := pass_lower sc w2 x
      have p12 := pass_trans sc _ _ _ p1 p2
      refine ⟨pass_trans sc _ _ _ p12 p3, ?_⟩
      intro s hs'
      cases hs'
      obtain ⟨e2, r2⟩ := p2 x
      simp only [World.setStyle, if_true] at e2 r2
      cases hx2 : w2.styles x with
      | none => rw [hx2] at e2; cases e2
      | some s2 =>
        refine ⟨{ s2 with mChangingState := false }, by simp [World.modify, hx2], ?_⟩
        have hres : s2.resolution = (UIStyle.resolve sc x self).resolution := by
          rcases r2 _ s2 rfl hx2 with h | h
          · exact h
          · rw [h, resolve_congr sc x _ self (unresolved_resolve sc x self)]
        exact hres

/-! ## The cascade: specificity -/

/-- Once `onStateChange` of the style of `x` has returned, the style has the resolution that
`resolve` computes. -/
theorem styleAfterStateChange_resolution (sc : Scene) (depth : Nat) (x : WidgetId) (w : World)
    (s s1 : UIStyle) (hs : w.styles x = some s)
    (h : styleAfterStateChange sc depth x w = some s1) :
    s1.resolution = (UIStyle.resolve sc x s).resolution := by
  unfold styleAfterStateChange at h
  cases hr : onStateChange sc depth x w with
  | none => rw [hr] at h; cases h
  | some w1 =>
    rw [hr] at h
    obtain ⟨s2, hs2, hres⟩ := (onStateChange_pass sc depth x w w1 hr).2 s hs
    simp only [Option.some_bind] at h
    rw [hs2] at h
    cases h
    exact hres

theorem styleAfterStateChange_mProperties (sc : Scene) (depth : Nat) (x : WidgetId) (w : World)
    (s s1 : UIStyle) (hs : w.styles x = some s)
    (h : styleAfterStateChange sc depth x w = some s1) :
    s1.mProperties = (UIStyle.resolve sc x s).mProperties :=
  congrArg Prod.fst (styleAfterStateChange_resolution sc depth x w s s1 hs h)

/-- The entry of the resolved map for `p` is a declaration of a matching rule, of greatest
specificity among the declarations of `p` by matching rules. -/
theorem resolve_find_max (sc : Scene) (x : WidgetId) (s : UIStyle) (p : String)
    (d : StyleSheetProperty) (h : mapFind (UIStyle.resolve sc x s).mProperties p = some d) :
    (∃ R ∈ s.rules, sc.select R.selector x sc.selectDefault = true ∧ d ∈ R.properties)
      ∧ d.name = p
      ∧ ∀ R2 ∈ s.rules, sc.select R2.selector x sc.selectDefault = true →
          ∀ d2 ∈ R2.properties, d2.name = p → d2.specificity ≤ d.specificity := by
  rw [resolve_mProperties] at h
  obtain ⟨h1, h2, h3⟩ :=
    (foldl_applyProperty_find (appliedProperties sc x s.rules) s.beginStateChange p rfl).1 d h
  refine ⟨(mem_appliedProperties sc x s.rules d).mp h1, h2, ?_⟩
  intro R2 hR2 hm2 d2 hd2 hn2
  exact h3 d2 ((mem_appliedProperties sc x s.rules d2).mpr ⟨R2, hR2, hm2, hd2⟩) hn2

/-- The resolved map has an entry for every property that a matching rule declares. -/
theorem resolve_find_some (sc : Scene) (x : WidgetId) (s : UIStyle) (p : String)
    (R : StyleSheetStyle) (d : StyleSheetProperty) (hR : R ∈ s.rules)
    (hm : sc.select R.selector x sc.selectDefault = true) (hd : d ∈ R.properties)
    (hn : d.name = p) :
    ∃ d1, mapFind (UIStyle.resolve sc x s).mProperties p = some d1 := by
  rw [resolve_mProperties]
  exact (foldl_applyProperty_find (appliedProperties sc x s.rules) s.beginStateChange p rfl).2 d
    ((mem_appliedProperties sc x s.rules d).mpr ⟨R, hR, hm, hd⟩) hn

/-- The last matching rule of greatest specificity wins: when the rules are `pre`, `R`, `post`
in this order, `R` matches and declares `p` once, as `d`, no matching rule of `pre` declares `p`
with a greater specificity and every matching rule of `post` declares it with a lower one,
the entry for `p` is `d`. -/
theorem resolve_find_last (sc : Scene) (x : WidgetId) (s : UIStyle) (p : String)
    (pre post : List StyleSheetStyle) (R : StyleSheetStyle) (d : StyleSheetProperty)
    (hrules : s.rules = pre ++ R :: post)
    (hm : sc.select R.selector x sc.selectDefault = true) (hd : d ∈ R.properties)
    (hn : d.name = p) (hu : ∀ e ∈ R.properties, e.name = p → e = d)
    (hpre : ∀ R1 ∈ pre, sc.select R1.selector x sc.selectDefault = true →
      ∀ e ∈ R1.properties, e.name = p → e.specificity ≤ d.specificity)
    (hpost : ∀ R2 ∈ post, sc.select R2.selector x sc.selectDefault = true →
      ∀ e ∈ R2.properties, e.name = p → e.specificity < d.specificity) :
    mapFind (UIStyle.resolve sc x s).mProperties p = some d := by
  rw [resolve_mProperties, hrules, appliedProperties_append]
  apply foldl_applyProperty_last _ _ s.beginStateChange p d rfl
  · exact (mem_appliedProperties sc x _ d).mpr ⟨R, by simp, hm, hd⟩
  · exact hn
  · intro e he hne
    obtain ⟨R1, hR1, hm1, he1⟩ := (mem_appliedProperties sc x _ e).mp he
    exact hpre R1 hR1 hm1 e he1 hne
  · intro e he hne
    obtain ⟨R2, hR2, hm2, he2⟩ := (mem_appliedProperties sc x _ e).mp he
    rcases List.mem_cons.mp hR2 with h | h
    · subst h
      exact Or.inr (hu e he2 hne)
    · exact Or.inl (hpost R2 h hm2 e he2 hne)

theorem getStyleSheetProperty_of_find (s : UIStyle) (p : String) (d : StyleSheetProperty)
    (h : mapFind s.mProperties p = some d) : s.getStyleSheetProperty p = d := by
  simp [UIStyle.getStyleSheetProperty, h]

/-- C1. Specificity ordering. Let a rule `R1` of a style (the element style, a cacheable or a
non-cacheable rule, at any position) match the widget and declare `d1` under the name `p`. Then
the cascade of `onStateChange` resolves `p` to a declaration `d` of a matching rule of the
style, and `d` is the resolved `p` of the style whenever `onStateChange` has returned; no
matching rule declares `p` with a greater specificity than `d`, and `d` is not the declaration
of any matching rule that declares `p` with a lower specificity than `d1`. -/
theorem onStateChange_specificity_ordering (sc : Scene) (widget : WidgetId)
    (w : World) (self : UIStyle) (p : String) (R1 : StyleSheetStyle)
    (d1 : StyleSheetProperty)
    (hself : w.styles widget = some self)
    (hR1 : R1 ∈ self.rules) (hm1 : sc.select R1.selector widget sc.selectDefault = true)
    (hd1 : d1 ∈ R1.properties) (hn1 : d1.name = p) :
    ∃ R d, R ∈ self.rules ∧ sc.select R.selector widget sc.selectDefault = true
      ∧ d ∈ R.properties ∧ d.name = p
      ∧ (UIStyle.resolve sc widget self).getStyleSheetProperty p = d
      ∧ (∀ depth self1, styleAfterStateChange sc depth widget w = some self1 →
          self1.getStyleSheetProperty p = d)
      ∧ ∀ R2 ∈ self.rules, sc.select R2.selector widget sc.selectDefault = true →
          ∀ d2 ∈ R2.properties, d2.name = p →
            d2.specificity ≤ d.specificity
              ∧ (d2.specificity < d1.specificity → d ≠ d2) := by
  obtain ⟨d, hfind⟩ := resolve_find_some sc widget self p R1 d1 hR1 hm1 hd1 hn1
  obtain ⟨⟨R, hR, hm, hd⟩, hn, hmax⟩ := resolve_find_max sc widget self p d hfind
  refine ⟨R, d, hR, hm, hd, hn, getStyleSheetProperty_of_find _ p d hfind, ?_, ?_⟩
  · intro depth self1 hrun
    have hp := styleAfterStateChange_mProperties sc depth widget w self self1 hself hrun
    exact getStyleSheetProperty_of_find self1 p d (by rw [hp]; exact hfind)
  · intro R2 hR2 hm2 d2 hd2 hn2
    refine ⟨hmax R2 hR2 hm2 d2 hd2 hn2, ?_⟩
    intro hlt heq
    have h1 := hmax R1 hR1 hm1 d1 hd1 hn1
    rw [heq] at h1
    omega

/-- C1, witness. `.a {color: red}` and `#x.a {color: blue}` on the widget of id `x` and class
`a`: the resolved `color` is `blue` in either order of the two rules, in one list or in two. -/
theorem onStateChange_specificity_ordering_witness :
    (∃ R d, R ∈ (UIStyle.rules { mCacheableStyles := [ruleARed, ruleXABlue] })
      ∧ sceneXA.select R.selector 0 sceneXA.selectDefault = true
      ∧ d ∈ R.properties ∧ d.name = "color"
      ∧ (UIStyle.resolve sceneXA 0 { mCacheableStyles := [ruleARed, ruleXABlue] }
          ).getStyleSheetProperty "color" = d
      ∧ (∀ depth self1,
          styleAfterStateChange sceneXA depth 0 (worldOf [ruleARed, ruleXABlue] []) = some self1 →
          self1.getStyleSheetProperty "color" = d)
      ∧ ∀ R2 ∈ (UIStyle.rules { mCacheableStyles := [ruleARed, ruleXABlue] }),
          sceneXA.select R2.selector 0 sceneXA.selectDefault = true →
          ∀ d2 ∈ R2.properties, d2.name = "color" →
            d2.specificity ≤ d.specificity
              ∧ (d2.specificity < colorBlue.specificity → d ≠ d2))
      ∧ (styleAfterStateChange sceneXA 1 0 (worldOf [ruleARed, ruleXABlue] [])).map
          (fun s => (s.getStyleSheetProperty "color").value) = some "blue"
      ∧ (styleAfterStateChange sceneXA 1 0 (worldOf [ruleXABlue, ruleARed] [])).map
          (fun s => (s.getStyleSheetProperty "color").value) = some "blue"
      ∧ (styleAfterStateChange sceneXA 1 0 (worldOf [ruleARed] [ruleXABlue])).map
          (fun s => (s.getStyleSheetProperty "color").value) = some "blue"
      ∧ (styleAfterStateChange sceneXA 1 0 (worldOf [ruleXABlue] [ruleARed])).map
          (fun s => (s.getStyleSheetProperty "color").value) = some "blue" :=
  ⟨onStateChange_specificity_ordering sceneXA 0 (worldOf [ruleARed, ruleXABlue] [])
      { mCacheableStyles := [ruleARed, ruleXABlue] }
      "color" ruleXABlue colorBlue rfl (by decide) (by decide) (by decide) rfl,
    by decide, by decide, by decide, by decide⟩

/-! ## The changing-state flag -/

theorem styles_modify_self (w : World) (x : WidgetId) (f : UIStyle → UIStyle) :
    (w.modify x f).styles x = (w.styles x).map f := by
  simp [World.modify]

theorem modify_of_none (w : World) (x : WidgetId) (f : UIStyle → UIStyle)
    (h : w.styles x = none) : w.modify x f = w := by
  cases w with
  | mk styles calls =>
    simp only [World.modify, World.mk.injEq, and_true]
    funext b
    by_cases hb : b = x
    · subst hb
      simp only [if_true]
      simp only at h
      rw [h]
      rfl
    · simp [hb]

theorem resolve_mChangingState (sc : Scene) (widget : WidgetId) (self : UIStyle) :
    (UIStyle.resolve sc widget self).mChangingState = true := by
  rw [resolve_eq]
  have h : ∀ (seq : List StyleSheetProperty) (s : UIStyle),
      (seq.foldl UIStyle.applyProperty s).mChangingState = s.mChangingState := by
    intro seq
    induction seq with
    | nil => intro s; rfl
    | cons d rest ih =>
      intro s
      rw [List.foldl_cons, ih]
      unfold UIStyle.applyProperty
      simp only
      cases mapFind s.mProperties d.name with
      | none => rfl
      | some it => by_cases hge : d.specificity ≥ it.specificity <;> simp [hge]
  exact h _ _

/-- The function `onStateChange` does not read `mChangingState`: called on a style whose flag
has any value, raised or not, it does what it does on the same style with the flag as it was
(the same resolution, the same calls on the widgets, the same related widgets triggered, the
same result or the same lack of one). The flag is raised by the resolution at entry and is
lowered when the call returns. -/
theorem onStateChange_ignores_changing_state (sc : Scene) (depth : Nat) (widget : WidgetId)
    (w : World) (flag : Bool) :
    onStateChange sc depth widget
          (w.modify widget (fun s => { s with mChangingState := flag }))
        = onStateChange sc depth widget w
      ∧ (∀ s, (UIStyle.resolve sc widget s).isChangingState = true)
      ∧ (∀ w1 s1, onStateChange sc depth widget w = some w1 → w1.styles widget = some s1 →
          s1.isChangingState = false) := by
  refine ⟨?_, fun s => resolve_mChangingState sc widget s, ?_⟩
  · cases depth with
    | zero => rfl
    | succ depth =>
      cases hs : w.styles widget with
      | none => rw [modify_of_none w widget _ hs]
      | some self =>
        have hm : (w.modify widget (fun s => { s with mChangingState := flag })).styles widget
            = some { self with mChangingState := flag } := by
          simp [World.modify, hs]
        have hr : UIStyle.resolve sc widget { self with mChangingState := flag }
            = UIStyle.resolve sc widget self := resolve_congr sc widget _ _ rfl
        have hset : ∀ r, ((w.modify widget (fun s => { s with mChangingState := flag })).setStyle
            widget r).styles = (w.setStyle widget r).styles := by
          intro r
          funext b
          by_cases hb : b = widget <;> simp [World.setStyle, World.modify, hb]
        rw [onStateChange, onStateChange, hm, hs]
        simp only [hr, hset]
        rfl
  · intro w1 s1 hrun hs1
    cases depth with
    | zero => simp [onStateChange] at hrun
    | succ depth =>
      rw [onStateChange] at hrun
      cases hs : w.styles widget with
      | none =>
        rw [hs] at hrun
        simp only [Option.some.injEq] at hrun
        rw [← hrun, hs] at hs1
        cases hs1
      | some self =>
        rw [hs] at hrun
        simp only [Option.map_eq_some'] at hrun
        obtain ⟨w2, _, rfl⟩ := hrun
        rw [styles_modify_self] at hs1
        cases h2 : w2.styles widget with
        | none => rw [h2] at hs1; cases hs1
        | some s2 =>
          rw [h2] at hs1
          simp only [Option.map_some', Option.some.injEq] at hs1
          rw [← hs1]
          rfl

/-! ## Related widgets that form a cycle -/

/-- The function `onStateChange` leaves the related widgets of every style as they are. -/
theorem pass_related (sc : Scene) (w w1 : World) (h : Pass sc w w1) (x : WidgetId)
    (s : UIStyle) (hs : w.styles x = some s) :
    ∃ s1, w1.styles x = some s1 ∧ s1.mRelatedWidgets = s.mRelatedWidgets := by
  obtain ⟨e, _⟩ := h x
  cases h1 : w1.styles x with
  | none => rw [h1, hs] at e; cases e
  | some s1 =>
    refine ⟨s1, rfl, ?_⟩
    rw [h1, hs] at e
    simp only [Option.map_some', Option.some.injEq] at e
    have e2 := congrArg UIStyle.mRelatedWidgets e
    exact e2

/-- Two styles that are each the related widget of the other: `onStateChange` of either never
returns, whatever call depth it is given. -/
theorem onStateChange_mutual (sc : Scene) (depth : Nat) :
    ∀ (a b : WidgetId) (w : World) (sa sb : UIStyle),
      w.styles a = some sa → w.styles b = some sb →
      b ∈ sa.mRelatedWidgets → a ∈ sb.mRelatedWidgets →
      onStateChange sc depth a w = none := by
  induction depth with
  | zero => intro a b w sa sb _ _ _ _; rfl
  | succ depth ih =>
    intro a b w sa sb ha hb hab hba
    have hloop : ∀ (L : List WidgetId) (wa : World) (ta tb : UIStyle),
        wa.styles a = some ta → wa.styles b = some tb →
        b ∈ ta.mRelatedWidgets → a ∈ tb.mRelatedWidgets → b ∈ L →
        L.foldlM (fun w2 related => onStateChange sc depth related w2) wa = none := by
      intro L
      induction L with
      | nil => intro wa ta tb _ _ _ _ hmem; simp at hmem
      | cons r rest ihL =>
        intro wa ta tb hta htb h1 h2 hmem
        rw [List.foldlM_cons]
        cases hr : onStateChange sc depth r wa with
        | none => rfl
        | some wr =>
          simp only [Option.bind_eq_bind, Option.some_bind]
          have hne : r ≠ b := by
            intro e
            subst e
            rw [ih r a wa tb ta htb hta h2 h1] at hr
            cases hr
          have hmem2 : b ∈ rest := by
            rcases List.mem_cons.mp hmem with e | e
            · exact absurd e.symm hne
            · exact e
          have hp := (onStateChange_pass sc depth r wa wr hr).1
          obtain ⟨ua, hua, era⟩ := pass_related sc wa wr hp a ta hta
          obtain ⟨ub, hub, erb⟩ := pass_related sc wa wr hp b tb htb
          exact ihL wr ua ub hua hub (by rw [era]; exact h1) (by rw [erb]; exact h2) hmem2
    rw [onStateChange, ha]
    simp only [Option.map_eq_none']
    have hrel : (UIStyle.resolve sc a sa).mRelatedWidgets = sa.mRelatedWidgets := by
      have e2 := congrArg UIStyle.mRelatedWidgets (unresolved_resolve sc a sa)
      exact e2
    by_cases hab2 : b = a
    · subst hab2
      apply hloop _ _ (UIStyle.resolve sc b sa) (UIStyle.resolve sc b sa)
      · simp [World.setStyle]
      · simp [World.setStyle]
      · rw [hrel]; exact hab
      · rw [hrel]; exact hab
      · rw [hrel]; exact hab
    · apply hloop _ _ (UIStyle.resolve sc a sa) sb
      · simp [World.setStyle]
      · simp [World.setStyle, hab2, hb]
      · rw [hrel]; exact hab
      · exact hba
      · rw [hrel]; exact hab

theorem pass_related_back (sc : Scene) (w w1 : World) (h : Pass sc w w1) (x : WidgetId)
    (s1 : UIStyle) (hs1 : w1.styles x = some s1) :
    ∃ s, w.styles x = some s ∧ s.mRelatedWidgets = s1.mRelatedWidgets := by
  obtain ⟨e, _⟩ := h x
  cases h0 : w.styles x with
  | none => rw [h0, hs1] at e; cases e
  | some s =>
    refine ⟨s, rfl, ?_⟩
    rw [h0, hs1] at e
    simp only [Option.map_some', Option.some.injEq] at e
    have e2 := congrArg UIStyle.mRelatedWidgets e
    exact e2.symm

/-- Related widgets without a cycle: when every related widget of a style has a smaller rank
than the widget of the style, `onStateChange` of the style of `a` returns as soon as the call
depth exceeds the rank of `a`. -/
theorem onStateChange_returns (sc : Scene) (rank : WidgetId → Nat) (depth : Nat) :
    ∀ (a : WidgetId) (w : World),
      (∀ x s, w.styles x = some s → ∀ r ∈ s.mRelatedWidgets, rank r < rank x) →
      rank a < depth → ∃ w1, onStateChange sc depth a w = some w1 := by
  induction depth with
  | zero => intro a w _ h; omega
  | succ depth ih =>
    intro a w hinv ha
    have hloop : ∀ (L : List WidgetId) (wa : World),
        (∀ x s, wa.styles x = some s → ∀ r ∈ s.mRelatedWidgets, rank r < rank x) →
        (∀ r ∈ L, rank r < depth) →
        ∃ wb, L.foldlM (fun w2 related => onStateChange sc depth related w2) wa = some wb := by
      intro L
      induction L with
      | nil => intro wa _ _; exact ⟨wa, rfl⟩
      | cons r rest ihL =>
        intro wa hwa hL
        obtain ⟨wr, hr⟩ := ih r wa hwa (hL r (by simp))
        rw [List.foldlM_cons, hr]
        simp only [Option.bind_eq_bind, Option.some_bind]
        apply ihL wr
        · intro x s1 hs1 q hq
          obtain ⟨s, hs, e⟩ :=
            pass_related_back sc wa wr (onStateChange_pass sc depth r wa wr hr).1 x s1 hs1
          exact hwa x s hs q (by rw [e]; exact hq)
        · intro q hq
          exact hL q (by simp [hq])
    rw [onStateChange]
    cases hs : w.styles a with
    | none => exact ⟨w, rfl⟩
    | some self =>
      simp only
      have hrel : (UIStyle.resolve sc a self).mRelatedWidgets = self.mRelatedWidgets := by
        have e2 := congrArg UIStyle.mRelatedWidgets (unresolved_resolve sc a self)
        exact e2
      obtain ⟨wb, hwb⟩ := hloop (UIStyle.resolve sc a self).mRelatedWidgets
        { styles := (w.setStyle a (UIStyle.resolve sc a self)).styles
          calls := w.calls ++ UIStyle.attributeCalls a (UIStyle.resolve sc a self) }
        (by
          intro x s hx q hq
          by_cases hxa : x = a
          · subst hxa
            simp only [World.setStyle, if_true, Option.some.injEq] at hx
            subst hx
            rw [hrel] at hq
            exact hinv x self hs q hq
          · simp only [World.setStyle, if_neg hxa] at hx
            exact hinv x s hx q hq)
        (by
          intro q hq
          rw [hrel] at hq
          have := hinv a self hs q hq
          omega)
      rw [hwb]
      exact ⟨_, rfl⟩

/-- C4. Two styles, each in the related widgets of the other: `onStateChange` of either one
has no result at any call depth, since each call calls the other style's `onStateChange`,
which calls the first again, without end. This holds of the two styles of `mutualWorld` and of
those of `worldMutual`, which two constructions and a `load()` produce. -/
theorem onStateChange_mutual_related_diverges :
    ∀ depth, onStateChange sceneAll depth 0 mutualWorld = none
      ∧ onStateChange sceneAll depth 1 mutualWorld = none
      ∧ onStateChange sceneMutual depth 0 worldMutual = none
      ∧ onStateChange sceneMutual depth 1 worldMutual = none :=
  fun depth =>
    ⟨onStateChange_mutual sceneAll depth 0 1 mutualWorld _ _ rfl rfl (by decide) (by decide),
      onStateChange_mutual sceneAll depth 1 0 mutualWorld _ _ rfl rfl (by decide) (by decide),
      onStateChange_mutual sceneMutual depth 0 1 worldMutual _ _ rfl rfl (by decide)
        (by decide),
      onStateChange_mutual sceneMutual depth 1 0 worldMutual _ _ rfl rfl (by decide)
        (by decide)⟩

/-! ## Guarded calls on the styles of a world -/

theorem mem_setErase (x y : WidgetId) (l : List WidgetId) :
    y ∈ setErase x l ↔ y ∈ l ∧ y ≠ x := by
  simp [setErase, List.mem_filter]

theorem mem_setInsert (x y : WidgetId) (l : List WidgetId) :
    y ∈ setInsert x l ↔ y = x ∨ y ∈ l := by
  unfold setInsert
  by_cases h : x ∈ l
  · rw [if_pos h]
    constructor
    · exact Or.inr
    · rintro (e | e)
      · rw [e]; exact h
      · exact e
  · rw [if_neg h, List.mem_orderedInsert]

theorem live_modify (w : World) (x : WidgetId) (f : UIStyle → UIStyle) (b : WidgetId) :
    (w.modify x f).live b = w.live b := by
  unfold World.live World.modify
  by_cases hb : b = x
  · simp only [hb, if_true]
    cases w.styles x <;> rfl
  · simp only [if_neg hb]

theorem calls_modify (w : World) (x : WidgetId) (f : UIStyle → UIStyle) :
    (w.modify x f).calls = w.calls := rfl

theorem hasRelated_modify (w : World) (x : WidgetId) (f : UIStyle → UIStyle)
    (b y : WidgetId) :
    (w.modify x f).hasRelated b y = true ↔
      if b = x then ∃ s, w.styles b = some s ∧ y ∈ (f s).mRelatedWidgets
      else w.hasRelated b y = true := by
  unfold World.hasRelated World.modify
  by_cases hb : b = x
  · simp only [hb, if_true]
    cases w.styles x <;> simp
  · simp only [if_neg hb]

theorem hasSubscribed_modify (w : World) (x : WidgetId) (f : UIStyle → UIStyle)
    (b y : WidgetId) :
    (w.modify x f).hasSubscribed b y = true ↔
      if b = x then ∃ s, w.styles b = some s ∧ y ∈ (f s).mSubscribedWidgets
      else w.hasSubscribed b y = true := by
  unfold World.hasSubscribed World.modify
  by_cases hb : b = x
  · simp only [hb, if_true]
    cases w.styles x <;> simp
  · simp only [if_neg hb]

theorem hasRelated_iff (w : World) (b y : WidgetId) :
    w.hasRelated b y = true ↔ ∃ s, w.styles b = some s ∧ y ∈ s.mRelatedWidgets := by
  unfold World.hasRelated
  cases w.styles b <;> simp

theorem hasSubscribed_iff (w : World) (b y : WidgetId) :
    w.hasSubscribed b y = true ↔ ∃ s, w.styles b = some s ∧ y ∈ s.mSubscribedWidgets := by
  unfold World.hasSubscribed
  cases w.styles b <;> simp

theorem live_iff (w : World) (b : WidgetId) :
    w.live b = true ↔ ∃ s, w.styles b = some s := by
  unfold World.live
  cases w.styles b <;> simp

theorem withoutSets_modify (w : World) (x : WidgetId) (f : UIStyle → UIStyle)
    (hf : ∀ s, (f s).withoutSets = s.withoutSets) (b : WidgetId) :
    ((w.modify x f).styles b).map UIStyle.withoutSets
      = (w.styles b).map UIStyle.withoutSets := by
  unfold World.modify
  by_cases hb : b = x
  · simp only [hb, if_true]
    cases w.styles x with
    | none => rfl
    | some s => simp [hf]
  · simp only [if_neg hb]


theorem hasSubscribed_modify_same (w : World) (x : WidgetId) (f : UIStyle → UIStyle)
    (hf : ∀ s, (f s).mSubscribedWidgets = s.mSubscribedWidgets) (b y : WidgetId) :
    (w.modify x f).hasSubscribed b y = w.hasSubscribed b y := by
  unfold World.hasSubscribed World.modify
  by_cases hb : b = x
  · simp only [hb, if_true]
    cases w.styles x with
    | none => rfl
    | some s => simp [hf]
  · simp only [if_neg hb]

theorem hasRelated_modify_same (w : World) (x : WidgetId) (f : UIStyle → UIStyle)
    (hf : ∀ s, (f s).mRelatedWidgets = s.mRelatedWidgets) (b y : WidgetId) :
    (w.modify x f).hasRelated b y = w.hasRelated b y := by
  unfold World.hasRelated World.modify
  by_cases hb : b = x
  · simp only [hb, if_true]
    cases w.styles x with
    | none => rfl
    | some s => simp [hf]
  · simp only [if_neg hb]

/-- One guarded `unsubscribeRelated( a )` on the style of `x`. -/
theorem hasRelated_unsubscribeRelated (w : World) (x a b y : WidgetId) :
    (w.modify x (UIStyle.unsubscribeRelated a)).hasRelated b y = true ↔
      w.hasRelated b y = true ∧ ¬ (b = x ∧ y = a) := by
  by_cases hb : b = x
  · subst hb
    rw [hasRelated_modify, if_pos rfl, hasRelated_iff]
    simp only [UIStyle.unsubscribeRelated, mem_setErase]
    constructor
    · rintro ⟨s, hs, hy, hne⟩
      exact ⟨⟨s, hs, hy⟩, fun h => hne h.2⟩
    · rintro ⟨⟨s, hs, hy⟩, hne⟩
      exact ⟨s, hs, hy, fun h => hne ⟨trivial, h⟩⟩
  · rw [hasRelated_modify, if_neg hb]
    exact ⟨fun h => ⟨h, fun h2 => hb h2.1⟩, fun h => h.1⟩

/-- One guarded `removeFromSubscribedWidgets( a )` on the style of `x`. -/
theorem hasSubscribed_removeFromSubscribedWidgets (w : World) (x a b y : WidgetId) :
    (w.modify x (UIStyle.removeFromSubscribedWidgets a)).hasSubscribed b y = true ↔
      w.hasSubscribed b y = true ∧ ¬ (b = x ∧ y = a) := by
  by_cases hb : b = x
  · subst hb
    rw [hasSubscribed_modify, if_pos rfl, hasSubscribed_iff]
    simp only [UIStyle.removeFromSubscribedWidgets, mem_setErase]
    constructor
    · rintro ⟨s, hs, hy, hne⟩
      exact ⟨⟨s, hs, hy⟩, fun h => hne h.2⟩
    · rintro ⟨⟨s, hs, hy⟩, hne⟩
      exact ⟨s, hs, hy, fun h => hne ⟨trivial, h⟩⟩
  · rw [hasSubscribed_modify, if_neg hb]
    exact ⟨fun h => ⟨h, fun h2 => hb h2.1⟩, fun h => h.1⟩

/-- The loop of `unsubscribeNonCacheableStyles`. -/
theorem unsubscribe_loop (a : WidgetId) (L : List WidgetId) (w : World) :
    (∀ b, (L.foldl (fun w2 x => w2.modify x (UIStyle.unsubscribeRelated a)) w).live b
        = w.live b)
      ∧ (L.foldl (fun w2 x => w2.modify x (UIStyle.unsubscribeRelated a)) w).calls = w.calls
      ∧ (∀ b, ((L.foldl (fun w2 x => w2.modify x (UIStyle.unsubscribeRelated a)) w
          ).styles b).map
          UIStyle.withoutSets = (w.styles b).map UIStyle.withoutSets)
      ∧ (∀ b y, (L.foldl (fun w2 x => w2.modify x (UIStyle.unsubscribeRelated a)) w
          ).hasSubscribed b y = w.hasSubscribed b y)
      ∧ (∀ b y, (L.foldl (fun w2 x => w2.modify x (UIStyle.unsubscribeRelated a)) w
          ).hasRelated b y = true ↔ w.hasRelated b y = true ∧ ¬ (b ∈ L ∧ y = a)) := by
  induction L generalizing w with
  | nil => simp
  | cons x rest ih =>
    obtain ⟨h1, h2, h3, h4, h5⟩ := ih (w.modify x (UIStyle.unsubscribeRelated a))
    simp only [List.foldl_cons]
    refine ⟨?_, ?_, ?_, ?_, ?_⟩
    · intro b
      rw [h1, live_modify]
    · rw [h2, calls_modify]
    · intro b
      rw [h3, withoutSets_modify w x (UIStyle.unsubscribeRelated a) (fun _ => rfl) b]
    · intro b y
      rw [h4, hasSubscribed_modify_same w x (UIStyle.unsubscribeRelated a) (fun _ => rfl) b y]
    · intro b y
      rw [h5, hasRelated_unsubscribeRelated, List.mem_cons]
      tauto

/-- The loop of `removeRelatedWidgets`. -/
theorem remove_loop (a : WidgetId) (L : List WidgetId) (w : World) :
    (∀ b, (L.foldl (fun w2 x => w2.modify x (UIStyle.removeFromSubscribedWidgets a)) w).live b
        = w.live b)
      ∧ (L.foldl (fun w2 x => w2.modify x (UIStyle.removeFromSubscribedWidgets a)) w).calls
          = w.calls
      ∧ (∀ b, ((L.foldl (fun w2 x => w2.modify x (UIStyle.removeFromSubscribedWidgets a)) w
          ).styles b).map UIStyle.withoutSets = (w.styles b).map UIStyle.withoutSets)
      ∧ (∀ b y, (L.foldl (fun w2 x => w2.modify x (UIStyle.removeFromSubscribedWidgets a)) w
          ).hasRelated b y = w.hasRelated b y)
      ∧ (∀ b y, (L.foldl (fun w2 x => w2.modify x (UIStyle.removeFromSubscribedWidgets a)) w
          ).hasSubscribed b y = true ↔
            w.hasSubscribed b y = true ∧ ¬ (b ∈ L ∧ y = a)) := by
  induction L generalizing w with
  | nil => simp
  | cons x rest ih =>
    obtain ⟨h1, h2, h3, h4, h5⟩ := ih (w.modify x (UIStyle.removeFromSubscribedWidgets a))
    simp only [List.foldl_cons]
    refine ⟨?_, ?_, ?_, ?_, ?_⟩
    · intro b
      rw [h1, live_modify]
    · rw [h2, calls_modify]
    · intro b
      rw [h3, withoutSets_modify w x (UIStyle.removeFromSubscribedWidgets a) (fun _ => rfl) b]
    · intro b y
      rw [h4, hasRelated_modify_same w x (UIStyle.removeFromSubscribedWidgets a) (fun _ => rfl) b y]
    · intro b y
      rw [h5, hasSubscribed_removeFromSubscribedWidgets, List.mem_cons]
      tauto

/-! ## Unsubscribing -/

/-- The effect of `unsubscribeNonCacheableStyles` of the style of `a`: the styles stay, no call is
made on a widget, nothing but the two sets changes; the style of `a` has no subscribed widget left
and `a` is no longer a related widget of the styles it was subscribed to. -/
theorem unsubscribeNonCacheableStyles_spec (a : WidgetId) (w : World) :
    (∀ b, (unsubscribeNonCacheableStyles a w).live b = w.live b)
      ∧ (unsubscribeNonCacheableStyles a w).calls = w.calls
      ∧ (∀ b, ((unsubscribeNonCacheableStyles a w).styles b).map UIStyle.withoutSets
          = (w.styles b).map UIStyle.withoutSets)
      ∧ (∀ b y, (unsubscribeNonCacheableStyles a w).hasSubscribed b y = true ↔
          w.hasSubscribed b y = true ∧ b ≠ a)
      ∧ (∀ b y, (unsubscribeNonCacheableStyles a w).hasRelated b y = true ↔
          w.hasRelated b y = true ∧ ¬ (w.hasSubscribed a b = true ∧ y = a)) := by
  unfold unsubscribeNonCacheableStyles
  cases hs : w.styles a with
  | none =>
    have hno : ∀ y, ¬ (w.hasSubscribed a y = true) := by
      intro y h
      obtain ⟨s, h1, _⟩ := (hasSubscribed_iff w a y).mp h
      rw [hs] at h1
      cases h1
    refine ⟨fun _ => rfl, rfl, fun _ => rfl, ?_, ?_⟩
    · intro b y
      constructor
      · intro h
        refine ⟨h, ?_⟩
        intro e
        subst e
        exact hno y h
      · exact fun h => h.1
    · intro b y
      constructor
      · intro h
        exact ⟨h, fun h2 => hno b h2.1⟩
      · exact fun h => h.1
  | some self =>
    obtain ⟨h1, h2, h3, h4, h5⟩ := unsubscribe_loop a self.mSubscribedWidgets w
    have hmem : ∀ b, b ∈ self.mSubscribedWidgets ↔ w.hasSubscribed a b = true := by
      intro b
      rw [hasSubscribed_iff]
      constructor
      · intro h
        exact ⟨self, hs, h⟩
      · rintro ⟨s, e, h⟩
        rw [hs] at e
        cases e
        exact h
    simp only
    refine ⟨?_, ?_, ?_, ?_, ?_⟩
    · intro b
      rw [live_modify, h1]
    · rw [calls_modify, h2]
    · intro b
      rw [withoutSets_modify _ a (fun s => { s with mSubscribedWidgets := [] })
        (fun _ => rfl) b, h3]
    · intro b y
      rw [hasSubscribed_modify]
      by_cases hb : b = a
      · rw [if_pos hb]
        constructor
        · rintro ⟨s, _, hy⟩
          simp at hy
        · exact fun h => absurd hb h.2
      · rw [if_neg hb, h4]
        exact ⟨fun h => ⟨h, hb⟩, fun h => h.1⟩
    · intro b y
      rw [hasRelated_modify_same _ a (fun s => { s with mSubscribedWidgets := [] })
        (fun _ => rfl) b y, h5, hmem]

/-- The effect of `removeRelatedWidgets` of the style of `a`: the styles stay, no call is made on
a widget, nothing but the two sets changes; the style of `a` has no related widget left and `a` is
no longer a subscribed widget of the styles that were its related widgets. -/
theorem removeRelatedWidgets_spec (a : WidgetId) (w : World) :
    (∀ b, (removeRelatedWidgets a w).live b = w.live b)
      ∧ (removeRelatedWidgets a w).calls = w.calls
      ∧ (∀ b, ((removeRelatedWidgets a w).styles b).map UIStyle.withoutSets
          = (w.styles b).map UIStyle.withoutSets)
      ∧ (∀ b y, (removeRelatedWidgets a w).hasRelated b y = true ↔
          w.hasRelated b y = true ∧ b ≠ a)
      ∧ (∀ b y, (removeRelatedWidgets a w).hasSubscribed b y = true ↔
          w.hasSubscribed b y = true ∧ ¬ (w.hasRelated a b = true ∧ y = a)) := by
  unfold removeRelatedWidgets
  cases hs : w.styles a with
  | none =>
    have hno : ∀ y, ¬ (w.hasRelated a y = true) := by
      intro y h
      obtain ⟨s, h1, _⟩ := (hasRelated_iff w a y).mp h
      rw [hs] at h1
      cases h1
    refine ⟨fun _ => rfl, rfl, fun _ => rfl, ?_, ?_⟩
    · intro b y
      constructor
      · intro h
        refine ⟨h, ?_⟩
        intro e
        subst e
        exact hno y h
      · exact fun h => h.1
    · intro b y
      constructor
      · intro h
        exact ⟨h, fun h2 => hno b h2.1⟩
      · exact fun h => h.1
  | some self =>
    obtain ⟨h1, h2, h3, h4, h5⟩ := remove_loop a self.mRelatedWidgets w
    have hmem : ∀ b, b ∈ self.mRelatedWidgets ↔ w.hasRelated a b = true := by
      intro b
      rw [hasRelated_iff]
      constructor
      · intro h
        exact ⟨self, hs, h⟩
      · rintro ⟨s, e, h⟩
        rw [hs] at e
        cases e
        exact h
    simp only
    refine ⟨?_, ?_, ?_, ?_, ?_⟩
    · intro b
      rw [live_modify, h1]
    · rw [calls_modify, h2]
    · intro b
      rw [withoutSets_modify _ a (fun s => { s with mRelatedWidgets := [] })
        (fun _ => rfl) b, h3]
    · intro b y
      rw [hasRelated_modify]
      by_cases hb : b = a
      · rw [if_pos hb]
        constructor
        · rintro ⟨s, _, hy⟩
          simp at hy
        · exact fun h => absurd hb h.2
      · rw [if_neg hb, h4]
        exact ⟨fun h => ⟨h, hb⟩, fun h => h.1⟩
    · intro b y
      rw [hasSubscribed_modify_same _ a (fun s => { s with mRelatedWidgets := [] })
        (fun _ => rfl) b y, h5, hmem]

/-! ## Subscribing -/

theorem subscribeElement_dead (a x : WidgetId) (w : World) (h : w.styles x = none) :
    subscribeElement a w (some x) = w := by
  simp [subscribeElement, h]

theorem subscribeElement_live (a x : WidgetId) (w : World) (sx : UIStyle)
    (h : w.styles x = some sx) :
    subscribeElement a w (some x)
      = (w.modify x (UIStyle.subscribeRelated a)).modify a (UIStyle.insertSubscribed x) := by
  simp [subscribeElement, h]

/-- The body of the inner loop of `subscribeNonCacheableStyles`. -/
theorem subscribeElement_spec (a : WidgetId) (w : World) (e : Option WidgetId) :
    (∀ b, (subscribeElement a w e).live b = w.live b)
      ∧ (subscribeElement a w e).calls = w.calls
      ∧ (∀ b, ((subscribeElement a w e).styles b).map UIStyle.withoutSets
          = (w.styles b).map UIStyle.withoutSets)
      ∧ (∀ b y, (subscribeElement a w e).hasRelated b y = true ↔
          w.hasRelated b y = true ∨ (e = some b ∧ y = a ∧ w.live b = true))
      ∧ (∀ b y, (subscribeElement a w e).hasSubscribed b y = true ↔
          w.hasSubscribed b y = true
            ∨ (b = a ∧ e = some y ∧ w.live y = true ∧ w.live a = true)) := by
  cases e with
  | none => simp [subscribeElement]
  | some x =>
    cases hx : w.styles x with
    | none =>
      have hl : w.live x = false := by simp [World.live, hx]
      rw [subscribeElement_dead a x w hx]
      refine ⟨fun _ => rfl, rfl, fun _ => rfl, ?_, ?_⟩
      · intro b y
        constructor
        · exact Or.inl
        · rintro (h | ⟨h1, _, h3⟩)
          · exact h
          · cases h1
            rw [hl] at h3
            cases h3
      · intro b y
        constructor
        · exact Or.inl
        · rintro (h | ⟨_, h1, h3, _⟩)
          · exact h
          · cases h1
            rw [hl] at h3
            cases h3
    | some sx =>
      have hl : w.live x = true := by simp [World.live, hx]
      rw [subscribeElement_live a x w sx hx]
      refine ⟨?_, ?_, ?_, ?_, ?_⟩
      · intro b
        rw [live_modify, live_modify]
      · rfl
      · intro b
        rw [withoutSets_modify _ a (UIStyle.insertSubscribed x) (fun _ => rfl) b,
          withoutSets_modify w x (UIStyle.subscribeRelated a) (fun _ => rfl) b]
      · intro b y
        rw [hasRelated_modify_same _ a (UIStyle.insertSubscribed x) (fun _ => rfl) b y,
          hasRelated_modify]
        by_cases hb : b = x
        · subst hb
          rw [if_pos rfl, hasRelated_iff]
          simp only [UIStyle.subscribeRelated, mem_setInsert]
          constructor
          · rintro ⟨s, hs, hy | hy⟩
            · exact Or.inr ⟨by simp, hy, hl⟩
            · exact Or.inl ⟨s, hs, hy⟩
          · rintro (⟨s, hs, hy⟩ | ⟨_, hy, _⟩)
            · exact ⟨s, hs, Or.inr hy⟩
            · exact ⟨sx, hx, Or.inl hy⟩
        · rw [if_neg hb]
          constructor
          · exact Or.inl
          · rintro (h | ⟨h1, _, _⟩)
            · exact h
            · cases h1
              exact absurd rfl hb
      · intro b y
        rw [hasSubscribed_modify]
        by_cases hb : b = a
        · subst hb
          rw [if_pos rfl]
          simp only [UIStyle.insertSubscribed, mem_setInsert]
          constructor
          · rintro ⟨s, hs, hy | hy⟩
            · have hla : (w.modify x (UIStyle.subscribeRelated b)).live b = true := by
                simp [World.live, hs]
              rw [live_modify] at hla
              exact Or.inr ⟨by simp, by simp [hy], by rw [hy]; exact hl, hla⟩
            · left
              rw [← hasSubscribed_modify_same w x (UIStyle.subscribeRelated b)
                (fun _ => rfl) b y, hasSubscribed_iff]
              exact ⟨s, hs, hy⟩
          · rintro (h | ⟨_, h1, _, h4⟩)
            · rw [← hasSubscribed_modify_same w x (UIStyle.subscribeRelated b)
                (fun _ => rfl) b y, hasSubscribed_iff] at h
              obtain ⟨s, hs, hy⟩ := h
              exact ⟨s, hs, Or.inr hy⟩
            · simp only [Option.some.injEq] at h1
              rw [← live_modify w x (UIStyle.subscribeRelated b) b, live_iff] at h4
              obtain ⟨s, hs⟩ := h4
              exact ⟨s, hs, Or.inl h1.symm⟩
        · rw [if_neg hb, hasSubscribed_modify_same w x (UIStyle.subscribeRelated a)
            (fun _ => rfl) b y]
          constructor
          · exact Or.inl
          · rintro (h | ⟨h1, _⟩)
            · exact h
            · exact absurd h1 hb

/-- The inner loop of `subscribeNonCacheableStyles` over the related elements of one rule. -/
theorem subscribe_elements (a : WidgetId) (E : List (Option WidgetId)) (w : World) :
    (∀ b, (E.foldl (subscribeElement a) w).live b = w.live b)
      ∧ (E.foldl (subscribeElement a) w).calls = w.calls
      ∧ (∀ b, ((E.foldl (subscribeElement a) w).styles b).map UIStyle.withoutSets
          = (w.styles b).map UIStyle.withoutSets)
      ∧ (∀ b y, (E.foldl (subscribeElement a) w).hasRelated b y = true ↔
          w.hasRelated b y = true ∨ (some b ∈ E ∧ y = a ∧ w.live b = true))
      ∧ (∀ b y, (E.foldl (subscribeElement a) w).hasSubscribed b y = true ↔
          w.hasSubscribed b y = true
            ∨ (b = a ∧ some y ∈ E ∧ w.live y = true ∧ w.live a = true)) := by
  induction E generalizing w with
  | nil => simp
  | cons e rest ih =>
    obtain ⟨h1, h2, h3, h4, h5⟩ := ih (subscribeElement a w e)
    obtain ⟨g1, g2, g3, g4, g5⟩ := subscribeElement_spec a w e
    simp only [List.foldl_cons]
    refine ⟨?_, ?_, ?_, ?_, ?_⟩
    · intro b
      rw [h1, g1]
    · rw [h2, g2]
    · intro b
      rw [h3, g3]
    · intro b y
      rw [h4, g4, g1, List.mem_cons]
      constructor
      · rintro ((h | ⟨h, k⟩) | ⟨h, k⟩)
        · exact Or.inl h
        · exact Or.inr ⟨Or.inl h.symm, k⟩
        · exact Or.inr ⟨Or.inr h, k⟩
      · rintro (h | ⟨h | h, k⟩)
        · exact Or.inl (Or.inl h)
        · exact Or.inl (Or.inr ⟨h.symm, k⟩)
        · exact Or.inr ⟨h, k⟩
    · intro b y
      rw [h5, g5, g1, g1, List.mem_cons]
      constructor
      · rintro ((h | ⟨hb, h, k⟩) | ⟨hb, h, k⟩)
        · exact Or.inl h
        · exact Or.inr ⟨hb, Or.inl h.symm, k⟩
        · exact Or.inr ⟨hb, Or.inr h, k⟩
      · rintro (h | ⟨hb, h | h, k⟩)
        · exact Or.inl (Or.inl h)
        · exact Or.inl (Or.inr ⟨hb, h.symm, k⟩)
        · exact Or.inr ⟨hb, h, k⟩

/-- The outer loop of `subscribeNonCacheableStyles` over a list of rules. -/
theorem subscribe_rules (sc : Scene) (a : WidgetId) (N : List StyleSheetStyle) (w : World) :
    (∀ b, (N.foldl (fun w1 style =>
        (sc.getRelatedElements style.selector a false).foldl (subscribeElement a) w1) w).live b
          = w.live b)
      ∧ (N.foldl (fun w1 style =>
        (sc.getRelatedElements style.selector a false).foldl (subscribeElement a) w1) w).calls
          = w.calls
      ∧ (∀ b, ((N.foldl (fun w1 style =>
        (sc.getRelatedElements style.selector a false).foldl (subscribeElement a) w1) w
          ).styles b).map UIStyle.withoutSets = (w.styles b).map UIStyle.withoutSets)
      ∧ (∀ b y, (N.foldl (fun w1 style =>
        (sc.getRelatedElements style.selector a false).foldl (subscribeElement a) w1) w
          ).hasRelated b y = true ↔
          w.hasRelated b y = true
            ∨ ((∃ style ∈ N, some b ∈ sc.getRelatedElements style.selector a false)
                ∧ y = a ∧ w.live b = true))
      ∧ (∀ b y, (N.foldl (fun w1 style =>
        (sc.getRelatedElements style.selector a false).foldl (subscribeElement a) w1) w
          ).hasSubscribed b y = true ↔
          w.hasSubscribed b y = true
            ∨ (b = a
                ∧ (∃ style ∈ N, some y ∈ sc.getRelatedElements style.selector a false)
                ∧ w.live y = true ∧ w.live a = true)) := by
  induction N generalizing w with
  | nil => simp
  | cons st rest ih =>
    obtain ⟨h1, h2, h3, h4, h5⟩ :=
      ih ((sc.getRelatedElements st.selector a false).foldl (subscribeElement a) w)
    obtain ⟨g1, g2, g3, g4, g5⟩ :=
      subscribe_elements a (sc.getRelatedElements st.selector a false) w
    simp only [List.foldl_cons]
    refine ⟨?_, ?_, ?_, ?_, ?_⟩
    · intro b
      rw [h1, g1]
    · rw [h2, g2]
    · intro b
      rw [h3, g3]
    · intro b y
      rw [h4, g4, g1]
      simp only [List.mem_cons, exists_eq_or_imp]
      tauto
    · intro b y
      rw [h5, g5, g1, g1]
      simp only [List.mem_cons, exists_eq_or_imp]
      tauto

/-! ## `load` -/

theorem partitionStyles_eq (self : UIStyle) (styles : List StyleSheetStyle) :
    partitionStyles self styles
      = { self with
          mCacheableStyles :=
            self.mCacheableStyles ++ styles.filter (fun st => st.selector.cacheable)
          mNoncacheableStyles :=
            self.mNoncacheableStyles ++ styles.filter (fun st => !st.selector.cacheable) } := by
  unfold partitionStyles
  induction styles generalizing self with
  | nil => simp
  | cons st rest ih =>
    rw [List.foldl_cons, ih]
    by_cases h : st.selector.cacheable = true
    · simp [h]
    · simp [h]

theorem modify_id (w : World) (x : WidgetId) (f : UIStyle → UIStyle) (hf : ∀ s, f s = s) :
    w.modify x f = w := by
  cases w with
  | mk styles calls =>
    simp only [World.modify, World.mk.injEq, and_true]
    funext b
    by_cases hb : b = x
    · simp only [hb, if_true]
      cases styles x with
      | none => rfl
      | some s => simp [hf]
    · simp [hb]

theorem subscribeNonCacheableStyles_nil (sc : Scene) (a : WidgetId) (w : World)
    (h : ∀ s, w.styles a = some s → s.mNoncacheableStyles = []) :
    subscribeNonCacheableStyles sc a w = w := by
  unfold subscribeNonCacheableStyles
  cases hs : w.styles a with
  | none => rfl
  | some s => simp [h s hs]

/-- The function `load` in one piece: unsubscribe, clear, store the matched rules in the two lists,
subscribe. Without a stylesheet, or with an empty one, there is no matched rule. -/
theorem load_eq (sc : Scene) (a : WidgetId) (w : World) :
    load sc a w
      = subscribeNonCacheableStyles sc a
          (((unsubscribeNonCacheableStyles a w).modify a UIStyle.clearForLoad).modify a
            (fun s => partitionStyles s (matchedStyles sc a))) := by
  have hnil : ∀ w2 : World,
      subscribeNonCacheableStyles sc a
          ((w2.modify a UIStyle.clearForLoad).modify a (fun s => partitionStyles s []))
        = w2.modify a UIStyle.clearForLoad := by
    intro w2
    rw [modify_id _ a (fun s => partitionStyles s []) (fun _ => rfl)]
    apply subscribeNonCacheableStyles_nil
    intro s hs
    simp only [World.modify, if_true] at hs
    cases h2 : w2.styles a with
    | none => rw [h2] at hs; cases hs
    | some s2 =>
      rw [h2] at hs
      simp only [Option.map_some', Option.some.injEq] at hs
      rw [← hs]
      rfl
  unfold load matchedStyles
  cases hsheet : sc.styleSheet a with
  | none => simp only; rw [hnil]
  | some sheet =>
    simp only
    by_cases he : sheet.isEmpty = true
    · rw [if_pos he]
      have : sheet.getElementStyles sc a sc.elementStylesDefault = [] := by
        rw [getElementStyles_eq_filter]
        have hn : sheet.mNodes = [] := by
          simpa [StyleSheet.isEmpty, List.isEmpty_iff] using he
        rw [hn]
        rfl
      rw [this, hnil]
    · rw [if_neg he]


/-- The effect of `subscribeNonCacheableStyles` of the style of `a`: the styles stay, no call is
made on a widget, nothing but the two sets changes; every related element of a non-cacheable rule
that is a widget with a style gets `a` as related widget and becomes a subscribed widget of `a`.
-/
theorem subscribeNonCacheableStyles_spec (sc : Scene) (a : WidgetId) (w : World)
    (self : UIStyle) (hs : w.styles a = some self) :
    (∀ b, (subscribeNonCacheableStyles sc a w).live b = w.live b)
      ∧ (subscribeNonCacheableStyles sc a w).calls = w.calls
      ∧ (∀ b, ((subscribeNonCacheableStyles sc a w).styles b).map UIStyle.withoutSets
          = (w.styles b).map UIStyle.withoutSets)
      ∧ (∀ b y, (subscribeNonCacheableStyles sc a w).hasRelated b y = true ↔
          w.hasRelated b y = true
            ∨ ((∃ style ∈ self.mNoncacheableStyles,
                  some b ∈ sc.getRelatedElements style.selector a false)
                ∧ y = a ∧ w.live b = true))
      ∧ (∀ b y, (subscribeNonCacheableStyles sc a w).hasSubscribed b y = true ↔
          w.hasSubscribed b y = true
            ∨ (b = a ∧ (∃ style ∈ self.mNoncacheableStyles,
                  some y ∈ sc.getRelatedElements style.selector a false)
                ∧ w.live y = true)) := by
  have hla : w.live a = true := by simp [World.live, hs]
  obtain ⟨h1, h2, h3, h4, h5⟩ := subscribe_rules sc a self.mNoncacheableStyles w
  unfold subscribeNonCacheableStyles
  rw [hs]
  simp only
  refine ⟨h1, h2, h3, h4, ?_⟩
  intro b y
  rw [h5]
  simp only [hla, and_true]

theorem withoutSets_modify_comm (w : World) (x : WidgetId) (f g : UIStyle → UIStyle)
    (h : ∀ s, (f s).withoutSets = g s.withoutSets) (b : WidgetId) :
    ((w.modify x f).styles b).map UIStyle.withoutSets
      = if b = x then ((w.styles b).map UIStyle.withoutSets).map g
        else (w.styles b).map UIStyle.withoutSets := by
  unfold World.modify
  by_cases hb : b = x
  · simp only [hb, if_true]
    cases w.styles x with
    | none => rfl
    | some s => simp [h]
  · simp only [if_neg hb]

theorem partitionStyles_withoutSets (s : UIStyle) (styles : List StyleSheetStyle) :
    (partitionStyles s styles).withoutSets = partitionStyles s.withoutSets styles := by
  rw [partitionStyles_eq s, partitionStyles_eq s.withoutSets]
  rfl

theorem partitionStyles_mRelatedWidgets (s : UIStyle) (styles : List StyleSheetStyle) :
    (partitionStyles s styles).mRelatedWidgets = s.mRelatedWidgets := by
  rw [partitionStyles_eq]

theorem partitionStyles_mSubscribedWidgets (s : UIStyle) (styles : List StyleSheetStyle) :
    (partitionStyles s styles).mSubscribedWidgets = s.mSubscribedWidgets := by
  rw [partitionStyles_eq]

/-- The function `load` of the style of `a`, when there is one: the styles stay and no call is
made on a widget; the style of `a` is cleared and gets the matched rules, the other styles keep
all but their sets; the subscriptions of `a` are those to the related elements of its new
non-cacheable rules that are widgets with a style, and `a` is a related widget of these and no
longer of the others it was subscribed to. -/
theorem load_spec (sc : Scene) (a : WidgetId) (w : World) (self : UIStyle)
    (hs : w.styles a = some self) :
    (∀ b, (load sc a w).live b = w.live b)
      ∧ (load sc a w).calls = w.calls
      ∧ (∀ b, ((load sc a w).styles b).map UIStyle.withoutSets
          = if b = a then
              ((w.styles b).map UIStyle.withoutSets).map
                (fun u => partitionStyles u.clearForLoad (matchedStyles sc a))
            else (w.styles b).map UIStyle.withoutSets)
      ∧ (∀ b y, (load sc a w).hasRelated b y = true ↔
          (w.hasRelated b y = true ∧ ¬ (w.hasSubscribed a b = true ∧ y = a))
            ∨ ((∃ style ∈ (matchedStyles sc a).filter (fun st => !st.selector.cacheable),
                  some b ∈ sc.getRelatedElements style.selector a false)
                ∧ y = a ∧ w.live b = true))
      ∧ (∀ b y, (load sc a w).hasSubscribed b y = true ↔
          (w.hasSubscribed b y = true ∧ b ≠ a)
            ∨ (b = a
                ∧ (∃ style ∈ (matchedStyles sc a).filter (fun st => !st.selector.cacheable),
                  some y ∈ sc.getRelatedElements style.selector a false)
                ∧ w.live y = true)) := by
  obtain ⟨u1, u2, u3, u4, u5⟩ := unsubscribeNonCacheableStyles_spec a w
  have hlive : (unsubscribeNonCacheableStyles a w).live a = true := by
    rw [u1]; simp [World.live, hs]
  obtain ⟨s1, hs1⟩ := (live_iff _ a).mp hlive
  have hs3 : (((unsubscribeNonCacheableStyles a w).modify a UIStyle.clearForLoad).modify a
      (fun s => partitionStyles s (matchedStyles sc a))).styles a
      = some (partitionStyles s1.clearForLoad (matchedStyles sc a)) := by
    rw [styles_modify_self, styles_modify_self, hs1]
    rfl
  have hnc : (partitionStyles s1.clearForLoad (matchedStyles sc a)).mNoncacheableStyles
      = (matchedStyles sc a).filter (fun st => !st.selector.cacheable) := by
    rw [partitionStyles_eq]
    simp [UIStyle.clearForLoad]
  obtain ⟨g1, g2, g3, g4, g5⟩ := subscribeNonCacheableStyles_spec sc a _ _ hs3
  rw [hnc] at g4 g5
  rw [load_eq]
  refine ⟨?_, ?_, ?_, ?_, ?_⟩
  · intro b
    rw [g1, live_modify, live_modify, u1]
  · rw [g2, calls_modify, calls_modify, u2]
  · intro b
    rw [g3, withoutSets_modify_comm _ a (fun s => partitionStyles s (matchedStyles sc a))
        (fun u => partitionStyles u (matchedStyles sc a))
        (fun s => partitionStyles_withoutSets s _) b,
      withoutSets_modify_comm _ a UIStyle.clearForLoad UIStyle.clearForLoad (fun _ => rfl) b,
      u3]
    by_cases hb : b = a
    · simp only [hb, if_true, Option.map_map]
      rfl
    · simp only [if_neg hb]
  · intro b y
    rw [g4, live_modify, live_modify, u1,
      hasRelated_modify_same _ a (fun s => partitionStyles s (matchedStyles sc a))
        (fun s => partitionStyles_mRelatedWidgets s _) b y,
      hasRelated_modify_same _ a UIStyle.clearForLoad (fun _ => rfl) b y, u5]
  · intro b y
    rw [g5, live_modify, live_modify, u1,
      hasSubscribed_modify_same _ a (fun s => partitionStyles s (matchedStyles sc a))
        (fun s => partitionStyles_mSubscribedWidgets s _) b y,
      hasSubscribed_modify_same _ a UIStyle.clearForLoad (fun _ => rfl) b y, u4]

/-! ## Destruction and the reachable worlds -/

theorem live_dropStyle (w : World) (a b : WidgetId) :
    (w.dropStyle a).live b = true ↔ w.live b = true ∧ b ≠ a := by
  unfold World.live World.dropStyle
  by_cases hb : b = a
  · simp [hb]
  · simp [hb]

theorem hasRelated_dropStyle (w : World) (a b y : WidgetId) :
    (w.dropStyle a).hasRelated b y = true ↔ w.hasRelated b y = true ∧ b ≠ a := by
  unfold World.hasRelated World.dropStyle
  by_cases hb : b = a
  · simp [hb]
  · simp [hb]

theorem hasSubscribed_dropStyle (w : World) (a b y : WidgetId) :
    (w.dropStyle a).hasSubscribed b y = true ↔ w.hasSubscribed b y = true ∧ b ≠ a := by
  unfold World.hasSubscribed World.dropStyle
  by_cases hb : b = a
  · simp [hb]
  · simp [hb]

theorem styles_dropStyle_ne (w : World) (a b : WidgetId) (hb : b ≠ a) :
    (w.dropStyle a).styles b = w.styles b := by
  simp [World.dropStyle, hb]

theorem live_of_hasRelated (w : World) (b y : WidgetId) (h : w.hasRelated b y = true) :
    w.live b = true := by
  obtain ⟨s, hs, _⟩ := (hasRelated_iff w b y).mp h
  exact (live_iff w b).mpr ⟨s, hs⟩

theorem live_of_hasSubscribed (w : World) (b y : WidgetId) (h : w.hasSubscribed b y = true) :
    w.live b = true := by
  obtain ⟨s, hs, _⟩ := (hasSubscribed_iff w b y).mp h
  exact (live_iff w b).mpr ⟨s, hs⟩

/-- The destructor of the style of `a` in a world with subscription symmetry: the style of `a`
is gone, the other styles stay and keep all but their sets, and their sets lose `a` and
nothing else. -/
theorem destroy_spec (a : WidgetId) (w : World) (hsym : w.symmetric)
    (ha : w.live a = true) :
    (∀ b, (destroy a w).live b = true ↔ w.live b = true ∧ b ≠ a)
      ∧ (destroy a w).calls = w.calls
      ∧ (∀ b, b ≠ a → ((destroy a w).styles b).map UIStyle.withoutSets
          = (w.styles b).map UIStyle.withoutSets)
      ∧ (∀ b y, (destroy a w).hasRelated b y = true ↔
          w.hasRelated b y = true ∧ b ≠ a ∧ y ≠ a)
      ∧ (∀ b y, (destroy a w).hasSubscribed b y = true ↔
          w.hasSubscribed b y = true ∧ b ≠ a ∧ y ≠ a) := by
  obtain ⟨r1, r2, r3, r4, r5⟩ := removeRelatedWidgets_spec a w
  obtain ⟨u1, u2, u3, u4, u5⟩ := unsubscribeNonCacheableStyles_spec a (removeRelatedWidgets a w)
  unfold destroy
  refine ⟨?_, ?_, ?_, ?_, ?_⟩
  · intro b
    rw [live_dropStyle, u1, r1]
  · exact u2.trans r2
  · intro b hb
    rw [styles_dropStyle_ne _ a b hb, u3, r3]
  · intro b y
    rw [hasRelated_dropStyle, u5, r4, r5]
    constructor
    · rintro ⟨⟨⟨h, hb⟩, hn⟩, _⟩
      refine ⟨h, hb, ?_⟩
      intro hy
      subst hy
      have hlb := live_of_hasRelated w b y h
      have hs := (hsym y b ha hlb).mp h
      exact hn ⟨⟨hs, fun k => hb k.2⟩, rfl⟩
    · rintro ⟨h, hb, hy⟩
      exact ⟨⟨⟨h, hb⟩, fun k => hy k.2⟩, hb⟩
  · intro b y
    rw [hasSubscribed_dropStyle, u4, r5]
    constructor
    · rintro ⟨⟨⟨h, hn⟩, hb⟩, _⟩
      refine ⟨h, hb, ?_⟩
      intro hy
      subst hy
      have hlb := live_of_hasSubscribed w b y h
      have hr := (hsym b y hlb ha).mpr h
      exact hn ⟨hr, rfl⟩
    · rintro ⟨h, hb, hy⟩
      exact ⟨⟨⟨h, fun k => hy k.2⟩, hb⟩, hb⟩

theorem symmetric_of_wellLinked (w : World) (h : w.wellLinked) : w.symmetric :=
  fun A B _ _ => ⟨fun k => (h.1 A B k).2, fun k => (h.2 A B k).2⟩

theorem wellLinked_empty : World.empty.wellLinked := by
  constructor <;> intro A B h <;> simp [World.hasRelated, World.hasSubscribed, World.empty] at h

theorem wellLinked_destroy (a : WidgetId) (w : World) (h : w.wellLinked)
    (ha : w.live a = true) : (destroy a w).wellLinked := by
  obtain ⟨d1, _, _, d4, d5⟩ := destroy_spec a w (symmetric_of_wellLinked w h) ha
  constructor
  · intro A B k
    obtain ⟨k1, k2, k3⟩ := (d4 B A).mp k
    obtain ⟨l1, l2⟩ := h.1 A B k1
    exact ⟨(d1 A).mpr ⟨l1, k3⟩, (d5 A B).mpr ⟨l2, k3, k2⟩⟩
  · intro A B k
    obtain ⟨k1, k2, k3⟩ := (d5 A B).mp k
    obtain ⟨l1, l2⟩ := h.2 A B k1
    exact ⟨(d1 B).mpr ⟨l1, k3⟩, (d4 B A).mpr ⟨l2, k3, k2⟩⟩

theorem wellLinked_load (sc : Scene) (a : WidgetId) (w : World) (h : w.wellLinked)
    (ha : w.live a = true) : (load sc a w).wellLinked := by
  obtain ⟨self, hs⟩ := (live_iff w a).mp ha
  obtain ⟨l1, _, _, l4, l5⟩ := load_spec sc a w self hs
  constructor
  · intro A B k
    rcases (l4 B A).mp k with ⟨k1, k2⟩ | ⟨k1, k2, k3⟩
    · obtain ⟨m1, m2⟩ := h.1 A B k1
      have hne : A ≠ a := fun e => k2 ⟨by rw [← e]; exact m2, e⟩
      exact ⟨by rw [l1]; exact m1, (l5 A B).mpr (Or.inl ⟨m2, hne⟩)⟩
    · subst k2
      exact ⟨by rw [l1]; exact ha, (l5 A B).mpr (Or.inr ⟨rfl, k1, k3⟩)⟩
  · intro A B k
    rcases (l5 A B).mp k with ⟨k1, k2⟩ | ⟨k1, k2, k3⟩
    · obtain ⟨m1, m2⟩ := h.2 A B k1
      exact ⟨by rw [l1]; exact m1, (l4 B A).mpr (Or.inl ⟨m2, fun e => k2 e.2⟩)⟩
    · subst k1
      exact ⟨by rw [l1]; exact k3, (l4 B A).mpr (Or.inr ⟨k2, rfl, k3⟩)⟩

theorem wellLinked_setStyle_fresh (w : World) (a : WidgetId) (base : UIState)
    (elementStyle : StyleSheetStyle) (h : w.wellLinked) (ha : w.live a = false) :
    (w.setStyle a (UIStyle.fresh base elementStyle)).wellLinked := by
  have hr : ∀ b y, (w.setStyle a (UIStyle.fresh base elementStyle)).hasRelated b y = true ↔
      w.hasRelated b y = true ∧ b ≠ a := by
    intro b y
    unfold World.hasRelated World.setStyle
    by_cases hb : b = a
    · simp [hb, UIStyle.fresh]
    · simp [hb]
  have hsb : ∀ b y, (w.setStyle a (UIStyle.fresh base elementStyle)).hasSubscribed b y = true ↔
      w.hasSubscribed b y = true ∧ b ≠ a := by
    intro b y
    unfold World.hasSubscribed World.setStyle
    by_cases hb : b = a
    · simp [hb, UIStyle.fresh]
    · simp [hb]
  have hl : ∀ b, w.live b = true →
      (w.setStyle a (UIStyle.fresh base elementStyle)).live b = true := by
    intro b hb
    unfold World.live World.setStyle
    by_cases hba : b = a
    · simp [hba]
    · simpa [hba, World.live] using hb
  have hdead : ∀ b, w.live b = true → b ≠ a := by
    intro b hb e
    rw [e, ha] at hb
    cases hb
  constructor
  · intro A B k
    obtain ⟨k1, _⟩ := (hr B A).mp k
    obtain ⟨m1, m2⟩ := h.1 A B k1
    exact ⟨hl A m1, (hsb A B).mpr ⟨m2, hdead A m1⟩⟩
  · intro A B k
    obtain ⟨k1, _⟩ := (hsb A B).mp k
    obtain ⟨m1, m2⟩ := h.2 A B k1
    exact ⟨hl B m1, (hr B A).mpr ⟨m2, hdead B m1⟩⟩

theorem wellLinked_construct (sc : Scene) (base : UIState) (elementStyle : StyleSheetStyle)
    (a : WidgetId) (w : World) (h : w.wellLinked) (ha : w.live a = false) :
    (construct sc base elementStyle a w).wellLinked := by
  unfold construct
  apply wellLinked_load
  · exact wellLinked_setStyle_fresh w a base elementStyle h ha
  · simp [World.live, World.setStyle]

/-- Every reachable world is well linked. -/
theorem wellLinked_of_reachable (w : World) (h : Reachable w) : w.wellLinked := by
  induction h with
  | empty => exact wellLinked_empty
  | construct sc base es a w _ ha ih => exact wellLinked_construct sc base es a w ih ha
  | load sc a w _ ha ih => exact wellLinked_load sc a w ih ha
  | destroy a w _ ha ih => exact wellLinked_destroy a w ih ha

/-! ## The subscription graph -/

/-- The style of `a` after `load`: it has the cacheable matched rules and the non-cacheable
matched rules, in the order of the stylesheet, an empty property map and an element style
without properties; its subscribed widgets are the related elements of its non-cacheable rules
that are widgets with a style. -/
theorem load_style (sc : Scene) (a : WidgetId) (w : World) (self : UIStyle)
    (hs : w.styles a = some self) :
    ∃ s1, (load sc a w).styles a = some s1
      ∧ s1.mCacheableStyles = (matchedStyles sc a).filter (fun st => st.selector.cacheable)
      ∧ s1.mNoncacheableStyles = (matchedStyles sc a).filter (fun st => !st.selector.cacheable)
      ∧ s1.mProperties = []
      ∧ s1.mElementStyle = { self.mElementStyle with properties := [] }
      ∧ s1.toUIState = self.toUIState := by
  obtain ⟨l1, _, l3, _, _⟩ := load_spec sc a w self hs
  have hl : (load sc a w).live a = true := by rw [l1]; simp [World.live, hs]
  obtain ⟨s1, hs1⟩ := (live_iff _ a).mp hl
  have h3 := l3 a
  rw [if_pos rfl, hs1, hs] at h3
  simp only [Option.map_some', Option.some.injEq] at h3
  rw [partitionStyles_eq] at h3
  refine ⟨s1, hs1, ?_, ?_, ?_, ?_, ?_⟩
  · have := congrArg UIStyle.mCacheableStyles h3
    simpa [UIStyle.withoutSets, UIStyle.clearForLoad] using this
  · have := congrArg UIStyle.mNoncacheableStyles h3
    simpa [UIStyle.withoutSets, UIStyle.clearForLoad] using this
  · have := congrArg UIStyle.mProperties h3
    simpa [UIStyle.withoutSets, UIStyle.clearForLoad] using this
  · have := congrArg UIStyle.mElementStyle h3
    simpa [UIStyle.withoutSets, UIStyle.clearForLoad] using this
  · have := congrArg UIStyle.toUIState h3
    simpa [UIStyle.withoutSets, UIStyle.clearForLoad] using this

theorem reachable_worldMutual : Reachable worldMutual :=
  Reachable.load sceneMutual 0 _
    (Reachable.construct sceneMutual {} inlineStyle 1 _
      (Reachable.construct sceneMutual {} inlineStyle 0 _ Reachable.empty (by decide))
      (by decide))
    (by decide)

/-- C6. Subscription symmetry. In every world reached from the world without styles by
constructing styles, `load()` calls and destructions of styles, for all widgets `A` and `B`
with a style: `A` is in the related widgets of `B` if and only if `B` is in the subscribed
widgets of `A`. -/
theorem subscription_symmetry (w : World) (h : Reachable w) (A B : WidgetId)
    (hA : w.live A = true) (hB : w.live B = true) :
    w.hasRelated B A = true ↔ w.hasSubscribed A B = true :=
  symmetric_of_wellLinked w (wellLinked_of_reachable w h) A B hA hB

/-- C6, witness: two styles subscribed to each other, reached by two constructions and a
`load()`. -/
theorem subscription_symmetry_witness :
    (worldMutual.hasRelated 1 0 = true ↔ worldMutual.hasSubscribed 0 1 = true)
      ∧ worldMutual.hasRelated 1 0 = true ∧ worldMutual.hasRelated 0 1 = true :=
  ⟨subscription_symmetry worldMutual reachable_worldMutual 0 1 (by decide) (by decide),
    by decide, by decide⟩

/-- C7. Teardown on destruction. In a world with subscription symmetry, after the style of
widget `a` is destroyed: `a` has no style; no style has `a` among its related widgets or among
its subscribed widgets; every other style is still there, with all its members but the two sets
as they were, and each of its two sets holds the widgets other than `a` that it held. -/
theorem destroy_teardown (a : WidgetId) (w : World) (hsym : w.symmetric)
    (ha : w.live a = true) :
    (destroy a w).live a = false
      ∧ (∀ b, (destroy a w).hasRelated b a = false ∧ (destroy a w).hasSubscribed b a = false)
      ∧ (∀ b, b ≠ a →
          (destroy a w).live b = w.live b
            ∧ ((destroy a w).styles b).map UIStyle.withoutSets
                = (w.styles b).map UIStyle.withoutSets
            ∧ ∀ y, y ≠ a →
                (destroy a w).hasRelated b y = w.hasRelated b y
                  ∧ (destroy a w).hasSubscribed b y = w.hasSubscribed b y) := by
  obtain ⟨d1, _, d3, d4, d5⟩ := destroy_spec a w hsym ha
  refine ⟨?_, ?_, ?_⟩
  · rw [Bool.eq_false_iff]
    intro h
    exact ((d1 a).mp h).2 rfl
  · intro b
    constructor
    · rw [Bool.eq_false_iff]
      intro h
      exact ((d4 b a).mp h).2.2 rfl
    · rw [Bool.eq_false_iff]
      intro h
      exact ((d5 b a).mp h).2.2 rfl
  · intro b hb
    refine ⟨?_, d3 b hb, ?_⟩
    · rw [Bool.eq_iff_iff, d1]
      exact ⟨fun h => h.1, fun h => ⟨h, hb⟩⟩
    · intro y hy
      constructor
      · rw [Bool.eq_iff_iff, d4]
        exact ⟨fun h => h.1, fun h => ⟨h, hb, hy⟩⟩
      · rw [Bool.eq_iff_iff, d5]
        exact ⟨fun h => h.1, fun h => ⟨h, hb, hy⟩⟩

/-- C7, witness: of two styles subscribed to each other, that of widget `0` is destroyed; the
style of widget `1` is left without related and subscribed widgets. -/
theorem destroy_teardown_witness :
    ((destroy 0 worldMutual).live 0 = false
      ∧ (∀ b, (destroy 0 worldMutual).hasRelated b 0 = false
          ∧ (destroy 0 worldMutual).hasSubscribed b 0 = false)
      ∧ (∀ b, b ≠ 0 →
          (destroy 0 worldMutual).live b = worldMutual.live b
            ∧ ((destroy 0 worldMutual).styles b).map UIStyle.withoutSets
                = (worldMutual.styles b).map UIStyle.withoutSets
            ∧ ∀ y, y ≠ 0 →
                (destroy 0 worldMutual).hasRelated b y = worldMutual.hasRelated b y
                  ∧ (destroy 0 worldMutual).hasSubscribed b y = worldMutual.hasSubscribed b y))
      ∧ worldMutual.hasRelated 1 0 = true ∧ worldMutual.hasSubscribed 1 0 = true
      ∧ ((destroy 0 worldMutual).styles 1).map
          (fun s => (s.mRelatedWidgets, s.mSubscribedWidgets)) = some ([], []) :=
  ⟨destroy_teardown 0 worldMutual
      (symmetric_of_wellLinked worldMutual (wellLinked_of_reachable worldMutual
        reachable_worldMutual))
      (by decide),
    by decide, by decide, by decide⟩

/-! ## `load`: the two lists and the subscriptions -/

/-- C9. The partition of `load()`. After `load()` the cacheable list of the style is the
sub-sequence of the matched rules (`getElementStyles` of the scene's stylesheet; none without a
stylesheet) whose selector is cacheable and the non-cacheable list the sub-sequence of those
whose selector is not, each in stylesheet order: every matched rule is in exactly one of the two
lists, as often as it is matched, and nothing else is in them; the property map is empty. -/
theorem load_partition (sc : Scene) (a : WidgetId) (w : World) (self : UIStyle)
    (hs : w.styles a = some self) :
    ∃ s1, (load sc a w).styles a = some s1
      ∧ s1.mCacheableStyles = (matchedStyles sc a).filter (fun st => st.selector.cacheable)
      ∧ s1.mNoncacheableStyles = (matchedStyles sc a).filter (fun st => !st.selector.cacheable)
      ∧ (∀ st, s1.mCacheableStyles.count st + s1.mNoncacheableStyles.count st
          = (matchedStyles sc a).count st)
      ∧ (∀ st, ¬ (st ∈ s1.mCacheableStyles ∧ st ∈ s1.mNoncacheableStyles))
      ∧ s1.mProperties = []
      ∧ (∀ sheet, sc.styleSheet a = some sheet →
          matchedStyles sc a = sheet.getElementStyles sc a sc.elementStylesDefault)
      ∧ (sc.styleSheet a = none → matchedStyles sc a = []) := by
  obtain ⟨s1, hs1, hc, hn, hp, _, _⟩ := load_style sc a w self hs
  refine ⟨s1, hs1, hc, hn, ?_, ?_, hp, ?_, ?_⟩
  · intro st
    rw [hc, hn]
    by_cases h : st.selector.cacheable = true
    · have hz : List.count st
          ((matchedStyles sc a).filter (fun st => !st.selector.cacheable)) = 0 := by
        rw [List.count_eq_zero]
        simp [List.mem_filter, h]
      have hc2 : List.count st
          ((matchedStyles sc a).filter (fun st => st.selector.cacheable))
          = List.count st (matchedStyles sc a) :=
        List.count_filter h
      rw [hz, hc2]
      rfl
    · have h2 : (!st.selector.cacheable) = true := by simpa using h
      have hz : List.count st
          ((matchedStyles sc a).filter (fun st => st.selector.cacheable)) = 0 := by
        rw [List.count_eq_zero]
        simp [List.mem_filter, h]
      have hc2 : List.count st
          ((matchedStyles sc a).filter (fun st => !st.selector.cacheable))
          = List.count st (matchedStyles sc a) :=
        List.count_filter h2
      rw [hz, hc2]
      simp
  · intro st
    rw [hc, hn]
    simp only [List.mem_filter]
    rintro ⟨⟨_, h1⟩, ⟨_, h2⟩⟩
    simp [h1] at h2
  · intro sheet h
    simp [matchedStyles, h]
  · intro h
    simp [matchedStyles, h]

/-- C9, witness: the stylesheet `.b ~ .a {color: red}`, `.a.c {color: green}`; the first rule
goes to the non-cacheable list, the second to the cacheable list. -/
theorem load_partition_witness :
    (∃ s1, (load sceneTie 0 worldFresh).styles 0 = some s1
      ∧ s1.mCacheableStyles = (matchedStyles sceneTie 0).filter (fun st => st.selector.cacheable)
      ∧ s1.mNoncacheableStyles
          = (matchedStyles sceneTie 0).filter (fun st => !st.selector.cacheable)
      ∧ (∀ st, s1.mCacheableStyles.count st + s1.mNoncacheableStyles.count st
          = (matchedStyles sceneTie 0).count st)
      ∧ (∀ st, ¬ (st ∈ s1.mCacheableStyles ∧ st ∈ s1.mNoncacheableStyles))
      ∧ s1.mProperties = []
      ∧ (∀ sheet, sceneTie.styleSheet 0 = some sheet →
          matchedStyles sceneTie 0
            = sheet.getElementStyles sceneTie 0 sceneTie.elementStylesDefault)
      ∧ (sceneTie.styleSheet 0 = none → matchedStyles sceneTie 0 = []))
      ∧ ((load sceneTie 0 worldFresh).styles 0).map
          (fun s => (s.mCacheableStyles, s.mNoncacheableStyles))
        = some ([ruleClassGreen], [ruleSiblingRed]) :=
  ⟨load_partition sceneTie 0 worldFresh (UIStyle.fresh {} inlineStyle) rfl, by decide⟩

/-- C8. `load()` rebuilds the subscriptions. After `load()` of the style of `a`, its
subscribed widgets are exactly the widgets with a style that are among the related elements
(`getRelatedElements( a, false )`) of one of its new non-cacheable rules; each of them has `a`
as related widget; a widget to which `a` was subscribed before and is not any more no longer has
`a` as related widget; without a stylesheet, or with an empty one, `a` has no subscribed
widget. -/
theorem load_rebuilds_subscriptions (sc : Scene) (a : WidgetId) (w : World) (self : UIStyle)
    (hs : w.styles a = some self) :
    ∃ s1, (load sc a w).styles a = some s1
      ∧ (∀ y, y ∈ s1.mSubscribedWidgets ↔
          w.live y = true ∧ ∃ style ∈ s1.mNoncacheableStyles,
            some y ∈ sc.getRelatedElements style.selector a false)
      ∧ (∀ y, y ∈ s1.mSubscribedWidgets → (load sc a w).hasRelated y a = true)
      ∧ (∀ y, w.hasSubscribed a y = true → y ∉ s1.mSubscribedWidgets →
          (load sc a w).hasRelated y a = false)
      ∧ ((sc.styleSheet a = none
            ∨ ∃ sheet, sc.styleSheet a = some sheet ∧ sheet.isEmpty = true) →
          s1.mSubscribedWidgets = []) := by
  obtain ⟨s1, hs1, _, hn, _, _, _⟩ := load_style sc a w self hs
  obtain ⟨_, _, _, l4, l5⟩ := load_spec sc a w self hs
  have hsub : ∀ y, y ∈ s1.mSubscribedWidgets ↔
      w.live y = true ∧ ∃ style ∈ s1.mNoncacheableStyles,
        some y ∈ sc.getRelatedElements style.selector a false := by
    intro y
    have h5 := l5 a y
    rw [hasSubscribed_iff] at h5
    rw [hn]
    constructor
    · intro hy
      rcases h5.mp ⟨s1, hs1, hy⟩ with ⟨_, k⟩ | ⟨_, k1, k2⟩
      · exact absurd rfl k
      · exact ⟨k2, k1⟩
    · rintro ⟨k2, k1⟩
      obtain ⟨s2, e, hy⟩ := h5.mpr (Or.inr ⟨rfl, k1, k2⟩)
      rw [hs1] at e
      cases e
      exact hy
  refine ⟨s1, hs1, hsub, ?_, ?_, ?_⟩
  · intro y hy
    obtain ⟨k2, k1⟩ := (hsub y).mp hy
    rw [hn] at k1
    exact (l4 y a).mpr (Or.inr ⟨k1, rfl, k2⟩)
  · intro y hold hnot
    rw [Bool.eq_false_iff]
    intro h
    rcases (l4 y a).mp h with ⟨_, k⟩ | ⟨k1, _, k2⟩
    · exact k ⟨hold, rfl⟩
    · rw [← hn] at k1
      exact hnot ((hsub y).mpr ⟨k2, k1⟩)
  · intro hsheet
    have hm : matchedStyles sc a = [] := by
      rcases hsheet with h | ⟨sheet, h, he⟩
      · simp [matchedStyles, h]
      · have hnodes : sheet.mNodes = [] := by
          simpa [StyleSheet.isEmpty, List.isEmpty_iff] using he
        simp [matchedStyles, h, getElementStyles_eq_filter, hnodes]
    rw [List.eq_nil_iff_forall_not_mem]
    intro y hy
    obtain ⟨_, st, hst, _⟩ := (hsub y).mp hy
    rw [hn, hm] at hst
    simp at hst

/-- C8, witness: of two styles subscribed to each other, that of widget `0` is loaded in a
scene without stylesheet: it has no subscribed widget left and widget `1` no longer has widget
`0` as related widget. Loaded in the scene of the two widgets, it is subscribed to widget `1`
again. -/
theorem load_rebuilds_subscriptions_witness :
    (∃ s1, (load sceneAll 0 worldMutual).styles 0 = some s1
      ∧ (∀ y, y ∈ s1.mSubscribedWidgets ↔
          worldMutual.live y = true ∧ ∃ style ∈ s1.mNoncacheableStyles,
            some y ∈ sceneAll.getRelatedElements style.selector 0 false)
      ∧ (∀ y, y ∈ s1.mSubscribedWidgets →
          (load sceneAll 0 worldMutual).hasRelated y 0 = true)
      ∧ (∀ y, worldMutual.hasSubscribed 0 y = true → y ∉ s1.mSubscribedWidgets →
          (load sceneAll 0 worldMutual).hasRelated y 0 = false)
      ∧ ((sceneAll.styleSheet 0 = none
            ∨ ∃ sheet, sceneAll.styleSheet 0 = some sheet ∧ sheet.isEmpty = true) →
          s1.mSubscribedWidgets = []))
      ∧ worldMutual.hasSubscribed 0 1 = true ∧ worldMutual.hasRelated 1 0 = true
      ∧ (load sceneAll 0 worldMutual).hasSubscribed 0 1 = false
      ∧ (load sceneAll 0 worldMutual).hasRelated 1 0 = false
      ∧ (load sceneMutual 0 (load sceneAll 0 worldMutual)).hasSubscribed 0 1 = true
      ∧ (load sceneMutual 0 (load sceneAll 0 worldMutual)).hasRelated 1 0 = true :=
  ⟨load_rebuilds_subscriptions sceneAll 0 worldMutual _ rfl,
    by decide, by decide, by decide, by decide, by decide, by decide⟩

/-! ## The cascade: document order -/

/-- C2, counterexample. The stylesheet `.b ~ .a {color: red}` followed by
`.a.c {color: green}`: both rules select the widget and declare `color` with the same
specificity, no rule declares it with a higher one, and `green` is declared later; after
`load()` and `onStateChange` the resolved `color` is `red`, because the first rule is
non-cacheable and the non-cacheable rules are applied after the cacheable ones. -/
theorem document_order_counterexample :
    sceneTie.styleSheet 0 = some { mNodes := [ruleSiblingRed, ruleClassGreen] }
      ∧ colorRedSibling.specificity = colorGreenClass.specificity
      ∧ sceneTie.select ruleSiblingRed.selector 0 sceneTie.selectDefault = true
      ∧ sceneTie.select ruleClassGreen.selector 0 sceneTie.selectDefault = true
      ∧ (styleAfterStateChange sceneTie 1 0 (load sceneTie 0 worldFresh)).map
          (fun s => s.getStyleSheetProperty "color") = some colorRedSibling
      ∧ (styleAfterStateChange sceneTie 1 0 (load sceneTie 0 worldFresh)).map
          (fun s => s.getStyleSheetProperty "color") ≠ some colorGreenClass := by
  decide

theorem mem_rules_after_load (sc : Scene) (a : WidgetId) (s1 : UIStyle)
    (hc : s1.mCacheableStyles = (matchedStyles sc a).filter (fun st => st.selector.cacheable))
    (hn : s1.mNoncacheableStyles
      = (matchedStyles sc a).filter (fun st => !st.selector.cacheable))
    (R : StyleSheetStyle) (hR : R ∈ s1.rules) :
    R = s1.mElementStyle ∨ R ∈ matchedStyles sc a := by
  simp only [UIStyle.rules, List.mem_cons, List.mem_append, hc, hn, List.mem_filter] at hR
  rcases hR with h | h | h
  · exact Or.inl h
  · exact Or.inr h.1
  · exact Or.inr h.1

/-- C2, amended. Document order breaks a tie between rules of the same kind; between a
cacheable and a non-cacheable rule the non-cacheable one wins. Let the stylesheet hold `R1`
before `R2`, both selected by `load()` and matching at `onStateChange`, each declaring `p`
once, as `d1` and `d2`, with one and the same specificity, and let every other matching rule of
the stylesheet declare `p` with a lower one. After `load()`, the cascade of `onStateChange`
resolves `p` to `d2`, the later declaration, unless `R1` is non-cacheable and `R2` cacheable:
then it resolves `p` to `d1`; and this is the resolved `p` of the style whenever
`onStateChange` has returned. -/
theorem load_onStateChange_tie_break (sc : Scene) (a : WidgetId) (w : World)
    (self : UIStyle) (sheet : StyleSheet) (n1 n2 n3 : List StyleSheetStyle)
    (R1 R2 : StyleSheetStyle) (d1 d2 : StyleSheetProperty) (p : String)
    (hs : w.styles a = some self)
    (hsheet : sc.styleSheet a = some sheet)
    (hnodes : sheet.mNodes = n1 ++ R1 :: (n2 ++ R2 :: n3))
    (hl1 : sc.select R1.selector a sc.elementStylesDefault = true)
    (hl2 : sc.select R2.selector a sc.elementStylesDefault = true)
    (hm1 : sc.select R1.selector a sc.selectDefault = true)
    (hm2 : sc.select R2.selector a sc.selectDefault = true)
    (hd1 : d1 ∈ R1.properties) (hd2 : d2 ∈ R2.properties)
    (hn1 : d1.name = p) (hn2 : d2.name = p)
    (hu1 : ∀ e ∈ R1.properties, e.name = p → e = d1)
    (hu2 : ∀ e ∈ R2.properties, e.name = p → e = d2)
    (heq : d1.specificity = d2.specificity)
    (hothers : ∀ R ∈ n1 ++ n2 ++ n3, sc.select R.selector a sc.selectDefault = true →
      ∀ e ∈ R.properties, e.name = p → e.specificity < d2.specificity) :
    ∃ s1, (load sc a w).styles a = some s1
      ∧ (UIStyle.resolve sc a s1).getStyleSheetProperty p
          = (if R2.selector.cacheable = true ∧ R1.selector.cacheable = false then d1 else d2)
      ∧ ∀ depth self1, styleAfterStateChange sc depth a (load sc a w) = some self1 →
          self1.getStyleSheetProperty p
            = (if R2.selector.cacheable = true ∧ R1.selector.cacheable = false then d1
                else d2) := by
  obtain ⟨s1, hs1, hc, hn, _, he, _⟩ := load_style sc a w self hs
  have hms : matchedStyles sc a
      = n1.filter (fun node => sc.select node.selector a sc.elementStylesDefault)
        ++ R1 :: (n2.filter (fun node => sc.select node.selector a sc.elementStylesDefault)
        ++ R2 :: n3.filter (fun node => sc.select node.selector a sc.elementStylesDefault)) := by
    simp [matchedStyles, hsheet, getElementStyles_eq_filter, hnodes, List.filter_append,
      List.filter_cons, hl1, hl2]
  -- every rule of the style declares `p` with at most the specificity of `d2`
  have hle : ∀ R ∈ s1.rules, sc.select R.selector a sc.selectDefault = true →
      ∀ e ∈ R.properties, e.name = p → e.specificity ≤ d2.specificity := by
    intro R hR hm e hee hne
    rcases mem_rules_after_load sc a s1 hc hn R hR with h | h
    · rw [h, he] at hee
      simp at hee
    · rw [hms] at h
      simp only [List.mem_append, List.mem_cons, List.mem_filter] at h
      rcases h with h | h | h | h | h
      · exact le_of_lt (hothers R (by simp [h.1]) hm e hee hne)
      · rw [h] at hee
        rw [hu1 e hee hne, heq]
      · exact le_of_lt (hothers R (by simp [h.1]) hm e hee hne)
      · rw [h] at hee
        rw [hu2 e hee hne]
      · exact le_of_lt (hothers R (by simp [h.1]) hm e hee hne)
  -- the rules of the style, split at the rule that wins
  have hsplit : ∃ pre post, s1.rules
        = pre ++ (if R2.selector.cacheable = true ∧ R1.selector.cacheable = false
            then R1 else R2) :: post
      ∧ ∀ R ∈ post, R ∈ n1 ++ n2 ++ n3 := by
    cases h1 : R1.selector.cacheable <;> cases h2 : R2.selector.cacheable
    · refine ⟨s1.mElementStyle :: (s1.mCacheableStyles
          ++ (n1.filter (fun node => sc.select node.selector a sc.elementStylesDefault)).filter
              (fun st => !st.selector.cacheable)
          ++ R1 :: (n2.filter (fun node => sc.select node.selector a sc.elementStylesDefault)
              ).filter (fun st => !st.selector.cacheable)),
        (n3.filter (fun node => sc.select node.selector a sc.elementStylesDefault)).filter
              (fun st => !st.selector.cacheable), ?_, ?_⟩
      · simp [UIStyle.rules, hn, hms, List.filter_append, List.filter_cons, h1, h2]
      · intro R hR
        simp only [List.mem_filter] at hR
        simp [hR.1.1]
    · refine ⟨s1.mElementStyle
          :: ((n1.filter (fun node => sc.select node.selector a sc.elementStylesDefault)).filter
              (fun st => st.selector.cacheable)
          ++ (n2.filter (fun node => sc.select node.selector a sc.elementStylesDefault)).filter
              (fun st => st.selector.cacheable)
          ++ R2 :: (n3.filter (fun node => sc.select node.selector a sc.elementStylesDefault)
              ).filter (fun st => st.selector.cacheable)
          ++ (n1.filter (fun node => sc.select node.selector a sc.elementStylesDefault)).filter
              (fun st => !st.selector.cacheable)),
        (n2.filter (fun node => sc.select node.selector a sc.elementStylesDefault)).filter
              (fun st => !st.selector.cacheable)
          ++ (n3.filter (fun node => sc.select node.selector a sc.elementStylesDefault)).filter
              (fun st => !st.selector.cacheable), ?_, ?_⟩
      · simp [UIStyle.rules, hc, hn, hms, List.filter_append, List.filter_cons, h1, h2]
      · intro R hR
        simp only [List.mem_append, List.mem_filter] at hR
        rcases hR with hR | hR
        · simp [hR.1.1]
        · simp [hR.1.1]
    · refine ⟨s1.mElementStyle :: (s1.mCacheableStyles
          ++ (n1.filter (fun node => sc.select node.selector a sc.elementStylesDefault)).filter
              (fun st => !st.selector.cacheable)
          ++ (n2.filter (fun node => sc.select node.selector a sc.elementStylesDefault)).filter
              (fun st => !st.selector.cacheable)),
        (n3.filter (fun node => sc.select node.selector a sc.elementStylesDefault)).filter
              (fun st => !st.selector.cacheable), ?_, ?_⟩
      · simp [UIStyle.rules, hn, hms, List.filter_append, List.filter_cons, h1, h2]
      · intro R hR
        simp only [List.mem_filter] at hR
        simp [hR.1.1]
    · refine ⟨s1.mElementStyle
          :: ((n1.filter (fun node => sc.select node.selector a sc.elementStylesDefault)).filter
              (fun st => st.selector.cacheable)
          ++ R1 :: (n2.filter (fun node => sc.select node.selector a sc.elementStylesDefault)
              ).filter (fun st => st.selector.cacheable)),
        (n3.filter (fun node => sc.select node.selector a sc.elementStylesDefault)).filter
              (fun st => st.selector.cacheable) ++ s1.mNoncacheableStyles, ?_, ?_⟩
      · simp [UIStyle.rules, hc, hms, List.filter_append, List.filter_cons, h1, h2]
      · intro R hR
        rw [hn, hms] at hR
        simp only [List.mem_append, List.mem_filter, List.filter_append, List.filter_cons,
          h1, h2] at hR
        simp at hR
        rcases hR with hR | hR | hR | hR
        · simp [hR.1.1]
        · simp [hR.1.1]
        · simp [hR.1]
        · simp [hR.1]
  obtain ⟨pre, post, hrules, hpost⟩ := hsplit
  have hfind : mapFind (UIStyle.resolve sc a s1).mProperties p
      = some (if R2.selector.cacheable = true ∧ R1.selector.cacheable = false then d1
          else d2) := by
    by_cases hcase : R2.selector.cacheable = true ∧ R1.selector.cacheable = false
    · rw [if_pos hcase] at hrules ⊢
      apply resolve_find_last sc a s1 p pre post R1 d1 hrules hm1 hd1 hn1 hu1
      · intro R hR hm e hee hne
        rw [heq]
        exact hle R (by rw [hrules]; simp [hR]) hm e hee hne
      · intro R hR hm e hee hne
        rw [heq]
        exact hothers R (hpost R hR) hm e hee hne
    · rw [if_neg hcase] at hrules ⊢
      apply resolve_find_last sc a s1 p pre post R2 d2 hrules hm2 hd2 hn2 hu2
      · intro R hR hm e hee hne
        exact hle R (by rw [hrules]; simp [hR]) hm e hee hne
      · intro R hR hm e hee hne
        exact hothers R (hpost R hR) hm e hee hne
  refine ⟨s1, hs1, getStyleSheetProperty_of_find _ p _ hfind, ?_⟩
  intro depth self1 hrun
  have hp := styleAfterStateChange_mProperties sc depth a (load sc a w) s1 self1 hs1 hrun
  exact getStyleSheetProperty_of_find self1 p _ (by rw [hp]; exact hfind)

/-- C2, witness: `.a {color: red}` followed by `.a {color: green}`, both cacheable: the
resolved `color` is `green`. -/
theorem load_onStateChange_tie_break_witness :
    (∃ s1, (load sceneRedGreen 0 worldFresh).styles 0 = some s1
      ∧ (UIStyle.resolve sceneRedGreen 0 s1).getStyleSheetProperty "color"
          = (if ruleAGreen.selector.cacheable = true ∧ ruleARed.selector.cacheable = false
              then colorRed else colorGreen)
      ∧ ∀ depth self1,
          styleAfterStateChange sceneRedGreen depth 0 (load sceneRedGreen 0 worldFresh)
            = some self1 →
          self1.getStyleSheetProperty "color"
            = (if ruleAGreen.selector.cacheable = true ∧ ruleARed.selector.cacheable = false
                then colorRed else colorGreen))
      ∧ (styleAfterStateChange sceneRedGreen 1 0 (load sceneRedGreen 0 worldFresh)).map
          (fun s => (s.getStyleSheetProperty "color").value) = some "green" :=
  ⟨load_onStateChange_tie_break sceneRedGreen 0 worldFresh (UIStyle.fresh {} inlineStyle)
      { mNodes := [ruleARed, ruleAGreen] } [] [] [] ruleARed ruleAGreen colorRed colorGreen
      "color" rfl rfl rfl rfl rfl rfl rfl (by decide) (by decide) rfl rfl
      (by decide) (by decide) rfl (by simp),
    by decide⟩

/-! ## `StyleSheet`: rules, media-query lists, keyframes -/

theorem keyframesFind_cons (q : KeyframesDefinition) (m : List KeyframesDefinition)
    (n : String) :
    keyframesFind (q :: m) n = if q.name = n then some q else keyframesFind m n := by
  by_cases h : q.name = n <;> simp [keyframesFind, List.find?_cons, h]

theorem keyframesFind_keyframesAssign (m : List KeyframesDefinition) (k : KeyframesDefinition)
    (n : String) :
    keyframesFind (keyframesAssign m k) n = if k.name = n then some k else keyframesFind m n := by
  induction m with
  | nil => simp [keyframesAssign, keyframesFind_cons]
  | cons q m ih =>
    rw [keyframesAssign]
    by_cases h : k.name = n
    · by_cases hq : k.name = q.name
      · rw [if_pos hq, keyframesFind_cons, if_pos h, if_pos h]
      · rw [if_neg hq, if_pos h]
        by_cases hl : keyLess k.name q.name = true
        · rw [if_pos hl, keyframesFind_cons, if_pos h]
        · rw [if_neg hl, keyframesFind_cons, if_neg (fun e => hq (h.trans e.symm)), ih, if_pos h]
    · rw [if_neg h, keyframesFind_cons]
      by_cases hq : k.name = q.name
      · rw [if_pos hq, keyframesFind_cons, if_neg h, if_neg (fun e => h (hq.trans e))]
      · rw [if_neg hq]
        by_cases hl : keyLess k.name q.name = true
        · rw [if_pos hl, keyframesFind_cons, if_neg h, keyframesFind_cons]
        · rw [if_neg hl, keyframesFind_cons, ih, if_neg h]

theorem mem_keyframesAssign (m : List KeyframesDefinition) (k d : KeyframesDefinition)
    (h : d ∈ keyframesAssign m k) : d = k ∨ d ∈ m := by
  induction m with
  | nil =>
    simp only [keyframesAssign, List.mem_singleton] at h
    exact Or.inl h
  | cons q m ih =>
    rw [keyframesAssign] at h
    by_cases hq : k.name = q.name
    · rw [if_pos hq] at h
      rcases List.mem_cons.mp h with e | e
      · exact Or.inl e
      · exact Or.inr (List.mem_cons_of_mem _ e)
    · rw [if_neg hq] at h
      by_cases hl : keyLess k.name q.name = true
      · rw [if_pos hl] at h
        rcases List.mem_cons.mp h with e | e
        · exact Or.inl e
        · exact Or.inr e
      · rw [if_neg hl] at h
        rcases List.mem_cons.mp h with e | e
        · exact Or.inr (by rw [e]; exact List.mem_cons_self _ _)
        · rcases ih e with e2 | e2
          · exact Or.inl e2
          · exact Or.inr (List.mem_cons_of_mem _ e2)

theorem keyframesFind_none_of_forall (m : List KeyframesDefinition) (n : String)
    (h : ∀ d ∈ m, d.name ≠ n) : keyframesFind m n = none := by
  simp only [keyframesFind, List.find?_eq_none, decide_eq_true_eq]
  exact h

theorem addMediaQueryList_mNodes (sheet : StyleSheet) (list : Option Nat) :
    (sheet.addMediaQueryList list).mNodes = sheet.mNodes := by
  unfold StyleSheet.addMediaQueryList
  split_ifs <;> rfl

theorem addMediaQueryList_mKeyframesMap (sheet : StyleSheet) (list : Option Nat) :
    (sheet.addMediaQueryList list).mKeyframesMap = sheet.mKeyframesMap := by
  unfold StyleSheet.addMediaQueryList
  split_ifs <;> rfl

theorem addStyle_mNodes (sheet : StyleSheet) (node : StyleSheetStyle) :
    (sheet.addStyle node).mNodes = sheet.mNodes ++ [node] := by
  unfold StyleSheet.addStyle
  rw [addMediaQueryList_mNodes]

theorem addStyle_mKeyframesMap (sheet : StyleSheet) (node : StyleSheetStyle) :
    (sheet.addStyle node).mKeyframesMap = sheet.mKeyframesMap := by
  unfold StyleSheet.addStyle
  rw [addMediaQueryList_mKeyframesMap]

theorem foldl_addStyle (nodes : List StyleSheetStyle) (sheet : StyleSheet) :
    (nodes.foldl StyleSheet.addStyle sheet).mNodes = sheet.mNodes ++ nodes
      ∧ (nodes.foldl StyleSheet.addStyle sheet).mKeyframesMap = sheet.mKeyframesMap := by
  induction nodes generalizing sheet with
  | nil => simp
  | cons node rest ih =>
    obtain ⟨h1, h2⟩ := ih (sheet.addStyle node)
    rw [List.foldl_cons, h1, h2, addStyle_mNodes, addStyle_mKeyframesMap]
    simp

theorem addKeyframes_mNodes (sheet : StyleSheet) (k : KeyframesDefinition) :
    (sheet.addKeyframes k).mNodes = sheet.mNodes := by
  unfold StyleSheet.addKeyframes
  split_ifs <;> rfl

theorem addKeyframes_mMediaQueryList (sheet : StyleSheet) (k : KeyframesDefinition) :
    (sheet.addKeyframes k).mMediaQueryList = sheet.mMediaQueryList := by
  unfold StyleSheet.addKeyframes
  split_ifs <;> rfl

theorem addKeyframesMap_frame (ks : List KeyframesDefinition) (sheet : StyleSheet) :
    (sheet.addKeyframesMap ks).mNodes = sheet.mNodes
      ∧ (sheet.addKeyframesMap ks).mMediaQueryList = sheet.mMediaQueryList := by
  unfold StyleSheet.addKeyframesMap
  induction ks generalizing sheet with
  | nil => simp
  | cons k rest ih =>
    obtain ⟨h1, h2⟩ := ih (sheet.addKeyframes k)
    rw [List.foldl_cons, h1, h2, addKeyframes_mNodes, addKeyframes_mMediaQueryList]
    simp

/-- A definition named `none` is not stored: the stylesheet stays as it is. -/
theorem addKeyframes_none (sheet : StyleSheet) (k : KeyframesDefinition)
    (h : k.name = "none") : sheet.addKeyframes k = sheet := by
  simp [StyleSheet.addKeyframes, h]

theorem keyframesFind_addKeyframes (sheet : StyleSheet) (k : KeyframesDefinition) (n : String) :
    keyframesFind (sheet.addKeyframes k).mKeyframesMap n
      = if k.name = n ∧ n ≠ "none" then some k else keyframesFind sheet.mKeyframesMap n := by
  unfold StyleSheet.addKeyframes
  by_cases hk : k.name = "none"
  · have hno : ¬ (k.name = n ∧ n ≠ "none") := fun h => h.2 (h.1 ▸ hk)
    rw [if_neg hno, if_neg (fun h : k.name ≠ "none" => h hk)]
  · simp only [ne_eq, hk, not_false_eq_true, if_true, keyframesFind_keyframesAssign]
    by_cases hn : k.name = n
    · have : n ≠ "none" := fun e => hk (hn.trans e)
      simp [hn, this]
    · simp [hn]

/-- The entries of the keyframes map once a definition has gone through `addKeyframes`: those it
had and, at most, the definition, which is not named `none`. -/
theorem mem_addKeyframes (sheet : StyleSheet) (k d : KeyframesDefinition)
    (h : d ∈ (sheet.addKeyframes k).mKeyframesMap) :
    d ∈ sheet.mKeyframesMap ∨ (d = k ∧ k.name ≠ "none") := by
  unfold StyleSheet.addKeyframes at h
  by_cases hk : k.name = "none"
  · simp only [ne_eq, hk, not_true_eq_false, if_false] at h
    exact Or.inl h
  · simp only [ne_eq, hk, not_false_eq_true, if_true] at h
    rcases mem_keyframesAssign _ _ _ h with e | e
    · exact Or.inr ⟨e, hk⟩
    · exact Or.inl e

theorem mem_addKeyframesMap (ks : List KeyframesDefinition) (sheet : StyleSheet)
    (d : KeyframesDefinition) (h : d ∈ (sheet.addKeyframesMap ks).mKeyframesMap) :
    d ∈ sheet.mKeyframesMap ∨ (d ∈ ks ∧ d.name ≠ "none") := by
  unfold StyleSheet.addKeyframesMap at h
  induction ks generalizing sheet with
  | nil => exact Or.inl h
  | cons k rest ih =>
    rw [List.foldl_cons] at h
    rcases ih (sheet.addKeyframes k) h with e | ⟨e1, e2⟩
    · rcases mem_addKeyframes sheet k d e with e3 | ⟨e3, e4⟩
      · exact Or.inl e3
      · exact Or.inr ⟨by rw [e3]; exact List.mem_cons_self _ _, by rw [e3]; exact e4⟩
    · exact Or.inr ⟨List.mem_cons_of_mem _ e1, e2⟩

/-- The keyframes map once the definitions of a map (one for each name) have gone through
`addKeyframes`: under a name other than `none` the definition of the map, if it has one, else
the definition that was there; under `none` what was there. -/
theorem keyframesFind_addKeyframesMap (ks : List KeyframesDefinition) (sheet : StyleSheet)
    (hnames : (ks.map (fun k => k.name)).Nodup) (n : String) :
    keyframesFind (sheet.addKeyframesMap ks).mKeyframesMap n
      = if n = "none" then keyframesFind sheet.mKeyframesMap n
        else match keyframesFind ks n with
          | some d => some d
          | none => keyframesFind sheet.mKeyframesMap n := by
  unfold StyleSheet.addKeyframesMap
  induction ks generalizing sheet with
  | nil => simp [keyframesFind]
  | cons k rest ih =>
    rw [List.map_cons, List.nodup_cons] at hnames
    rw [List.foldl_cons, ih (sheet.addKeyframes k) hnames.2, keyframesFind_addKeyframes,
      keyframesFind_cons]
    by_cases hn : n = "none"
    · have : ¬ (k.name = n ∧ n ≠ "none") := fun h => h.2 hn
      simp [hn, this]
    · simp only [hn, if_false, ne_eq, not_false_eq_true, and_true]
      by_cases hk : k.name = n
      · have hnot : keyframesFind rest n = none := by
          apply keyframesFind_none_of_forall
          intro d hd e
          exact hnames.1 (List.mem_map.mpr ⟨d, hd, e.trans hk.symm⟩)
        simp [hk, hnot]
      · simp [hk]

theorem reachable_sheetMedia : StyleSheet.Reachable sheetMedia :=
  StyleSheet.Reachable.addKeyframes _ keyframesFade
    (StyleSheet.Reachable.addKeyframes _ keyframesNone
      (StyleSheet.Reachable.addStyle _ ruleMediaTwo
        (StyleSheet.Reachable.addStyle _ ruleMediaOne
          (StyleSheet.Reachable.addStyle _ ruleMediaOne
            (StyleSheet.Reachable.addStyle _ ruleARed StyleSheet.Reachable.empty)))))

theorem keyframes_not_none_of_reachable (sheet : StyleSheet) (h : StyleSheet.Reachable sheet) :
    ∀ d ∈ sheet.mKeyframesMap, d.name ≠ "none" := by
  induction h with
  | empty => intro d hd; simp at hd
  | addStyle sheet node _ ih =>
    intro d hd
    rw [addStyle_mKeyframesMap] at hd
    exact ih d hd
  | addMediaQueryList sheet list _ ih =>
    intro d hd
    rw [addMediaQueryList_mKeyframesMap] at hd
    exact ih d hd
  | addKeyframes sheet k _ ih =>
    intro d hd
    rcases mem_addKeyframes sheet k d hd with e | ⟨e1, e2⟩
    · exact ih d e
    · rw [e1]; exact e2
  | addKeyframesMap sheet ks _ ih =>
    intro d hd
    rcases mem_addKeyframesMap ks sheet d hd with e | ⟨_, e2⟩
    · exact ih d e
    · exact e2
  | combineStyleSheet sheet other _ ih =>
    intro d hd
    unfold StyleSheet.combineStyleSheet at hd
    rcases mem_addKeyframesMap _ _ d hd with e | ⟨_, e2⟩
    · rw [(foldl_addStyle _ sheet).2] at e
      exact ih d e
    · exact e2

/-- C12. Keyframes reserved name. In every stylesheet reached from the empty one by `addStyle`,
`addMediaQueryList`, `addKeyframes` of a definition or of a map and `combineStyleSheet`,
`getKeyframes()` has no entry named `none` (no entry has that name and nothing is found under
it), and adding a definition named `none` leaves the stylesheet, its keyframes map included, as
it is. -/
theorem keyframes_reserved_name (sheet : StyleSheet) (h : StyleSheet.Reachable sheet) :
    (∀ d ∈ sheet.getKeyframes, d.name ≠ "none")
      ∧ keyframesFind sheet.getKeyframes "none" = none
      ∧ (∀ k : KeyframesDefinition, k.name = "none" →
          sheet.addKeyframes k = sheet ∧ (sheet.addKeyframes k).getKeyframes = sheet.getKeyframes)
      ∧ (∀ ks : List KeyframesDefinition, (∀ k ∈ ks, k.name = "none") →
          (sheet.addKeyframesMap ks).getKeyframes = sheet.getKeyframes) := by
  have hinv := keyframes_not_none_of_reachable sheet h
  refine ⟨hinv, keyframesFind_none_of_forall _ _ hinv, ?_, ?_⟩
  · intro k hk
    rw [addKeyframes_none sheet k hk]
    exact ⟨rfl, rfl⟩
  · intro ks hks
    unfold StyleSheet.addKeyframesMap
    induction ks with
    | nil => rfl
    | cons k rest ih =>
      rw [List.foldl_cons, addKeyframes_none sheet k (hks k (List.mem_cons_self _ _))]
      exact ih (fun k2 hk2 => hks k2 (List.mem_cons_of_mem _ hk2))

/-- C12, witness: a stylesheet built by `addStyle` and `addKeyframes`, to which a definition
named `none` was given; combined with a stylesheet whose map holds an entry named `none`, it
still has none. -/
theorem keyframes_reserved_name_witness :
    ((∀ d ∈ sheetMedia.getKeyframes, d.name ≠ "none")
      ∧ keyframesFind sheetMedia.getKeyframes "none" = none
      ∧ (∀ k : KeyframesDefinition, k.name = "none" →
          sheetMedia.addKeyframes k = sheetMedia
            ∧ (sheetMedia.addKeyframes k).getKeyframes = sheetMedia.getKeyframes)
      ∧ (∀ ks : List KeyframesDefinition, (∀ k ∈ ks, k.name = "none") →
          (sheetMedia.addKeyframesMap ks).getKeyframes = sheetMedia.getKeyframes))
      ∧ sheetMedia.getKeyframes = [keyframesFade]
      ∧ (sheetMedia.combineStyleSheet sheetOther).getKeyframes
          = [keyframesFadeGreen, keyframesSpin] :=
  ⟨keyframes_reserved_name sheetMedia reachable_sheetMedia, by decide, by decide⟩

/-- C13. The effect of `combineStyleSheet( other )`: `getStyles()` is the former rules followed
by the rules of `other`, in the order of `other`; `getKeyframes()` is the union of the former
map and the map of `other` (which has one definition for each name): under a name other than
`none` it has the definition of `other`, if `other` has one, else the former definition; under
`none` it has what it had; every entry comes from the former map or is an entry of `other` not
named `none`. -/
theorem combineStyleSheet_union (sheet other : StyleSheet)
    (hnames : (other.getKeyframes.map (fun k => k.name)).Nodup) :
    (sheet.combineStyleSheet other).getStyles = sheet.getStyles ++ other.getStyles
      ∧ (∀ n, keyframesFind (sheet.combineStyleSheet other).getKeyframes n
          = if n = "none" then keyframesFind sheet.getKeyframes n
            else match keyframesFind other.getKeyframes n with
              | some d => some d
              | none => keyframesFind sheet.getKeyframes n)
      ∧ (∀ d ∈ (sheet.combineStyleSheet other).getKeyframes,
          d ∈ sheet.getKeyframes ∨ (d ∈ other.getKeyframes ∧ d.name ≠ "none")) := by
  obtain ⟨f1, f2⟩ := foldl_addStyle other.mNodes sheet
  refine ⟨?_, ?_, ?_⟩
  · unfold StyleSheet.combineStyleSheet StyleSheet.getStyles
    rw [(addKeyframesMap_frame _ _).1]
    exact f1
  · intro n
    unfold StyleSheet.combineStyleSheet
    have h := keyframesFind_addKeyframesMap other.getKeyframes
      (other.getStyles.foldl StyleSheet.addStyle sheet) hnames n
    unfold StyleSheet.getStyles at h
    rw [f2] at h
    exact h
  · intro d hd
    unfold StyleSheet.combineStyleSheet at hd
    rcases mem_addKeyframesMap _ _ d hd with e | e
    · unfold StyleSheet.getStyles at e
      rw [f2] at e
      exact Or.inl e
    · exact Or.inr e

/-- C13, witness: a stylesheet with the keyframes `fade` is combined with one that has another
`fade`, `spin` and an entry named `none`. -/
theorem combineStyleSheet_union_witness :
    ((sheetMedia.combineStyleSheet sheetOther).getStyles
        = sheetMedia.getStyles ++ sheetOther.getStyles
      ∧ (∀ n, keyframesFind (sheetMedia.combineStyleSheet sheetOther).getKeyframes n
          = if n = "none" then keyframesFind sheetMedia.getKeyframes n
            else match keyframesFind sheetOther.getKeyframes n with
              | some d => some d
              | none => keyframesFind sheetMedia.getKeyframes n)
      ∧ (∀ d ∈ (sheetMedia.combineStyleSheet sheetOther).getKeyframes,
          d ∈ sheetMedia.getKeyframes ∨ (d ∈ sheetOther.getKeyframes ∧ d.name ≠ "none")))
      ∧ (sheetMedia.combineStyleSheet sheetOther).getStyles
          = [ruleARed, ruleMediaOne, ruleMediaOne, ruleMediaTwo, ruleAGreen, ruleMediaTwo]
      ∧ keyframesFind (sheetMedia.combineStyleSheet sheetOther).getKeyframes "fade"
          = some keyframesFadeGreen
      ∧ keyframesFind (sheetMedia.combineStyleSheet sheetOther).getKeyframes "none" = none :=
  ⟨combineStyleSheet_union sheetMedia sheetOther (by decide), by decide, by decide, by decide⟩

theorem addMediaQueryList_null (sheet : StyleSheet) : sheet.addMediaQueryList none = sheet := by
  simp [StyleSheet.addMediaQueryList]

theorem addMediaQueryList_registered (sheet : StyleSheet) (list : Option Nat)
    (h : list ∈ sheet.mMediaQueryList) : sheet.addMediaQueryList list = sheet := by
  unfold StyleSheet.addMediaQueryList
  split_ifs <;> rfl

theorem addMediaQueryList_new (sheet : StyleSheet) (l : Nat)
    (h : some l ∉ sheet.mMediaQueryList) :
    (sheet.addMediaQueryList (some l)).mMediaQueryList = sheet.mMediaQueryList ++ [some l] := by
  simp [StyleSheet.addMediaQueryList, h]

/-- The registered media-query lists of a stylesheet are in order when none of them is null and
none is there twice. -/
theorem mediaLists_addMediaQueryList (sheet : StyleSheet) (list : Option Nat)
    (h : sheet.mMediaQueryList.Nodup ∧ none ∉ sheet.mMediaQueryList) :
    (sheet.addMediaQueryList list).mMediaQueryList.Nodup
      ∧ none ∉ (sheet.addMediaQueryList list).mMediaQueryList := by
  cases list with
  | none => rw [addMediaQueryList_null]; exact h
  | some l =>
    by_cases hl : some l ∈ sheet.mMediaQueryList
    · rw [addMediaQueryList_registered sheet _ hl]; exact h
    · rw [addMediaQueryList_new sheet l hl]
      constructor
      · rw [List.nodup_append]
        refine ⟨h.1, List.nodup_singleton _, ?_⟩
        intro a ha hb
        rw [List.mem_singleton] at hb
        rw [hb] at ha
        exact hl ha
      · intro hmem
        rcases List.mem_append.mp hmem with e | e
        · exact h.2 e
        · simp at e

theorem mediaLists_addStyle (sheet : StyleSheet) (node : StyleSheetStyle)
    (h : sheet.mMediaQueryList.Nodup ∧ none ∉ sheet.mMediaQueryList) :
    (sheet.addStyle node).mMediaQueryList.Nodup
      ∧ none ∉ (sheet.addStyle node).mMediaQueryList := by
  unfold StyleSheet.addStyle
  exact mediaLists_addMediaQueryList _ _ h

theorem mediaLists_foldl_addStyle (nodes : List StyleSheetStyle) (sheet : StyleSheet)
    (h : sheet.mMediaQueryList.Nodup ∧ none ∉ sheet.mMediaQueryList) :
    (nodes.foldl StyleSheet.addStyle sheet).mMediaQueryList.Nodup
      ∧ none ∉ (nodes.foldl StyleSheet.addStyle sheet).mMediaQueryList := by
  induction nodes generalizing sheet with
  | nil => exact h
  | cons node rest ih =>
    rw [List.foldl_cons]
    exact ih _ (mediaLists_addStyle sheet node h)

theorem mediaLists_of_reachable (sheet : StyleSheet) (h : StyleSheet.Reachable sheet) :
    sheet.mMediaQueryList.Nodup ∧ none ∉ sheet.mMediaQueryList := by
  induction h with
  | empty => simp
  | addStyle sheet node _ ih => exact mediaLists_addStyle sheet node ih
  | addMediaQueryList sheet list _ ih => exact mediaLists_addMediaQueryList sheet list ih
  | addKeyframes sheet k _ ih => rw [addKeyframes_mMediaQueryList]; exact ih
  | addKeyframesMap sheet ks _ ih => rw [(addKeyframesMap_frame ks sheet).2]; exact ih
  | combineStyleSheet sheet other _ ih =>
    unfold StyleSheet.combineStyleSheet
    rw [(addKeyframesMap_frame _ _).2]
    exact mediaLists_foldl_addStyle _ sheet ih

/-- C14. Media-query list deduplication. In every stylesheet reached from the empty one by
`addStyle`, `addMediaQueryList`, `combineStyleSheet` (and `addKeyframes`), no media-query list
is registered twice and no registered list is null; `addStyle` of a rule whose list is null or
already registered leaves the registered lists as they are and appends the rule; `addStyle` of a
rule with a new list appends the rule and appends the list, which is then registered once. -/
theorem mediaQueryList_deduplication (sheet : StyleSheet) (h : StyleSheet.Reachable sheet) :
    sheet.mMediaQueryList.Nodup
      ∧ none ∉ sheet.mMediaQueryList
      ∧ (∀ node : StyleSheetStyle,
          node.mediaQueryList = none ∨ node.mediaQueryList ∈ sheet.mMediaQueryList →
          (sheet.addStyle node).mMediaQueryList = sheet.mMediaQueryList
            ∧ (sheet.addStyle node).getStyles = sheet.getStyles ++ [node])
      ∧ (∀ (node : StyleSheetStyle) (l : Nat),
          node.mediaQueryList = some l → some l ∉ sheet.mMediaQueryList →
          (sheet.addStyle node).mMediaQueryList = sheet.mMediaQueryList ++ [some l]
            ∧ (sheet.addStyle node).mMediaQueryList.count (some l) = 1
            ∧ (sheet.addStyle node).getStyles = sheet.getStyles ++ [node]) := by
  obtain ⟨h1, h2⟩ := mediaLists_of_reachable sheet h
  refine ⟨h1, h2, ?_, ?_⟩
  · intro node hnode
    refine ⟨?_, addStyle_mNodes sheet node⟩
    unfold StyleSheet.addStyle
    rcases hnode with e | e
    · rw [e, addMediaQueryList_null]
    · rw [addMediaQueryList_registered
        { sheet with mNodes := sheet.mNodes ++ [node] } node.mediaQueryList e]
  · intro node l hl hnew
    have hm : (sheet.addStyle node).mMediaQueryList = sheet.mMediaQueryList ++ [some l] := by
      unfold StyleSheet.addStyle
      rw [hl, addMediaQueryList_new { sheet with mNodes := sheet.mNodes ++ [node] } l hnew]
    refine ⟨hm, ?_, addStyle_mNodes sheet node⟩
    rw [hm, List.count_append, List.count_eq_zero_of_not_mem hnew]
    simp

/-- C14, witness: a stylesheet built by `addStyle` from a plain rule, two rules of list `1` and
a rule of list `2`: the lists `1` and `2` are registered, each once. -/
theorem mediaQueryList_deduplication_witness :
    (sheetMedia.mMediaQueryList.Nodup
      ∧ none ∉ sheetMedia.mMediaQueryList
      ∧ (∀ node : StyleSheetStyle,
          node.mediaQueryList = none ∨ node.mediaQueryList ∈ sheetMedia.mMediaQueryList →
          (sheetMedia.addStyle node).mMediaQueryList = sheetMedia.mMediaQueryList
            ∧ (sheetMedia.addStyle node).getStyles = sheetMedia.getStyles ++ [node])
      ∧ (∀ (node : StyleSheetStyle) (l : Nat),
          node.mediaQueryList = some l → some l ∉ sheetMedia.mMediaQueryList →
          (sheetMedia.addStyle node).mMediaQueryList = sheetMedia.mMediaQueryList ++ [some l]
            ∧ (sheetMedia.addStyle node).mMediaQueryList.count (some l) = 1
            ∧ (sheetMedia.addStyle node).getStyles = sheetMedia.getStyles ++ [node]))
      ∧ sheetMedia.mMediaQueryList = [some 1, some 2]
      ∧ (sheetMedia.combineStyleSheet sheetOther).mMediaQueryList = [some 1, some 2] :=
  ⟨mediaQueryList_deduplication sheetMedia reachable_sheetMedia, by decide, by decide⟩

/-- C15. The call `updateMediaLists( features )` on a stylesheet with the registered lists `1`
and `2` (`sheetMedia`), when list `1` reports a changed truth value: `applyMediaFeatures` is
called on list `1` only; the loop breaks there and list `2` is not re-evaluated, whether it
would report a change or not. When list `1` reports no change, list `2` is reached. -/
theorem updateMediaLists_breaks_at_first_change :
    sheetMedia.mMediaQueryList = [some 1, some 2]
      ∧ sheetMedia.updateMediaLists (fun _ => true) = some (true, [1])
      ∧ sheetMedia.updateMediaLists (fun l => decide (l = 1)) = some (true, [1])
      ∧ sheetMedia.updateMediaLists (fun l => decide (l = 2)) = some (true, [1, 2])
      ∧ sheetMedia.updateMediaLists (fun _ => false) = some (false, [1, 2]) := by
  decide

theorem updateMediaListsLoop_result (applyMediaFeatures : Nat → Bool)
    (lists : List (Option Nat)) (hnull : none ∉ lists) :
    ∃ b evaluated, StyleSheet.updateMediaListsLoop applyMediaFeatures lists = some (b, evaluated)
      ∧ (b = true ↔ ∃ l, some l ∈ lists ∧ applyMediaFeatures l = true) := by
  induction lists with
  | nil => exact ⟨false, [], rfl, by simp⟩
  | cons x rest ih =>
    cases x with
    | none => exact absurd (List.mem_cons_self _ _) hnull
    | some l =>
      rw [StyleSheet.updateMediaListsLoop]
      by_cases hl : applyMediaFeatures l = true
      · rw [if_pos hl]
        exact ⟨true, [l], rfl, ⟨fun _ => ⟨l, List.mem_cons_self _ _, hl⟩, fun _ => rfl⟩⟩
      · rw [if_neg hl]
        obtain ⟨b, ev, hres, hiff⟩ := ih (fun h => hnull (List.mem_cons_of_mem _ h))
        refine ⟨b, l :: ev, by rw [hres]; rfl, ?_⟩
        rw [hiff]
        constructor
        · rintro ⟨k, hk, hk2⟩
          exact ⟨k, List.mem_cons_of_mem _ hk, hk2⟩
        · rintro ⟨k, hk, hk2⟩
          rcases List.mem_cons.mp hk with e | e
          · simp only [Option.some.injEq] at e
            rw [e] at hk2
            exact absurd hk2 hl
          · exact ⟨k, e, hk2⟩

/-- C16. The return value of `updateMediaLists( features )` on a stylesheet whose registered
lists are not null: the call returns, and it returns `true` if and only if at least one
registered list reports a changed truth value when the features are applied to it; it returns
`false` when no list is registered. -/
theorem updateMediaLists_return_value (applyMediaFeatures : Nat → Bool) (sheet : StyleSheet)
    (hnull : none ∉ sheet.mMediaQueryList) :
    ∃ b evaluated, sheet.updateMediaLists applyMediaFeatures = some (b, evaluated)
      ∧ (b = true ↔ ∃ l, some l ∈ sheet.mMediaQueryList ∧ applyMediaFeatures l = true)
      ∧ (sheet.mMediaQueryList = [] → b = false) := by
  unfold StyleSheet.updateMediaLists
  by_cases he : sheet.mMediaQueryList.isEmpty = true
  · rw [if_pos he]
    have hnil : sheet.mMediaQueryList = [] := List.isEmpty_iff.mp he
    exact ⟨false, [], rfl, by simp [hnil], fun _ => rfl⟩
  · rw [if_neg he]
    obtain ⟨b, ev, hres, hiff⟩ :=
      updateMediaListsLoop_result applyMediaFeatures sheet.mMediaQueryList hnull
    refine ⟨b, ev, hres, hiff, ?_⟩
    intro hnil
    rw [hnil] at he
    simp at he

/-- C16, witness: the stylesheet with the lists `1` and `2`, of which only list `2` reports a
change; and the stylesheet without lists. -/
theorem updateMediaLists_return_value_witness :
    (∃ b evaluated, sheetMedia.updateMediaLists (fun l => decide (l = 2)) = some (b, evaluated)
      ∧ (b = true ↔ ∃ l, some l ∈ sheetMedia.mMediaQueryList ∧ decide (l = 2) = true)
      ∧ (sheetMedia.mMediaQueryList = [] → b = false))
      ∧ sheetMedia.updateMediaLists (fun l => decide (l = 2)) = some (true, [1, 2])
      ∧ sheetMedia.updateMediaLists (fun _ => false) = some (false, [1, 2])
      ∧ StyleSheet.updateMediaLists (fun _ => true) {} = some (false, []) :=
  ⟨updateMediaLists_return_value (fun l => decide (l = 2)) sheetMedia (by decide),
    by decide, by decide, by decide⟩

/-! ## `updateState` -/

/-- C11. The call `updateState` on a style whose current state already is the highest flag
set in the bitmask (`styleHover`: flags `1` and `8` set, current state `8`): the loop does not
break at that flag, goes on to the lower flag `1`, which is set and differs from the current
state, and makes it the current state, with `8` as previous state. A second call makes `8` the
current state again. -/
theorem updateState_leaves_highest_flag :
    UIStyle.stateIndices flagsPow = [5, 4, 3, 2, 1, 0]
      ∧ styleHover.mState &&& flagsPow.getStateFlag 5 ≠ flagsPow.getStateFlag 5
      ∧ styleHover.mState &&& flagsPow.getStateFlag 4 ≠ flagsPow.getStateFlag 4
      ∧ styleHover.mState &&& flagsPow.getStateFlag 3 = flagsPow.getStateFlag 3
      ∧ styleHover.mCurrentState = flagsPow.getStateFlag 3
      ∧ (styleHover.updateStateLoop flagsPow (UIStyle.stateIndices flagsPow)).toUIState
          = { mState := 9, mCurrentState := 1, mPreviousState := 8 }
      ∧ stateAfterUpdateState sceneAll flagsPow 1 0 worldHover
          = some { mState := 9, mCurrentState := 1, mPreviousState := 8 }
      ∧ ((updateState sceneAll flagsPow 1 0 worldHover).bind
            (stateAfterUpdateState sceneAll flagsPow 1 0))
          = some { mState := 9, mCurrentState := 8, mPreviousState := 1 } := by
  decide

/-! ## The transition attributes and the attribute transaction -/

theorem mem_mapAssign (m : List StyleSheetProperty) (p d : StyleSheetProperty)
    (h : d ∈ mapAssign m p) : d = p ∨ d ∈ m := by
  induction m with
  | nil =>
    simp only [mapAssign, List.mem_singleton] at h
    exact Or.inl h
  | cons q m ih =>
    unfold mapAssign at h
    by_cases h1 : p.name = q.name
    · rw [if_pos h1] at h
      rcases List.mem_cons.mp h with h | h
      · exact Or.inl h
      · exact Or.inr (List.mem_cons_of_mem _ h)
    · rw [if_neg h1] at h
      by_cases h2 : keyLess p.name q.name = true
      · rw [if_pos h2] at h
        rcases List.mem_cons.mp h with h | h
        · exact Or.inl h
        · exact Or.inr h
      · rw [if_neg h2] at h
        rcases List.mem_cons.mp h with h | h
        · exact Or.inr (h ▸ List.mem_cons_self _ _)
        · rcases ih h with h | h
          · exact Or.inl h
          · exact Or.inr (List.mem_cons_of_mem _ h)

theorem transitionsCollected_applyProperty (s : UIStyle) (p : StyleSheetProperty)
    (h : s.transitionsCollected) : (s.applyProperty p).transitionsCollected := by
  have hstored : UIStyle.transitionsCollected
      { s with
        mProperties := mapAssign s.mProperties p
        mTransitionAttributes :=
          if startsWith p.name "transition" then s.mTransitionAttributes ++ [p]
          else s.mTransitionAttributes } := by
    obtain ⟨h1, h2⟩ := h
    constructor
    · intro d hd
      simp only at hd
      by_cases hp : startsWith p.name "transition" = true
      · rw [if_pos hp] at hd
        rcases List.mem_append.mp hd with hd | hd
        · exact h1 d hd
        · rw [List.mem_singleton] at hd
          rw [hd]
          exact hp
      · rw [if_neg hp] at hd
        exact h1 d hd
    · intro d hd hpre
      simp only at hd ⊢
      rcases mem_mapAssign _ _ _ hd with hd | hd
      · subst hd
        rw [if_pos hpre]
        exact List.mem_append_right _ (List.mem_singleton_self _)
      · have := h2 d hd hpre
        by_cases hp : startsWith p.name "transition" = true
        · rw [if_pos hp]
          exact List.mem_append_left _ this
        · rw [if_neg hp]
          exact this
  unfold UIStyle.applyProperty
  simp only
  cases mapFind s.mProperties p.name with
  | none => exact hstored
  | some it =>
    by_cases hge : p.specificity ≥ it.specificity
    · simp only [hge, if_true]
      exact hstored
    · simp only [hge, if_false]
      exact h

theorem transitionsCollected_foldl (seq : List StyleSheetProperty) (s : UIStyle)
    (h : s.transitionsCollected) :
    (seq.foldl UIStyle.applyProperty s).transitionsCollected := by
  induction seq generalizing s with
  | nil => exact h
  | cons d rest ih =>
    rw [List.foldl_cons]
    exact ih _ (transitionsCollected_applyProperty s d h)

theorem transitionsCollected_resolve (sc : Scene) (widget : WidgetId) (self : UIStyle) :
    (UIStyle.resolve sc widget self).transitionsCollected := by
  rw [resolve_eq]
  have h0 : self.beginStateChange.transitionsCollected :=
    ⟨fun d hd => (by cases hd), fun d hd => (by cases hd)⟩
  exact transitionsCollected_foldl (appliedProperties sc widget self.rules) _ h0

theorem resolve_mTransitions (sc : Scene) (widget : WidgetId) (self : UIStyle) :
    (UIStyle.resolve sc widget self).mTransitions
      = sc.parseTransitionProperties (UIStyle.resolve sc widget self).mTransitionAttributes := by
  rfl

/-- The calls of a completed `onStateChange` are appended to those made before. -/
theorem onStateChange_calls (sc : Scene) (depth : Nat) :
    ∀ (x : WidgetId) (w w1 : World), onStateChange sc depth x w = some w1 →
      ∃ rest, w1.calls = w.calls ++ rest := by
  induction depth with
  | zero => intro x w w1 h; simp [onStateChange] at h
  | succ depth ih =>
    intro x w w1 h
    have hloop : ∀ (L : List WidgetId) (wa wb : World),
        L.foldlM (fun w2 related => onStateChange sc depth related w2) wa = some wb →
          ∃ rest, wb.calls = wa.calls ++ rest := by
      intro L
      induction L with
      | nil =>
        intro wa wb hab
        simp only [List.foldlM_nil, Option.pure_def, Option.some.injEq] at hab
        subst hab
        exact ⟨[], by simp⟩
      | cons r rest ihL =>
        intro wa wb hab
        rw [List.foldlM_cons] at hab
        cases hr : onStateChange sc depth r wa with
        | none => rw [hr] at hab; simp at hab
        | some wr =>
          rw [hr] at hab
          simp only [Option.bind_eq_bind, Option.some_bind] at hab
          obtain ⟨r1, e1⟩ := ih r wa wr hr
          obtain ⟨r2, e2⟩ := ihL wr wb hab
          exact ⟨r1 ++ r2, by rw [e2, e1, List.append_assoc]⟩
    rw [onStateChange] at h
    cases hs : w.styles x with
    | none =>
      rw [hs] at h
      simp only [Option.some.injEq] at h
      subst h
      exact ⟨[], by simp⟩
    | some self =>
      rw [hs] at h
      simp only [Option.map_eq_some'] at h
      obtain ⟨w2, hw2, rfl⟩ := h
      obtain ⟨r2, e2⟩ := hloop _ _ _ hw2
      refine ⟨UIStyle.attributeCalls x (UIStyle.resolve sc x self) ++ r2, ?_⟩
      rw [calls_modify, e2, List.append_assoc]

/-- The calls of a completed `onStateChange` of a style start with its attribute transaction:
the transaction of the resolved style comes right after the calls made before. -/
theorem onStateChange_transaction (sc : Scene) (depth : Nat) (x : WidgetId) (w w1 : World)
    (self : UIStyle) (hs : w.styles x = some self) (h : onStateChange sc depth x w = some w1) :
    ∃ rest, w1.calls
      = w.calls ++ UIStyle.attributeCalls x (UIStyle.resolve sc x self) ++ rest := by
  cases depth with
  | zero => simp [onStateChange] at h
  | succ depth =>
    have hloop : ∀ (L : List WidgetId) (wa wb : World),
        L.foldlM (fun w2 related => onStateChange sc depth related w2) wa = some wb →
          ∃ rest, wb.calls = wa.calls ++ rest := by
      intro L
      induction L with
      | nil =>
        intro wa wb hab
        simp only [List.foldlM_nil, Option.pure_def, Option.some.injEq] at hab
        subst hab
        exact ⟨[], by simp⟩
      | cons r rest ihL =>
        intro wa wb hab
        rw [List.foldlM_cons] at hab
        cases hr : onStateChange sc depth r wa with
        | none => rw [hr] at hab; simp at hab
        | some wr =>
          rw [hr] at hab
          simp only [Option.bind_eq_bind, Option.some_bind] at hab
          obtain ⟨r1, e1⟩ := onStateChange_calls sc depth r wa wr hr
          obtain ⟨r2, e2⟩ := ihL wr wb hab
          exact ⟨r1 ++ r2, by rw [e2, e1, List.append_assoc]⟩
    rw [onStateChange, hs] at h
    simp only [Option.map_eq_some'] at h
    obtain ⟨w2, hw2, rfl⟩ := h
    obtain ⟨r2, e2⟩ := hloop _ _ _ hw2
    exact ⟨r2, by rw [calls_modify, e2]⟩

theorem resolve_mCurrentState (sc : Scene) (widget : WidgetId) (self : UIStyle) :
    (UIStyle.resolve sc widget self).mCurrentState = self.mCurrentState := by
  have h := congrArg (fun s : UIStyle => s.mCurrentState) (unresolved_resolve sc widget self)
  exact h

/-- C17, as the code has it. The rule `.a {transition: all 1s; color: red}` on widget `0`:
`onStateChange` passes the property `transition` to `setAttribute`, between `color` and the
end of the transaction, and also collects it among the transition attributes. -/
theorem transition_pushed_counterexample :
    callsAfterStateChange sceneAll 1 0 (worldOf [ruleTransition] [])
        = some [WidgetCall.beginAttributesTransaction 0,
            WidgetCall.setAttribute 0 "color" "red" false 0,
            WidgetCall.setAttribute 0 "transition" "all 1s" false 0,
            WidgetCall.endAttributesTransaction 0]
      ∧ startsWith "transition" "transition" = true
      ∧ (styleAfterStateChange sceneAll 1 0 (worldOf [ruleTransition] [])).map
          (fun s => s.mTransitionAttributes)
        = some [{ name := "transition", value := "all 1s", specificity := 100 }] := by
  decide

/-- C17, amended. For the style `self` of `widget`: a completed `onStateChange` appends to the
calls the attribute transaction of the resolved style, and that transaction has one
`setAttribute` for every entry of the resolved property map, whatever its name, with the
current state; every collected transition attribute has a name that starts with `transition`;
every entry of the property map with such a name is among the collected transition attributes;
the transitions are what `parseTransitionProperties` makes of the collected attributes; and
with related widgets that form no cycle the call returns. -/
theorem onStateChange_pushes_every_property (sc : Scene) (widget : WidgetId) (w : World)
    (self : UIStyle) (hself : w.styles widget = some self) :
    (∀ depth w1, onStateChange sc depth widget w = some w1 →
        ∃ rest, w1.calls
          = w.calls ++ UIStyle.attributeCalls widget (UIStyle.resolve sc widget self) ++ rest)
      ∧ UIStyle.attributeCalls widget (UIStyle.resolve sc widget self)
          = [WidgetCall.beginAttributesTransaction widget]
            ++ (UIStyle.resolve sc widget self).mProperties.map
                (fun d => WidgetCall.setAttribute widget d.name d.value d.isVolatile
                  self.mCurrentState)
            ++ [WidgetCall.endAttributesTransaction widget]
      ∧ (∀ d ∈ (UIStyle.resolve sc widget self).mTransitionAttributes,
          startsWith d.name "transition" = true)
      ∧ (∀ d ∈ (UIStyle.resolve sc widget self).mProperties,
          startsWith d.name "transition" = true →
            d ∈ (UIStyle.resolve sc widget self).mTransitionAttributes)
      ∧ (UIStyle.resolve sc widget self).mTransitions
          = sc.parseTransitionProperties (UIStyle.resolve sc widget self).mTransitionAttributes
      ∧ (∀ rank : WidgetId → Nat,
          (∀ x s, w.styles x = some s → ∀ r ∈ s.mRelatedWidgets, rank r < rank x) →
            ∃ w1, onStateChange sc (rank widget + 1) widget w = some w1) := by
  refine ⟨fun depth w1 h => onStateChange_transaction sc depth widget w w1 self hself h, ?_,
    (transitionsCollected_resolve sc widget self).1,
    (transitionsCollected_resolve sc widget self).2, rfl, ?_⟩
  · unfold UIStyle.attributeCalls
    rw [resolve_mCurrentState]
  · intro rank hrank
    exact onStateChange_returns sc rank (rank widget + 1) widget w hrank (Nat.lt_succ_self _)

theorem onStateChange_pushes_every_property_witness :
    (worldOf [ruleTransition] []).styles 0 = some { mCacheableStyles := [ruleTransition] }
      ∧ ((∀ depth w1, onStateChange sceneAll depth 0 (worldOf [ruleTransition] []) = some w1 →
          ∃ rest, w1.calls
            = (worldOf [ruleTransition] []).calls
              ++ UIStyle.attributeCalls 0
                (UIStyle.resolve sceneAll 0 { mCacheableStyles := [ruleTransition] }) ++ rest)
        ∧ UIStyle.attributeCalls 0
              (UIStyle.resolve sceneAll 0 { mCacheableStyles := [ruleTransition] })
            = [WidgetCall.beginAttributesTransaction 0]
              ++ (UIStyle.resolve sceneAll 0
                    { mCacheableStyles := [ruleTransition] }).mProperties.map
                  (fun d => WidgetCall.setAttribute 0 d.name d.value d.isVolatile
                    ({ mCacheableStyles := [ruleTransition] } : UIStyle).mCurrentState)
              ++ [WidgetCall.endAttributesTransaction 0]
        ∧ (∀ d ∈ (UIStyle.resolve sceneAll 0
              { mCacheableStyles := [ruleTransition] }).mTransitionAttributes,
            startsWith d.name "transition" = true)
        ∧ (∀ d ∈ (UIStyle.resolve sceneAll 0 { mCacheableStyles := [ruleTransition] }).mProperties,
            startsWith d.name "transition" = true →
              d ∈ (UIStyle.resolve sceneAll 0
                { mCacheableStyles := [ruleTransition] }).mTransitionAttributes)
        ∧ (UIStyle.resolve sceneAll 0 { mCacheableStyles := [ruleTransition] }).mTransitions
            = sceneAll.parseTransitionProperties
              (UIStyle.resolve sceneAll 0
                { mCacheableStyles := [ruleTransition] }).mTransitionAttributes
        ∧ (∀ rank : WidgetId → Nat,
            (∀ x s, (worldOf [ruleTransition] []).styles x = some s →
              ∀ r ∈ s.mRelatedWidgets, rank r < rank x) →
              ∃ w1, onStateChange sceneAll (rank 0 + 1) 0 (worldOf [ruleTransition] [])
                = some w1)) :=
  ⟨rfl, onStateChange_pushes_every_property sceneAll 0 (worldOf [ruleTransition] [])
    { mCacheableStyles := [ruleTransition] } rfl⟩

/-! ## `setStyleSheetProperty` -/

theorem mapFind_setProperty (style : StyleSheetStyle) (d : StyleSheetProperty) (p : String) :
    mapFind (style.setProperty d).properties p
      = if d.name = p then some d else mapFind style.properties p :=
  mapFind_mapAssign style.properties d p

/-! ## The related widgets are resolved again -/

theorem pass_unresolved (sc : Scene) (w w1 : World) (h : Pass sc w w1) (x : WidgetId)
    (s : UIStyle) (hs : w.styles x = some s) :
    ∃ s1, w1.styles x = some s1 ∧ s1.unresolved = s.unresolved := by
  obtain ⟨e, _⟩ := h x
  cases h1 : w1.styles x with
  | none => rw [h1, hs] at e; cases e
  | some s1 =>
    refine ⟨s1, rfl, ?_⟩
    rw [h1, hs] at e
    simpa using e

/-- The loop of `onStateChange` over the related widgets, when it completes, is a pass. -/
theorem relatedLoop_pass (sc : Scene) (depth : Nat) :
    ∀ (L : List WidgetId) (wa wb : World),
      L.foldlM (fun w2 related => onStateChange sc depth related w2) wa = some wb →
        Pass sc wa wb := by
  intro L
  induction L with
  | nil =>
    intro wa wb hab
    simp only [List.foldlM_nil, Option.pure_def, Option.some.injEq] at hab
    subst hab
    exact pass_refl sc wa
  | cons r rest ihL =>
    intro wa wb hab
    rw [List.foldlM_cons] at hab
    cases hr : onStateChange sc depth r wa with
    | none => rw [hr] at hab; simp at hab
    | some wr =>
      rw [hr] at hab
      simp only [Option.bind_eq_bind, Option.some_bind] at hab
      exact pass_trans sc wa wr wb (onStateChange_pass sc depth r wa wr hr).1 (ihL wr wb hab)

/-- A style that has the resolution `resolve` computes keeps it through a pass. -/
theorem pass_resolved (sc : Scene) (wa wb : World) (h : Pass sc wa wb) (A : WidgetId)
    (s0 s1 : UIStyle) (h1 : wa.styles A = some s1) (hu : s1.unresolved = s0.unresolved)
    (hr : s1.resolution = (UIStyle.resolve sc A s0).resolution) :
    ∃ s2, wb.styles A = some s2 ∧ s2.unresolved = s0.unresolved
      ∧ s2.resolution = (UIStyle.resolve sc A s0).resolution := by
  obtain ⟨s2, h2, u2⟩ := pass_unresolved sc wa wb h A s1 h1
  refine ⟨s2, h2, u2.trans hu, ?_⟩
  rcases (h A).2 s1 s2 h1 h2 with e | e
  · exact e.trans hr
  · rw [e, resolve_congr sc A s1 s0 hu]

/-- The loop of `onStateChange` over the related widgets resolves every widget of the list
that has a style. -/
theorem relatedLoop_resolves (sc : Scene) (depth : Nat) (A : WidgetId) (s0 : UIStyle) :
    ∀ (L : List WidgetId) (wa wb : World),
      L.foldlM (fun w2 related => onStateChange sc depth related w2) wa = some wb →
      A ∈ L → ∀ s1, wa.styles A = some s1 → s1.unresolved = s0.unresolved →
        ∃ s2, wb.styles A = some s2 ∧ s2.unresolved = s0.unresolved
          ∧ s2.resolution = (UIStyle.resolve sc A s0).resolution := by
  intro L
  induction L with
  | nil => intro wa wb _ hA; cases hA
  | cons r rest ihL =>
    intro wa wb hab hA s1 h1 hu
    rw [List.foldlM_cons] at hab
    cases hr : onStateChange sc depth r wa with
    | none => rw [hr] at hab; simp at hab
    | some wr =>
      rw [hr] at hab
      simp only [Option.bind_eq_bind, Option.some_bind] at hab
      obtain ⟨p, q⟩ := onStateChange_pass sc depth r wa wr hr
      by_cases hrA : r = A
      · subst hrA
        obtain ⟨sr, hsr, hres⟩ := q s1 h1
        obtain ⟨sr2, hsr2, hur⟩ := pass_unresolved sc wa wr p r s1 h1
        rw [hsr] at hsr2
        cases hsr2
        refine pass_resolved sc wr wb (relatedLoop_pass sc depth rest wr wb hab) r s0 sr hsr
          (hur.trans hu) ?_
        rw [hres, resolve_congr sc r s1 s0 hu]
      · have hA2 : A ∈ rest := by
          rcases List.mem_cons.mp hA with e | e
          · exact absurd e.symm hrA
          · exact e
        obtain ⟨sr, hsr, hur⟩ := pass_unresolved sc wa wr p A s1 h1
        exact ihL wr wb hab hA2 sr hsr (hur.trans hu)

/-- A completed `onStateChange` of the style of `B` leaves every related widget `A` of that
style with the resolution `resolve` computes for it. -/
theorem onStateChange_related_resolved (sc : Scene) (depth : Nat) (w w1 : World)
    (A B : WidgetId) (sA sB : UIStyle) (hB : w.styles B = some sB) (hA : w.styles A = some sA)
    (hrel : A ∈ sB.mRelatedWidgets) (h : onStateChange sc depth B w = some w1) :
    ∃ s2, w1.styles A = some s2 ∧ s2.unresolved = sA.unresolved
      ∧ s2.resolution = (UIStyle.resolve sc A sA).resolution := by
  cases depth with
  | zero => simp [onStateChange] at h
  | succ depth =>
    rw [onStateChange, hB] at h
    simp only [Option.map_eq_some'] at h
    obtain ⟨w2, hw2, rfl⟩ := h
    have hrel2 : A ∈ (UIStyle.resolve sc B sB).mRelatedWidgets := by
      have e := congrArg UIStyle.mRelatedWidgets (unresolved_resolve sc B sB)
      have e2 : (UIStyle.resolve sc B sB).mRelatedWidgets = sB.mRelatedWidgets := e
      rw [e2]
      exact hrel
    have hstart : ∃ s1, (w.setStyle B (UIStyle.resolve sc B sB)).styles A = some s1
        ∧ s1.unresolved = sA.unresolved := by
      by_cases hAB : A = B
      · have e : sB = sA := by
          rw [hAB, hB] at hA
          exact Option.some.inj hA
        refine ⟨UIStyle.resolve sc B sB, by simp [World.setStyle, hAB], ?_⟩
        rw [unresolved_resolve, e]
      · exact ⟨sA, by simp [World.setStyle, hAB, hA], rfl⟩
    obtain ⟨s1, h1, hu1⟩ := hstart
    obtain ⟨s2, h2, hu2, hr2⟩ :=
      relatedLoop_resolves sc depth A sA _ _ _ hw2 hrel2 s1 h1 hu1
    exact pass_resolved sc w2 _ (pass_lower sc w2 B) A sA s2 h2 hu2 hr2

/-! ## What `onStateChange` leaves alone -/

theorem attributeCalls_widget (x : WidgetId) (s : UIStyle) :
    ∀ c ∈ UIStyle.attributeCalls x s, c.widget = x := by
  intro c hc
  unfold UIStyle.attributeCalls at hc
  simp only [List.mem_append, List.mem_singleton, List.mem_map] at hc
  rcases hc with (hc | ⟨d, _, hc⟩) | hc
  · rw [hc]; rfl
  · rw [← hc]; rfl
  · rw [hc]; rfl

/-- A set of widgets closed under the related widgets stays closed through a pass. -/
theorem closed_of_pass (sc : Scene) (S : WidgetId → Prop) (w w1 : World) (h : Pass sc w w1)
    (hc : ∀ y s, S y → w.styles y = some s → ∀ r ∈ s.mRelatedWidgets, S r) :
    ∀ y s, S y → w1.styles y = some s → ∀ r ∈ s.mRelatedWidgets, S r := by
  intro y s1 hy hs1 r hr
  obtain ⟨s, hs, e⟩ := pass_related_back sc w w1 h y s1 hs1
  rw [← e] at hr
  exact hc y s hy hs r hr

/-- A completed `onStateChange` of the style of a widget of a set that is closed under the
related widgets: the styles of the widgets outside the set are left as they are, and every call
made is made on a widget of the set. -/
theorem onStateChange_outside (sc : Scene) (S : WidgetId → Prop) (depth : Nat) :
    ∀ (x : WidgetId) (w w1 : World), S x →
      (∀ y s, S y → w.styles y = some s → ∀ r ∈ s.mRelatedWidgets, S r) →
      onStateChange sc depth x w = some w1 →
        (∀ a, ¬ S a → w1.styles a = w.styles a)
          ∧ ∃ rest, w1.calls = w.calls ++ rest ∧ ∀ c ∈ rest, S c.widget := by
  induction depth with
  | zero => intro x w w1 _ _ h; simp [onStateChange] at h
  | succ depth ih =>
    intro x w w1 hx hc h
    have hloop : ∀ (L : List WidgetId) (wa wb : World), (∀ r ∈ L, S r) →
        (∀ y s, S y → wa.styles y = some s → ∀ r ∈ s.mRelatedWidgets, S r) →
        L.foldlM (fun w2 related => onStateChange sc depth related w2) wa = some wb →
          (∀ a, ¬ S a → wb.styles a = wa.styles a)
            ∧ ∃ rest, wb.calls = wa.calls ++ rest ∧ ∀ c ∈ rest, S c.widget := by
      intro L
      induction L with
      | nil =>
        intro wa wb _ _ hab
        simp only [List.foldlM_nil, Option.pure_def, Option.some.injEq] at hab
        subst hab
        exact ⟨fun _ _ => rfl, [], by simp, fun c hc => by cases hc⟩
      | cons r rest ihL =>
        intro wa wb hL hca hab
        rw [List.foldlM_cons] at hab
        cases hr : onStateChange sc depth r wa with
        | none => rw [hr] at hab; simp at hab
        | some wr =>
          rw [hr] at hab
          simp only [Option.bind_eq_bind, Option.some_bind] at hab
          obtain ⟨f1, r1, e1, c1⟩ := ih r wa wr (hL r (List.mem_cons_self _ _)) hca hr
          have hcr := closed_of_pass sc S wa wr (onStateChange_pass sc depth r wa wr hr).1 hca
          obtain ⟨f2, r2, e2, c2⟩ :=
            ihL wr wb (fun q hq => hL q (List.mem_cons_of_mem _ hq)) hcr hab
          refine ⟨fun a ha => (f2 a ha).trans (f1 a ha), r1 ++ r2, ?_, ?_⟩
          · rw [e2, e1, List.append_assoc]
          · intro c hcm
            rcases List.mem_append.mp hcm with hcm | hcm
            · exact c1 c hcm
            · exact c2 c hcm
    rw [onStateChange] at h
    cases hs : w.styles x with
    | none =>
      rw [hs] at h
      simp only [Option.some.injEq] at h
      subst h
      exact ⟨fun _ _ => rfl, [], by simp, fun c hc => by cases hc⟩
    | some self =>
      rw [hs] at h
      simp only [Option.map_eq_some'] at h
      obtain ⟨w2, hw2, rfl⟩ := h
      have p1 := pass_resolve sc w x self (w.calls ++ UIStyle.attributeCalls x
        (UIStyle.resolve sc x self)) hs
      have hc1 := closed_of_pass sc S w _ p1 hc
      have hrel : ∀ r ∈ (UIStyle.resolve sc x self).mRelatedWidgets, S r := by
        intro r hr
        have e := congrArg UIStyle.mRelatedWidgets (unresolved_resolve sc x self)
        have e2 : (UIStyle.resolve sc x self).mRelatedWidgets = self.mRelatedWidgets := e
        rw [e2] at hr
        exact hc x self hx hs r hr
      obtain ⟨f2, r2, e2, c2⟩ := hloop _ _ _ hrel hc1 hw2
      refine ⟨?_, UIStyle.attributeCalls x (UIStyle.resolve sc x self) ++ r2, ?_, ?_⟩
      · intro a ha
        have hax : a ≠ x := fun e => ha (e ▸ hx)
        have e3 := f2 a ha
        simp only [World.setStyle, if_neg hax] at e3
        simp only [World.modify, if_neg hax]
        exact e3
      · rw [calls_modify, e2, List.append_assoc]
      · intro c hcm
        rcases List.mem_append.mp hcm with hcm | hcm
        · rw [attributeCalls_widget x _ c hcm]
          exact hx
        · exact c2 c hcm

/-! ## A style without non-cacheable rules has no subscription -/

theorem noncacheableStyles_congr (w w1 : World) (b : WidgetId)
    (h : (w1.styles b).map UIStyle.withoutSets = (w.styles b).map UIStyle.withoutSets) :
    w1.noncacheableStyles b = w.noncacheableStyles b := by
  unfold World.noncacheableStyles
  cases h1 : w1.styles b with
  | none =>
    cases h0 : w.styles b with
    | none => rfl
    | some s => rw [h1, h0] at h; cases h
  | some s1 =>
    cases h0 : w.styles b with
    | none => rw [h1, h0] at h; cases h
    | some s =>
      rw [h1, h0] at h
      simp only [Option.map_some', Option.some.injEq] at h
      have e := congrArg UIStyle.mNoncacheableStyles h
      exact e

theorem unsubscribed_load (sc : Scene) (a : WidgetId) (w : World) (ha : w.live a = true)
    (hinv : ∀ A, w.noncacheableStyles A = [] → ∀ y, ¬ w.hasSubscribed A y = true) :
    ∀ A, (load sc a w).noncacheableStyles A = [] →
      ∀ y, ¬ (load sc a w).hasSubscribed A y = true := by
  obtain ⟨self, hs⟩ := (live_iff w a).mp ha
  obtain ⟨_, _, l3, _, l5⟩ := load_spec sc a w self hs
  intro A hA y hsub
  rcases (l5 A y).mp hsub with ⟨h1, h2⟩ | ⟨h1, ⟨style, hstyle, _⟩, _⟩
  · have e := l3 A
    rw [if_neg h2] at e
    rw [noncacheableStyles_congr w _ A e] at hA
    exact hinv A hA y h1
  · subst h1
    obtain ⟨s1, hs1, _, hn, _⟩ := load_style sc A w self hs
    unfold World.noncacheableStyles at hA
    rw [hs1] at hA
    simp only at hA
    rw [← hn, hA] at hstyle
    cases hstyle

/-- In every reachable world a style without non-cacheable rules is subscribed to no widget. -/
theorem unsubscribed_of_reachable (w : World) (h : Reachable w) :
    ∀ A, w.noncacheableStyles A = [] → ∀ y, ¬ w.hasSubscribed A y = true := by
  induction h with
  | empty => intro A _ y h; simp [World.hasSubscribed, World.empty] at h
  | construct sc base es a w hw ha ih =>
    unfold construct
    apply unsubscribed_load
    · simp [World.live, World.setStyle]
    · intro A hA y hsub
      by_cases hAa : A = a
      · subst hAa
        simp [World.hasSubscribed, World.setStyle, UIStyle.fresh] at hsub
      · have e : (w.setStyle a (UIStyle.fresh base es)).styles A = w.styles A := by
          simp [World.setStyle, hAa]
        have hA2 : w.noncacheableStyles A = [] := by
          unfold World.noncacheableStyles at hA ⊢
          rw [e] at hA
          exact hA
        have hsub2 : w.hasSubscribed A y = true := by
          unfold World.hasSubscribed at hsub ⊢
          rw [e] at hsub
          exact hsub
        exact ih A hA2 y hsub2
  | load sc a w hw ha ih => exact unsubscribed_load sc a w ha ih
  | destroy a w hw ha ih =>
    obtain ⟨_, _, d3, _, d5⟩ :=
      destroy_spec a w (symmetric_of_wellLinked w (wellLinked_of_reachable w hw)) ha
    intro A hA y hsub
    obtain ⟨h1, h2, _⟩ := (d5 A y).mp hsub
    rw [noncacheableStyles_congr w _ A (d3 A h2)] at hA
    exact ih A hA y h1

/-- In every reachable world a style without non-cacheable rules is a related widget of no
style. -/
theorem unrelated_of_reachable (w : World) (h : Reachable w) (A : WidgetId)
    (hA : w.noncacheableStyles A = []) (y : WidgetId) (s : UIStyle)
    (hs : w.styles y = some s) : A ∉ s.mRelatedWidgets := by
  intro hmem
  have hr : w.hasRelated y A = true := (hasRelated_iff w y A).mpr ⟨s, hs, hmem⟩
  have hl := (wellLinked_of_reachable w h).1 A y hr
  exact unsubscribed_of_reachable w h A hA y hl.2

theorem reachable_worldThree : Reachable worldThree :=
  Reachable.construct sceneThree {} inlineStyle 2 _
    (Reachable.construct sceneThree {} inlineStyle 1 _
      (Reachable.construct sceneThree {} inlineStyle 0 _ Reachable.empty (by decide))
      (by decide))
    (by decide)

/-- C20, as the code has it. In `worldThree`, a world built by constructors, the style of
widget `1` has the cacheable rule `.a {color: green}` and is in the related widgets of the
style of widget `0`. An `onStateChange` of the style of widget `0` applies that cacheable rule
to widget `1` again: the property map of widget `1`, empty before, holds `color: green`
afterwards when the selector `.a` selects widget `1` at that moment, and does not hold it when
the selector does not. -/
theorem cacheable_rule_rerun_counterexample :
    worldThree.styles 1
        = some { mCacheableStyles := [ruleAGreen], mNoncacheableStyles := [ruleHoverWidth],
                 mSubscribedWidgets := [0] }
      ∧ ruleAGreen.selector.cacheable = true
      ∧ worldThree.hasRelated 0 1 = true
      ∧ sceneThree.select ruleAGreen.selector 1 sceneThree.selectDefault = true
      ∧ (styleOfAfterStateChange sceneThree 2 0 1 worldThree).map (fun s => s.mProperties)
        = some [colorGreen, { name := "width", value := "10", specificity := 200 }]
      ∧ sceneHover.select ruleAGreen.selector 1 sceneHover.selectDefault = false
      ∧ (styleOfAfterStateChange sceneHover 2 0 1 worldThree).map (fun s => s.mProperties)
        = some [{ name := "width", value := "10", specificity := 200 }] := by
  decide

/-- C20, amended. In a world reached by constructing, loading and destroying styles, a widget
`A` whose style has no non-cacheable rule, and a different widget `B`: whenever `onStateChange`
of the style of `B` returns, the style of `A` is what it was, and no call was made on `A`, so no
rule of `A` was applied again. More generally, in any world `w0` and for any set of widgets that
holds `B`, does not hold `A` and is closed under the related widgets of its styles, a completed
`onStateChange` of the style of `B` leaves the style of `A` as it was and makes no call on
`A`. -/
theorem onStateChange_spares_cacheable_only (sc : Scene) (w : World) (hw : Reachable w)
    (A B : WidgetId) (hne : B ≠ A) (hnc : w.noncacheableStyles A = []) :
    (∀ depth w1, onStateChange sc depth B w = some w1 →
        w1.styles A = w.styles A
          ∧ ∃ rest, w1.calls = w.calls ++ rest ∧ ∀ c ∈ rest, c.widget ≠ A)
      ∧ (∀ (S : WidgetId → Prop) (w0 : World), S B → ¬ S A →
          (∀ y s, S y → w0.styles y = some s → ∀ r ∈ s.mRelatedWidgets, S r) →
          ∀ depth w1, onStateChange sc depth B w0 = some w1 →
            w1.styles A = w0.styles A
              ∧ ∃ rest, w1.calls = w0.calls ++ rest ∧ ∀ c ∈ rest, c.widget ≠ A) := by
  have general : ∀ (S : WidgetId → Prop) (w0 : World), S B → ¬ S A →
      (∀ y s, S y → w0.styles y = some s → ∀ r ∈ s.mRelatedWidgets, S r) →
      ∀ depth w1, onStateChange sc depth B w0 = some w1 →
        w1.styles A = w0.styles A
          ∧ ∃ rest, w1.calls = w0.calls ++ rest ∧ ∀ c ∈ rest, c.widget ≠ A := by
    intro S w0 hB hA hc depth w1 h
    obtain ⟨f, rest, e, c⟩ := onStateChange_outside sc S depth B w0 w1 hB hc h
    exact ⟨f A hA, rest, e, fun x hx hxa => hA (hxa ▸ c x hx)⟩
  refine ⟨?_, general⟩
  intro depth w1 h
  refine general (fun x => x ≠ A) w hne (fun h => h rfl) ?_ depth w1 h
  intro y s _ hs r hr hrA
  exact unrelated_of_reachable w hw A hnc y s hs (hrA ▸ hr)

theorem onStateChange_spares_cacheable_only_witness :
    ((∀ depth w1, onStateChange sceneThree depth 0 worldThree = some w1 →
        w1.styles 2 = worldThree.styles 2
          ∧ ∃ rest, w1.calls = worldThree.calls ++ rest ∧ ∀ c ∈ rest, c.widget ≠ 2)
      ∧ (∀ (S : WidgetId → Prop) (w0 : World), S 0 → ¬ S 2 →
          (∀ y s, S y → w0.styles y = some s → ∀ r ∈ s.mRelatedWidgets, S r) →
          ∀ depth w1, onStateChange sceneThree depth 0 w0 = some w1 →
            w1.styles 2 = w0.styles 2
              ∧ ∃ rest, w1.calls = w0.calls ++ rest ∧ ∀ c ∈ rest, c.widget ≠ 2))
      ∧ worldThree.styles 2 = some { mCacheableStyles := [ruleAGreen] }
      ∧ (onStateChange sceneThree 2 0 worldThree).isSome = true
      ∧ styleOfAfterStateChange sceneThree 2 0 2 worldThree
        = some { mCacheableStyles := [ruleAGreen] }
      ∧ callsAfterStateChange sceneThree 2 0 worldThree
        = some [WidgetCall.beginAttributesTransaction 0,
            WidgetCall.setAttribute 0 "color" "green" false 0,
            WidgetCall.endAttributesTransaction 0,
            WidgetCall.beginAttributesTransaction 1,
            WidgetCall.setAttribute 1 "color" "green" false 0,
            WidgetCall.setAttribute 1 "width" "10" false 0,
            WidgetCall.endAttributesTransaction 1] :=
  ⟨onStateChange_spares_cacheable_only sceneThree worldThree reachable_worldThree 2 0
      (by decide) (by decide),
    by decide, by decide, by decide, by decide⟩

/-! ## `getStatelessStyleSheetProperty` -/

theorem mapFind_some (m : List StyleSheetProperty) (n : String) (p : StyleSheetProperty)
    (h : mapFind m n = some p) : p.name = n ∧ p ∈ m := by
  unfold mapFind at h
  have h1 := List.find?_some h
  exact ⟨by simpa using h1, List.mem_of_find?_eq_some h⟩

/-- A rule declares a property of a name that is not empty exactly when `getPropertyByName`
gives a property that is not empty, and that property is the declared one. -/
theorem getPropertyByName_declared (style : StyleSheetStyle) (n : String)
    (p : StyleSheetProperty) (hn : n ≠ "") (h : mapFind style.properties n = some p) :
    style.getPropertyByName n = p ∧ (style.getPropertyByName n).isEmpty = false := by
  unfold StyleSheetStyle.getPropertyByName
  rw [h]
  refine ⟨rfl, ?_⟩
  have e := (mapFind_some _ _ _ h).1
  simp [StyleSheetProperty.isEmpty, e, hn]

theorem getPropertyByName_undeclared (style : StyleSheetStyle) (n : String)
    (h : mapFind style.properties n = none) :
    style.getPropertyByName n = StyleSheetProperty.empty
      ∧ (style.getPropertyByName n).isEmpty = true := by
  unfold StyleSheetStyle.getPropertyByName
  rw [h]
  exact ⟨rfl, rfl⟩

theorem statelessLoop_skip (n : String) (pre rest : List StyleSheetStyle)
    (hpre : ∀ r ∈ pre, r.selector.pseudoClasses = true ∨ mapFind r.properties n = none) :
    UIStyle.statelessLoop n (pre ++ rest) = UIStyle.statelessLoop n rest := by
  induction pre with
  | nil => rfl
  | cons r pre ih =>
    rw [List.cons_append, UIStyle.statelessLoop]
    have ih2 := ih (fun q hq => hpre q (List.mem_cons_of_mem _ hq))
    rcases hpre r (List.mem_cons_self _ _) with h | h
    · simp [h, ih2]
    · simp [(getPropertyByName_undeclared r n h).2, ih2]

theorem statelessLoop_some (n : String) (L : List StyleSheetStyle) (p : StyleSheetProperty)
    (h : UIStyle.statelessLoop n L = some p) :
    ∃ st ∈ L, st.selector.pseudoClasses = false ∧ p ∈ st.properties ∧ p.name = n := by
  induction L with
  | nil => simp [UIStyle.statelessLoop] at h
  | cons r rest ih =>
    rw [UIStyle.statelessLoop] at h
    by_cases hp : r.selector.pseudoClasses = true
    · simp only [hp, Bool.not_true, Bool.false_eq_true, if_false] at h
      obtain ⟨st, hst, h2⟩ := ih h
      exact ⟨st, List.mem_cons_of_mem _ hst, h2⟩
    · have hp2 : r.selector.pseudoClasses = false := by simpa using hp
      simp only [hp2, Bool.not_false, if_true] at h
      cases hf : mapFind r.properties n with
      | none =>
        simp only [(getPropertyByName_undeclared r n hf).2, Bool.not_true, Bool.false_eq_true,
          if_false] at h
        obtain ⟨st, hst, h2⟩ := ih h
        exact ⟨st, List.mem_cons_of_mem _ hst, h2⟩
      | some q =>
        have hq : r.getPropertyByName n = q := by
          unfold StyleSheetStyle.getPropertyByName
          rw [hf]
        rw [hq] at h
        obtain ⟨e1, e2⟩ := mapFind_some _ _ _ hf
        by_cases hqe : q.isEmpty = true
        · simp only [hqe, Bool.not_true, Bool.false_eq_true, if_false] at h
          obtain ⟨st, hst, h2⟩ := ih h
          exact ⟨st, List.mem_cons_of_mem _ hst, h2⟩
        · simp only [hqe, Bool.not_false, if_true, Option.some.injEq] at h
          subst h
          exact ⟨r, List.mem_cons_self _ _, hp2, e2, e1⟩

/-- C21. The function `getStatelessStyleSheetProperty` of a style, for a name: the empty
property for the empty name; the property that the inline style declares under the name when
the inline selector has no pseudo-classes; otherwise the property that the first cacheable rule
without pseudo-classes that declares the name declares under it; otherwise the empty property.
The result is the same for any style with the same inline style and the same cacheable rules,
whatever its state, its resolved map and its non-cacheable rules; it is the empty property or
a property of the inline style or of a cacheable rule, taken from one without pseudo-classes. -/
theorem getStatelessStyleSheetProperty_spec (self : UIStyle) :
    self.getStatelessStyleSheetProperty "" = StyleSheetProperty.empty
      ∧ (∀ n p, n ≠ "" → self.mElementStyle.selector.pseudoClasses = false →
          mapFind self.mElementStyle.properties n = some p →
          self.getStatelessStyleSheetProperty n = p)
      ∧ (∀ n p pre st post, n ≠ "" →
          (self.mElementStyle.selector.pseudoClasses = true
            ∨ mapFind self.mElementStyle.properties n = none) →
          self.mCacheableStyles = pre ++ st :: post →
          (∀ r ∈ pre, r.selector.pseudoClasses = true ∨ mapFind r.properties n = none) →
          st.selector.pseudoClasses = false → mapFind st.properties n = some p →
          self.getStatelessStyleSheetProperty n = p)
      ∧ (∀ n,
          (self.mElementStyle.selector.pseudoClasses = true
            ∨ mapFind self.mElementStyle.properties n = none) →
          (∀ r ∈ self.mCacheableStyles,
            r.selector.pseudoClasses = true ∨ mapFind r.properties n = none) →
          self.getStatelessStyleSheetProperty n = StyleSheetProperty.empty)
      ∧ (∀ (other : UIStyle) n, other.mElementStyle = self.mElementStyle →
          other.mCacheableStyles = self.mCacheableStyles →
          other.getStatelessStyleSheetProperty n = self.getStatelessStyleSheetProperty n)
      ∧ (∀ n, self.getStatelessStyleSheetProperty n = StyleSheetProperty.empty
          ∨ (self.mElementStyle.selector.pseudoClasses = false
              ∧ self.getStatelessStyleSheetProperty n ∈ self.mElementStyle.properties)
          ∨ ∃ st ∈ self.mCacheableStyles, st.selector.pseudoClasses = false
              ∧ self.getStatelessStyleSheetProperty n ∈ st.properties) := by
  have hskip : ∀ n, n ≠ "" →
      (self.mElementStyle.selector.pseudoClasses = true
        ∨ mapFind self.mElementStyle.properties n = none) →
      self.getStatelessStyleSheetProperty n
        = match UIStyle.statelessLoop n self.mCacheableStyles with
          | some property => property
          | none => StyleSheetProperty.empty := by
    intro n hn he
    unfold UIStyle.getStatelessStyleSheetProperty
    rw [if_pos hn]
    rcases he with h | h
    · simp [h]
    · simp [(getPropertyByName_undeclared _ n h).2]
  refine ⟨by simp [UIStyle.getStatelessStyleSheetProperty], ?_, ?_, ?_, ?_, ?_⟩
  · intro n p hn hps hf
    obtain ⟨e1, e2⟩ := getPropertyByName_declared self.mElementStyle n p hn hf
    unfold UIStyle.getStatelessStyleSheetProperty
    rw [if_pos hn]
    have e3 : p.isEmpty = false := e1 ▸ e2
    simp [hps, e1, e3]
  · intro n p pre st post hn he hc hpre hst hf
    rw [hskip n hn he, hc, statelessLoop_skip n pre (st :: post) hpre, UIStyle.statelessLoop]
    obtain ⟨e1, e2⟩ := getPropertyByName_declared st n p hn hf
    have e3 : p.isEmpty = false := e1 ▸ e2
    simp [hst, e1, e3]
  · intro n he hall
    by_cases hn : n = ""
    · subst hn
      simp [UIStyle.getStatelessStyleSheetProperty]
    · rw [hskip n hn he]
      have h := statelessLoop_skip n self.mCacheableStyles [] hall
      rw [List.append_nil] at h
      rw [h]
      rfl
  · intro other n h1 h2
    unfold UIStyle.getStatelessStyleSheetProperty
    rw [h1, h2]
  · intro n
    by_cases hn : n = ""
    · subst hn
      left
      simp [UIStyle.getStatelessStyleSheetProperty]
    · by_cases hps : self.mElementStyle.selector.pseudoClasses = true
      · rw [hskip n hn (Or.inl hps)]
        cases hl : UIStyle.statelessLoop n self.mCacheableStyles with
        | none => exact Or.inl rfl
        | some p =>
          obtain ⟨st, hst, h1, h2, _⟩ := statelessLoop_some n _ p hl
          exact Or.inr (Or.inr ⟨st, hst, h1, h2⟩)
      · have hps2 : self.mElementStyle.selector.pseudoClasses = false := by simpa using hps
        cases hf : mapFind self.mElementStyle.properties n with
        | none =>
          rw [hskip n hn (Or.inr hf)]
          cases hl : UIStyle.statelessLoop n self.mCacheableStyles with
          | none => exact Or.inl rfl
          | some p =>
            obtain ⟨st, hst, h1, h2, _⟩ := statelessLoop_some n _ p hl
            exact Or.inr (Or.inr ⟨st, hst, h1, h2⟩)
        | some p =>
          obtain ⟨e1, e2⟩ := getPropertyByName_declared self.mElementStyle n p hn hf
          have hres : self.getStatelessStyleSheetProperty n = p := by
            unfold UIStyle.getStatelessStyleSheetProperty
            rw [if_pos hn]
            have e3 : p.isEmpty = false := e1 ▸ e2
            simp [hps2, e1, e3]
          rw [hres]
          exact Or.inr (Or.inl ⟨hps2, (mapFind_some _ _ _ hf).2⟩)

/-- C21, on a style with the inline declaration `width: 20`, the cacheable rules
`.a:hover {color: blue; height: 5}`, `.a {color: red}`, `.a {color: green}` and the non-cacheable
rule `.b:hover .a {width: 10}`. -/
theorem getStatelessStyleSheetProperty_spec_witness :
    (styleStateless.getStatelessStyleSheetProperty "" = StyleSheetProperty.empty
      ∧ (∀ n p, n ≠ "" → styleStateless.mElementStyle.selector.pseudoClasses = false →
          mapFind styleStateless.mElementStyle.properties n = some p →
          styleStateless.getStatelessStyleSheetProperty n = p))
      ∧ styleStateless.getStatelessStyleSheetProperty "width" = widthInline
      ∧ styleStateless.getStatelessStyleSheetProperty "color" = colorRed
      ∧ styleStateless.getStatelessStyleSheetProperty "height" = StyleSheetProperty.empty
      ∧ UIStyle.getStatelessStyleSheetProperty
          { styleStateless with
            mState := 9, mCurrentState := 8,
            mProperties := [{ name := "color", value := "blue", specificity := 200 }] }
          "color" = colorRed :=
  ⟨⟨(getStatelessStyleSheetProperty_spec styleStateless).1,
      (getStatelessStyleSheetProperty_spec styleStateless).2.1⟩,
    by decide, by decide, by decide, by decide⟩

/-! ## `hasTransition` and `getTransition` -/

/-- C22. Transition lookup with the fallback `all`. For a style and a name: `getTransition` is
the definition stored under the name when there is one, else the definition stored under `all`
when there is one, else the default `TransitionDefinition`; `hasTransition` holds exactly when
there is a definition under the name or one under `all`. -/
theorem getTransition_fallback (self : UIStyle) (n : String) :
    (∀ d, transitionsFind self.mTransitions n = some d → self.getTransition n = d)
      ∧ (∀ d, transitionsFind self.mTransitions n = none →
          transitionsFind self.mTransitions "all" = some d → self.getTransition n = d)
      ∧ (transitionsFind self.mTransitions n = none →
          transitionsFind self.mTransitions "all" = none → self.getTransition n = {})
      ∧ (self.hasTransition n = true ↔
          (∃ d, transitionsFind self.mTransitions n = some d)
            ∨ (transitionsFind self.mTransitions n = none
                ∧ ∃ d, transitionsFind self.mTransitions "all" = some d))
      ∧ (self.hasTransition n = false ↔
          transitionsFind self.mTransitions n = none
            ∧ transitionsFind self.mTransitions "all" = none) := by
  unfold UIStyle.getTransition UIStyle.hasTransition
  cases h1 : transitionsFind self.mTransitions n with
  | some d1 => simp
  | none =>
    cases h2 : transitionsFind self.mTransitions "all" with
    | some d2 => simp
    | none => simp

/-- C22, on a style with entries for `all` and `width`, and on one with an entry for `width`
only. -/
theorem getTransition_fallback_witness :
    ((∀ d, transitionsFind styleTransitions.mTransitions "width" = some d →
        styleTransitions.getTransition "width" = d)
      ∧ (∀ d, transitionsFind styleTransitions.mTransitions "width" = none →
          transitionsFind styleTransitions.mTransitions "all" = some d →
          styleTransitions.getTransition "width" = d))
      ∧ styleTransitions.getTransition "width" = { property := "width", duration := 250 }
      ∧ styleTransitions.getTransition "height" = { property := "all", duration := 100 }
      ∧ styleTransitions.hasTransition "height" = true
      ∧ styleTransitionWidth.getTransition "height" = {}
      ∧ styleTransitionWidth.hasTransition "height" = false
      ∧ styleTransitionWidth.hasTransition "width" = true :=
  ⟨⟨(getTransition_fallback styleTransitions "width").1,
      (getTransition_fallback styleTransitions "width").2.1⟩,
    by decide, by decide, by decide, by decide, by decide, by decide⟩

/-! ## Keyframes lookup -/

theorem lastAdded_cons (k : KeyframesDefinition) (rest : List KeyframesDefinition)
    (n : String) :
    lastAdded (k :: rest) n
      = match lastAdded rest n with
        | some d => some d
        | none => if k.name = n ∧ n ≠ "none" then some k else none := by
  unfold lastAdded
  rw [List.reverse_cons, List.find?_append]
  cases h : List.find? (fun k => decide (k.name = n) && decide (n ≠ "none")) rest.reverse with
  | some d => simp
  | none =>
    by_cases hk : k.name = n ∧ n ≠ "none"
    · simp [hk.1, hk.2]
    · rw [if_neg hk]
      simp only [Option.none_or, List.find?_cons, List.find?_nil]
      have : (decide (k.name = n) && decide (n ≠ "none")) = false := by
        simpa using fun h => not_and.mp hk h
      rw [this]

/-- The keyframes map after definitions went through `addKeyframes` in turn: under a name it
holds the definition given last under that name, if one was given, else what it held. -/
theorem keyframesFind_foldl_addKeyframes (ks : List KeyframesDefinition) (sheet : StyleSheet)
    (n : String) :
    keyframesFind (ks.foldl StyleSheet.addKeyframes sheet).mKeyframesMap n
      = match lastAdded ks n with
        | some d => some d
        | none => keyframesFind sheet.mKeyframesMap n := by
  induction ks generalizing sheet with
  | nil => simp [lastAdded]
  | cons k rest ih =>
    rw [List.foldl_cons, ih, lastAdded_cons, keyframesFind_addKeyframes]
    cases lastAdded rest n with
    | some d => rfl
    | none =>
      by_cases hk : k.name = n ∧ n ≠ "none"
      · simp [hk]
      · simp [hk]

theorem lastAdded_some (ks : List KeyframesDefinition) (n : String) (k : KeyframesDefinition)
    (h : lastAdded ks n = some k) : k ∈ ks ∧ k.name = n ∧ n ≠ "none" := by
  unfold lastAdded at h
  have h1 := List.find?_some h
  have h2 := List.mem_of_find?_eq_some h
  simp only [Bool.and_eq_true, decide_eq_true_eq] at h1
  exact ⟨List.mem_reverse.mp h2, h1.1, h1.2⟩

theorem lastAdded_none (ks : List KeyframesDefinition) (n : String) :
    lastAdded ks n = none ↔ ∀ k ∈ ks, k.name = n → n = "none" := by
  unfold lastAdded
  rw [List.find?_eq_none]
  constructor
  · intro h k hk hn
    have := h k (List.mem_reverse.mpr hk)
    simpa [hn] using this
  · intro h k hk
    have := h k (List.mem_reverse.mp hk)
    simp only [Bool.and_eq_true, decide_eq_true_eq, not_and, not_not]
    exact this

/-- C23. Keyframes lookup, for a stylesheet to which the definitions `ks` are given in this
order through `addKeyframes`, and a name `n`. When a definition was given under `n` and `n` is
not `none`, `getKeyframesDefinition( n )` is the one given last and `isKeyframesDefined( n )`
holds; when none was given, both lookups answer what they answered before. On any stylesheet
the lookup is total: it is the stored definition when `isKeyframesDefined` holds and the empty
sentinel when it does not; on the empty stylesheet it is the sentinel; `addStyle` does not
change it; and on every reachable stylesheet the name `none` gives the sentinel. -/
theorem getKeyframesDefinition_lookup (sheet : StyleSheet) (ks : List KeyframesDefinition)
    (n : String) :
    (∀ k, lastAdded ks n = some k →
        (ks.foldl StyleSheet.addKeyframes sheet).getKeyframesDefinition n = k
          ∧ (ks.foldl StyleSheet.addKeyframes sheet).isKeyframesDefined n = true
          ∧ k ∈ ks ∧ k.name = n ∧ n ≠ "none")
      ∧ (lastAdded ks n = none →
          (ks.foldl StyleSheet.addKeyframes sheet).getKeyframesDefinition n
              = sheet.getKeyframesDefinition n
            ∧ (ks.foldl StyleSheet.addKeyframes sheet).isKeyframesDefined n
              = sheet.isKeyframesDefined n)
      ∧ (lastAdded ks n = none ↔ ∀ k ∈ ks, k.name = n → n = "none")
      ∧ (StyleSheet.getKeyframesDefinition {} n = KeyframesDefinition.EMPTY
          ∧ StyleSheet.isKeyframesDefined {} n = false)
      ∧ (sheet.isKeyframesDefined n = true ↔
          ∃ d, keyframesFind sheet.mKeyframesMap n = some d
            ∧ sheet.getKeyframesDefinition n = d)
      ∧ (sheet.isKeyframesDefined n = false ↔ keyframesFind sheet.mKeyframesMap n = none)
      ∧ (keyframesFind sheet.mKeyframesMap n = none →
          sheet.getKeyframesDefinition n = KeyframesDefinition.EMPTY)
      ∧ (∀ node, (sheet.addStyle node).getKeyframesDefinition n = sheet.getKeyframesDefinition n
          ∧ (sheet.addStyle node).isKeyframesDefined n = sheet.isKeyframesDefined n)
      ∧ (StyleSheet.Reachable sheet →
          sheet.getKeyframesDefinition "none" = KeyframesDefinition.EMPTY
            ∧ sheet.isKeyframesDefined "none" = false) := by
  have hfind := keyframesFind_foldl_addKeyframes ks sheet n
  refine ⟨?_, ?_, lastAdded_none ks n, ⟨rfl, rfl⟩, ?_, ?_, ?_, ?_, ?_⟩
  · intro k hk
    rw [hk] at hfind
    refine ⟨?_, ?_, lastAdded_some ks n k hk⟩
    · unfold StyleSheet.getKeyframesDefinition
      rw [hfind]
    · unfold StyleSheet.isKeyframesDefined
      rw [hfind]
      rfl
  · intro hk
    rw [hk] at hfind
    constructor
    · unfold StyleSheet.getKeyframesDefinition
      rw [hfind]
    · unfold StyleSheet.isKeyframesDefined
      rw [hfind]
  · unfold StyleSheet.isKeyframesDefined StyleSheet.getKeyframesDefinition
    cases keyframesFind sheet.mKeyframesMap n <;> simp
  · unfold StyleSheet.isKeyframesDefined
    cases keyframesFind sheet.mKeyframesMap n <;> simp
  · intro h
    unfold StyleSheet.getKeyframesDefinition
    rw [h]
  · intro node
    unfold StyleSheet.isKeyframesDefined StyleSheet.getKeyframesDefinition
    rw [addStyle_mKeyframesMap]
    exact ⟨rfl, rfl⟩
  · intro hr
    have h := keyframesFind_none_of_forall sheet.mKeyframesMap "none"
      (keyframes_not_none_of_reachable sheet hr)
    unfold StyleSheet.isKeyframesDefined StyleSheet.getKeyframesDefinition
    rw [h]
    exact ⟨rfl, rfl⟩

/-- C23, on the stylesheet `sheetMedia`, which holds `fade`, after `addKeyframes` of another
`fade`, of `spin` and of a definition named `none`. -/
theorem getKeyframesDefinition_lookup_witness :
    (∀ k, lastAdded [keyframesFadeGreen, keyframesSpin, keyframesNone] "fade" = some k →
        ([keyframesFadeGreen, keyframesSpin, keyframesNone].foldl StyleSheet.addKeyframes
            sheetMedia).getKeyframesDefinition "fade" = k
          ∧ ([keyframesFadeGreen, keyframesSpin, keyframesNone].foldl StyleSheet.addKeyframes
            sheetMedia).isKeyframesDefined "fade" = true
          ∧ k ∈ [keyframesFadeGreen, keyframesSpin, keyframesNone] ∧ k.name = "fade"
          ∧ "fade" ≠ "none")
      ∧ sheetMedia.getKeyframesDefinition "fade" = keyframesFade
      ∧ lastAdded [keyframesFadeGreen, keyframesSpin, keyframesNone] "fade"
        = some keyframesFadeGreen
      ∧ ([keyframesFadeGreen, keyframesSpin, keyframesNone].foldl StyleSheet.addKeyframes
          sheetMedia).getKeyframesDefinition "fade" = keyframesFadeGreen
      ∧ ([keyframesFadeGreen, keyframesSpin, keyframesNone].foldl StyleSheet.addKeyframes
          sheetMedia).getKeyframesDefinition "none" = KeyframesDefinition.EMPTY
      ∧ ([keyframesFadeGreen, keyframesSpin, keyframesNone].foldl StyleSheet.addKeyframes
          sheetMedia).isKeyframesDefined "none" = false
      ∧ sheetMedia.getKeyframesDefinition "spin" = KeyframesDefinition.EMPTY
      ∧ sheetMedia.isKeyframesDefined "spin" = false :=
  ⟨(getKeyframesDefinition_lookup sheetMedia [keyframesFadeGreen, keyframesSpin, keyframesNone]
      "fade").1,
    by decide, by decide, by decide, by decide, by decide, by decide, by decide⟩

/-! ## The cascade: the three passes -/

/-- C24. Pass order as tie-break, for the style `s` of widget `x` and a property name `p`.
The resolved map is what the properties of the matching rules build from the empty map when
they go through the loop body of `tryApplyStyle` in the order inline style, cacheable rules in
list order, non-cacheable rules in list order. A property that goes through the loop body
replaces the entry of its name when there is none or when its specificity is greater than or
equal to the entry's, and changes nothing when its specificity is lower. Hence a matching
cacheable rule's declaration of `p` is the resolved one when the inline declaration and the
cacheable rules before it are not more specific and the rules after it are less specific; a
matching non-cacheable rule's declaration is the resolved one when the inline declaration, the
cacheable rules and the non-cacheable rules before it are not more specific and the
non-cacheable rules after it are less specific; and no matching declaration of `p` is more
specific than the resolved one. -/
theorem resolve_pass_order (sc : Scene) (x : WidgetId) (s : UIStyle) (p : String) :
    ((UIStyle.resolve sc x s).mProperties
        = ((appliedProperties sc x [s.mElementStyle] ++ appliedProperties sc x s.mCacheableStyles
              ++ appliedProperties sc x s.mNoncacheableStyles).foldl UIStyle.applyProperty
            s.beginStateChange).mProperties
      ∧ s.beginStateChange.mProperties = [])
      ∧ (∀ (t : UIStyle) (d : StyleSheetProperty),
          (mapFind t.mProperties d.name = none →
            mapFind (t.applyProperty d).mProperties d.name = some d)
          ∧ (∀ it, mapFind t.mProperties d.name = some it →
              (it.specificity ≤ d.specificity →
                mapFind (t.applyProperty d).mProperties d.name = some d)
              ∧ (d.specificity < it.specificity → t.applyProperty d = t)))
      ∧ (∀ cpre R cpost d, s.mCacheableStyles = cpre ++ R :: cpost →
          sc.select R.selector x sc.selectDefault = true → d ∈ R.properties → d.name = p →
          (∀ e ∈ R.properties, e.name = p → e = d) →
          (sc.select s.mElementStyle.selector x sc.selectDefault = true →
            ∀ e ∈ s.mElementStyle.properties, e.name = p → e.specificity ≤ d.specificity) →
          (∀ R1 ∈ cpre, sc.select R1.selector x sc.selectDefault = true →
            ∀ e ∈ R1.properties, e.name = p → e.specificity ≤ d.specificity) →
          (∀ R2 ∈ cpost ++ s.mNoncacheableStyles, sc.select R2.selector x sc.selectDefault = true →
            ∀ e ∈ R2.properties, e.name = p → e.specificity < d.specificity) →
          mapFind (UIStyle.resolve sc x s).mProperties p = some d)
      ∧ (∀ npre R npost d, s.mNoncacheableStyles = npre ++ R :: npost →
          sc.select R.selector x sc.selectDefault = true → d ∈ R.properties → d.name = p →
          (∀ e ∈ R.properties, e.name = p → e = d) →
          (sc.select s.mElementStyle.selector x sc.selectDefault = true →
            ∀ e ∈ s.mElementStyle.properties, e.name = p → e.specificity ≤ d.specificity) →
          (∀ R1 ∈ s.mCacheableStyles ++ npre, sc.select R1.selector x sc.selectDefault = true →
            ∀ e ∈ R1.properties, e.name = p → e.specificity ≤ d.specificity) →
          (∀ R2 ∈ npost, sc.select R2.selector x sc.selectDefault = true →
            ∀ e ∈ R2.properties, e.name = p → e.specificity < d.specificity) →
          mapFind (UIStyle.resolve sc x s).mProperties p = some d)
      ∧ (∀ d, mapFind (UIStyle.resolve sc x s).mProperties p = some d →
          ∀ R2 ∈ s.rules, sc.select R2.selector x sc.selectDefault = true →
            ∀ d2 ∈ R2.properties, d2.name = p → d2.specificity ≤ d.specificity) := by
  refine ⟨⟨?_, rfl⟩, ?_, ?_, ?_, ?_⟩
  · rw [resolve_mProperties, UIStyle.rules]
    have e : s.mElementStyle :: (s.mCacheableStyles ++ s.mNoncacheableStyles)
        = [s.mElementStyle] ++ (s.mCacheableStyles ++ s.mNoncacheableStyles) := rfl
    rw [e, appliedProperties_append, appliedProperties_append, List.append_assoc]
  · intro t d
    refine ⟨?_, ?_⟩
    · intro h
      rw [mapFind_applyProperty, if_pos rfl, h]
    · intro it h
      refine ⟨?_, ?_⟩
      · intro hle
        rw [mapFind_applyProperty, if_pos rfl, h]
        simp [hle]
      · intro hlt
        unfold UIStyle.applyProperty
        simp only [h]
        rw [if_neg (by omega)]
  · intro cpre R cpost d hc hm hd hn hu hin hpre hpost
    apply resolve_find_last sc x s p (s.mElementStyle :: cpre) (cpost ++ s.mNoncacheableStyles)
      R d ?_ hm hd hn hu ?_ hpost
    · rw [UIStyle.rules, hc]
      simp
    · intro R1 hR1 hm1 e he hne
      rcases List.mem_cons.mp hR1 with h | h
      · subst h
        exact hin hm1 e he hne
      · exact hpre R1 h hm1 e he hne
  · intro npre R npost d hc hm hd hn hu hin hpre hpost
    apply resolve_find_last sc x s p (s.mElementStyle :: (s.mCacheableStyles ++ npre)) npost
      R d ?_ hm hd hn hu ?_ hpost
    · rw [UIStyle.rules, hc]
      simp
    · intro R1 hR1 hm1 e he hne
      rcases List.mem_cons.mp hR1 with h | h
      · subst h
        exact hin hm1 e he hne
      · exact hpre R1 h hm1 e he hne
  · intro d h
    exact (resolve_find_max sc x s p d h).2.2

/-- C24, on a style whose inline declaration, cacheable rule and non-cacheable rule declare
`color` with the same specificity: the cacheable rule replaces the inline value, the
non-cacheable rule replaces both, and a later rule of lower specificity replaces nothing. -/
theorem resolve_pass_order_witness :
    mapFind (UIStyle.resolve sceneAll 0 (styleTie [])).mProperties "color" = some colorGreen
      ∧ mapFind (UIStyle.resolve sceneAll 0 (styleTie [ruleSiblingBlue])).mProperties "color"
        = some { name := "color", value := "blue", specificity := 100 }
      ∧ mapFind (UIStyle.resolve sceneAll 0 (styleTie [ruleTypeGray])).mProperties "color"
        = some colorGreen
      ∧ mapFind (UIStyle.resolve sceneAll 0
          (styleTie [ruleSiblingBlue, ruleTypeGray])).mProperties "color"
        = some { name := "color", value := "blue", specificity := 100 }
      ∧ (UIStyle.resolve sceneAll 0 (styleTie [])).mProperties = [colorGreen] :=
  ⟨(resolve_pass_order sceneAll 0 (styleTie []) "color").2.2.1 [] ruleAGreen [] colorGreen
      rfl rfl (by decide) rfl (by decide) (fun _ => by decide) (by decide) (by decide),
    (resolve_pass_order sceneAll 0 (styleTie [ruleSiblingBlue]) "color").2.2.2.1 []
      ruleSiblingBlue [] { name := "color", value := "blue", specificity := 100 }
      rfl rfl (by decide) rfl (by decide) (fun _ => by decide) (by decide) (by decide),
    by decide, by decide, by decide⟩

/-! ## The resolved map holds declarations of matching rules -/

theorem mem_applyProperty (t : UIStyle) (p d : StyleSheetProperty)
    (h : d ∈ (t.applyProperty p).mProperties) : d = p ∨ d ∈ t.mProperties := by
  unfold UIStyle.applyProperty at h
  simp only at h
  cases hf : mapFind t.mProperties p.name with
  | none =>
    rw [hf] at h
    exact mem_mapAssign _ _ _ h
  | some it =>
    rw [hf] at h
    by_cases hge : p.specificity ≥ it.specificity
    · simp only [hge, if_true] at h
      exact mem_mapAssign _ _ _ h
    · simp only [hge, if_false] at h
      exact Or.inr h

theorem mem_foldl_applyProperty (seq : List StyleSheetProperty) (t : UIStyle)
    (d : StyleSheetProperty) (h : d ∈ (seq.foldl UIStyle.applyProperty t).mProperties) :
    d ∈ seq ∨ d ∈ t.mProperties := by
  induction seq generalizing t with
  | nil => exact Or.inr h
  | cons q rest ih =>
    rw [List.foldl_cons] at h
    rcases ih _ h with h1 | h1
    · exact Or.inl (List.mem_cons_of_mem _ h1)
    · rcases mem_applyProperty t q d h1 with h2 | h2
      · exact Or.inl (h2 ▸ List.mem_cons_self _ _)
      · exact Or.inr h2

/-- Every property of the resolved map is a property of a rule of the style that selects the
widget. -/
theorem resolve_mem (sc : Scene) (x : WidgetId) (s : UIStyle) (d : StyleSheetProperty)
    (h : d ∈ (UIStyle.resolve sc x s).mProperties) :
    ∃ R ∈ s.rules, sc.select R.selector x sc.selectDefault = true ∧ d ∈ R.properties := by
  rw [resolve_mProperties] at h
  rcases mem_foldl_applyProperty _ _ d h with h1 | h1
  · exact (mem_appliedProperties sc x s.rules d).mp h1
  · cases h1

/-- C25, as the code has it. The rule `.a {padding: 4 8 12 16}` on widget `0`: after
`onStateChange` the resolved map holds the property `padding` itself and no longhand, and
`padding` is what is passed to `setAttribute`. With the more specific rule
`#x.a {padding-left: 1}` next to it, the map holds both `padding` and `padding-left`. -/
theorem shorthand_rule_counterexample :
    (styleAfterStateChange sceneAll 1 0 (worldOf [rulePadding] [])).map (fun s => s.mProperties)
        = some [paddingShorthand]
      ∧ paddingShorthand.name = "padding"
      ∧ callsAfterStateChange sceneAll 1 0 (worldOf [rulePadding] [])
        = some [WidgetCall.beginAttributesTransaction 0,
            WidgetCall.setAttribute 0 "padding" "4 8 12 16" false 0,
            WidgetCall.endAttributesTransaction 0]
      ∧ (styleAfterStateChange sceneAll 1 0 (worldOf [rulePaddingLeft, rulePadding] [])).map
          (fun s => s.mProperties)
        = some [paddingShorthand,
            { name := "padding-left", value := "1", specificity := 10100 }] := by
  decide

/-- C25, amended. The cascade stores the properties of the rules as they are. Every property of
the resolved map is a property of a rule of the style that selects the widget; when such a rule
declares a property named `padding` or `margin`, the resolved map holds a property of that very
name, not less specific than the declared one; under a name that no matching rule declares,
a longhand name included, the map holds nothing; and whenever `onStateChange` returns, the
property map of the style is the resolved map. Only `setStyleSheetProperty` expands a
shorthand: it stores nothing under `padding` or `margin`. -/
theorem resolve_keeps_shorthands (sc : Scene) (x : WidgetId) (s : UIStyle) :
    (∀ d ∈ (UIStyle.resolve sc x s).mProperties,
        ∃ R ∈ s.rules, sc.select R.selector x sc.selectDefault = true ∧ d ∈ R.properties)
      ∧ (∀ R ∈ s.rules, sc.select R.selector x sc.selectDefault = true →
          ∀ d ∈ R.properties, d.name = "padding" ∨ d.name = "margin" →
            ∃ d1, mapFind (UIStyle.resolve sc x s).mProperties d.name = some d1
              ∧ d1 ∈ (UIStyle.resolve sc x s).mProperties ∧ d1.name = d.name
              ∧ d.specificity ≤ d1.specificity)
      ∧ (∀ n, (∀ R ∈ s.rules, sc.select R.selector x sc.selectDefault = true →
            ∀ d ∈ R.properties, d.name ≠ n) →
          mapFind (UIStyle.resolve sc x s).mProperties n = none)
      ∧ (∀ depth w self1, w.styles x = some s →
          styleAfterStateChange sc depth x w = some self1 →
          self1.mProperties = (UIStyle.resolve sc x s).mProperties)
      ∧ (∀ (parser : NodeAttributeParser) (attr : StyleSheetProperty),
          attr.name = "padding" ∨ attr.name = "margin" →
          mapFind (UIStyle.setStyleSheetProperty parser s attr).mElementStyle.properties
              attr.name
            = mapFind s.mElementStyle.properties attr.name) := by
  refine ⟨fun d hd => resolve_mem sc x s d hd, ?_, ?_, ?_, ?_⟩
  · intro R hR hm d hd _
    obtain ⟨d1, h1⟩ := resolve_find_some sc x s d.name R d hR hm hd rfl
    obtain ⟨_, hn, hmax⟩ := resolve_find_max sc x s d.name d1 h1
    exact ⟨d1, h1, (mapFind_some _ _ _ h1).2, hn, hmax R hR hm d hd rfl⟩
  · intro n hnone
    cases h : mapFind (UIStyle.resolve sc x s).mProperties n with
    | none => rfl
    | some d =>
      obtain ⟨⟨R, hR, hm, hd⟩, hn, _⟩ := resolve_find_max sc x s n d h
      exact absurd hn (hnone R hR hm d hd)
  · intro depth w self1 hs h
    exact styleAfterStateChange_mProperties sc depth x w s self1 hs h
  · intro parser attr h
    unfold UIStyle.setStyleSheetProperty
    rcases h with h | h
    · rw [if_pos h]
      simp only [mapFind_setProperty]
      rw [h]
      simp
    · have hp : attr.name ≠ "padding" := by rw [h]; decide
      rw [if_neg hp, if_pos h]
      simp only [mapFind_setProperty]
      rw [h]
      simp

/-! ## `updateState`: the previous state -/

/-- The loop of `updateState` leaves the style as it is or makes one flag of the list, other
than the current state, the current state and the former current state the previous state. -/
theorem updateStateLoop_cases (flags : StateFlags) (self : UIStyle) (L : List Nat) :
    self.updateStateLoop flags L = self
      ∨ ∃ i ∈ L, self.mCurrentState ≠ flags.getStateFlag i
          ∧ self.mState &&& flags.getStateFlag i = flags.getStateFlag i
          ∧ self.updateStateLoop flags L
            = { self with
                mPreviousState := self.mCurrentState
                mCurrentState := flags.getStateFlag i } := by
  induction L with
  | nil => exact Or.inl rfl
  | cons i rest ih =>
    rw [UIStyle.updateStateLoop]
    have hrest : self.updateStateLoop flags rest = self
        ∨ ∃ j ∈ i :: rest, self.mCurrentState ≠ flags.getStateFlag j
            ∧ self.mState &&& flags.getStateFlag j = flags.getStateFlag j
            ∧ self.updateStateLoop flags rest
              = { self with
                  mPreviousState := self.mCurrentState
                  mCurrentState := flags.getStateFlag j } := by
      rcases ih with h | ⟨j, hj, h⟩
      · exact Or.inl h
      · exact Or.inr ⟨j, List.mem_cons_of_mem _ hj, h⟩
    by_cases h1 : self.mState &&& flags.getStateFlag i = flags.getStateFlag i
    · rw [if_pos h1]
      simp only [UIStyle.stateExists, if_true]
      by_cases h2 : self.mCurrentState ≠ flags.getStateFlag i
      · rw [if_pos h2]
        exact Or.inr ⟨i, List.mem_cons_self _ _, h2, h1, rfl⟩
      · rw [if_neg h2]
        exact hrest
    · rw [if_neg h1]
      exact hrest

theorem updateStateLoop_mRelatedWidgets (flags : StateFlags) (self : UIStyle) (L : List Nat) :
    (self.updateStateLoop flags L).mRelatedWidgets = self.mRelatedWidgets := by
  rcases updateStateLoop_cases flags self L with h | ⟨i, _, _, _, h⟩ <;> rw [h]

/-- C26. The bookkeeping of the previous state, for the style `self` of `widget`. The loop of
`updateState` leaves the state bitmask as it is; when it changes the current state, the
previous state is the current state held before; when it does not, the previous state stays.
Whenever `updateState` returns, the style of the widget has the state the loop computed, since
`onStateChange` writes none of the three; and with related widgets that form no cycle the call
returns. -/
theorem updateState_previous_state (sc : Scene) (flags : StateFlags) (widget : WidgetId)
    (w : World) (self : UIStyle) (hself : w.styles widget = some self) :
    (self.updateStateLoop flags (UIStyle.stateIndices flags)).mState = self.mState
      ∧ ((self.updateStateLoop flags (UIStyle.stateIndices flags)).mCurrentState
            ≠ self.mCurrentState →
          (self.updateStateLoop flags (UIStyle.stateIndices flags)).mPreviousState
            = self.mCurrentState)
      ∧ ((self.updateStateLoop flags (UIStyle.stateIndices flags)).mCurrentState
            = self.mCurrentState →
          (self.updateStateLoop flags (UIStyle.stateIndices flags)).mPreviousState
            = self.mPreviousState)
      ∧ (∀ depth w1, updateState sc flags depth widget w = some w1 →
          ∃ s1, w1.styles widget = some s1
            ∧ s1.toUIState
              = (self.updateStateLoop flags (UIStyle.stateIndices flags)).toUIState)
      ∧ (∀ rank : WidgetId → Nat,
          (∀ y s, w.styles y = some s → ∀ r ∈ s.mRelatedWidgets, rank r < rank y) →
            ∃ w1, updateState sc flags (rank widget + 1) widget w = some w1) := by
  refine ⟨?_, ?_, ?_, ?_, ?_⟩
  · rcases updateStateLoop_cases flags self (UIStyle.stateIndices flags) with h | ⟨i, _, _, _, h⟩
      <;> rw [h]
  · intro hne
    rcases updateStateLoop_cases flags self (UIStyle.stateIndices flags) with h | ⟨i, _, _, _, h⟩
    · rw [h] at hne
      exact absurd rfl hne
    · rw [h]
  · intro heq
    rcases updateStateLoop_cases flags self (UIStyle.stateIndices flags) with h | ⟨i, _, h1, _, h⟩
    · rw [h]
    · rw [h] at heq
      exact absurd heq.symm h1
  · intro depth w1 h
    unfold updateState at h
    have hs : (w.modify widget
        (fun s => s.updateStateLoop flags (UIStyle.stateIndices flags))).styles widget
        = some (self.updateStateLoop flags (UIStyle.stateIndices flags)) := by
      simp [World.modify, hself]
    obtain ⟨p, _⟩ := onStateChange_pass sc depth widget _ w1 h
    obtain ⟨s1, h1, hu⟩ := pass_unresolved sc _ w1 p widget _ hs
    have e := congrArg (fun s : UIStyle => s.toUIState) hu
    exact ⟨s1, h1, e⟩
  · intro rank hrank
    unfold updateState
    apply onStateChange_returns sc rank (rank widget + 1) widget _ ?_ (Nat.lt_succ_self _)
    intro y s hs r hr
    by_cases hy : y = widget
    · subst hy
      simp only [World.modify, if_true, hself, Option.map_some', Option.some.injEq] at hs
      rw [← hs, updateStateLoop_mRelatedWidgets] at hr
      exact hrank y self hself r hr
    · simp only [World.modify, if_neg hy] at hs
      exact hrank y s hs r hr

/-- C26, on a style with the flags `1` and `8` set, current state `8` and previous state `1`:
the call returns, the current state changes to `1` and the previous state is `8`; on a style
with the flag `8` only, nothing changes. -/
theorem updateState_previous_state_witness :
    ((styleHover.updateStateLoop flagsPow (UIStyle.stateIndices flagsPow)).mState
        = styleHover.mState
      ∧ ((styleHover.updateStateLoop flagsPow (UIStyle.stateIndices flagsPow)).mCurrentState
            ≠ styleHover.mCurrentState →
          (styleHover.updateStateLoop flagsPow (UIStyle.stateIndices flagsPow)).mPreviousState
            = styleHover.mCurrentState)
      ∧ ((styleHover.updateStateLoop flagsPow (UIStyle.stateIndices flagsPow)).mCurrentState
            = styleHover.mCurrentState →
          (styleHover.updateStateLoop flagsPow (UIStyle.stateIndices flagsPow)).mPreviousState
            = styleHover.mPreviousState)
      ∧ (∀ depth w1, updateState sceneAll flagsPow depth 0 worldHover = some w1 →
          ∃ s1, w1.styles 0 = some s1
            ∧ s1.toUIState
              = (styleHover.updateStateLoop flagsPow (UIStyle.stateIndices flagsPow)).toUIState)
      ∧ (∀ rank : WidgetId → Nat,
          (∀ y s, worldHover.styles y = some s → ∀ r ∈ s.mRelatedWidgets, rank r < rank y) →
            ∃ w1, updateState sceneAll flagsPow (rank 0 + 1) 0 worldHover = some w1))
      ∧ stateAfterUpdateState sceneAll flagsPow 1 0 worldHover
        = some { mState := 9, mCurrentState := 1, mPreviousState := 8 }
      ∧ stateAfterUpdateState sceneAll flagsPow 1 0
          (World.empty.setStyle 0 { mState := 8, mCurrentState := 8, mPreviousState := 1 })
        = some { mState := 8, mCurrentState := 8, mPreviousState := 1 }
      ∧ stateAfterUpdateState sceneAll flagsPow 1 0
          (World.empty.setStyle 0 { mState := 9, mCurrentState := 1, mPreviousState := 0 })
        = some { mState := 9, mCurrentState := 8, mPreviousState := 1 } :=
  ⟨updateState_previous_state sceneAll flagsPow 0 worldHover styleHover rfl,
    by decide, by decide, by decide⟩

/-! ## The attribute transaction -/

/-- The loop of `onStateChange` over related widgets of a set that is closed under the related
widgets: the styles outside the set are left as they are, and every call made is made on a
widget of the set. -/
theorem relatedLoop_outside (sc : Scene) (S : WidgetId → Prop) (depth : Nat) :
    ∀ (L : List WidgetId) (wa wb : World), (∀ r ∈ L, S r) →
      (∀ y s, S y → wa.styles y = some s → ∀ r ∈ s.mRelatedWidgets, S r) →
      L.foldlM (fun w2 related => onStateChange sc depth related w2) wa = some wb →
        (∀ a, ¬ S a → wb.styles a = wa.styles a)
          ∧ ∃ rest, wb.calls = wa.calls ++ rest ∧ ∀ c ∈ rest, S c.widget := by
  intro L
  induction L with
  | nil =>
    intro wa wb _ _ hab
    simp only [List.foldlM_nil, Option.pure_def, Option.some.injEq] at hab
    subst hab
    exact ⟨fun _ _ => rfl, [], by simp, fun c hc => (by cases hc)⟩
  | cons r rest ihL =>
    intro wa wb hL hca hab
    rw [List.foldlM_cons] at hab
    cases hr : onStateChange sc depth r wa with
    | none => rw [hr] at hab; simp at hab
    | some wr =>
      rw [hr] at hab
      simp only [Option.bind_eq_bind, Option.some_bind] at hab
      obtain ⟨f1, r1, e1, c1⟩ :=
        onStateChange_outside sc S depth r wa wr (hL r (List.mem_cons_self _ _)) hca hr
      have hcr := closed_of_pass sc S wa wr (onStateChange_pass sc depth r wa wr hr).1 hca
      obtain ⟨f2, r2, e2, c2⟩ :=
        ihL wr wb (fun q hq => hL q (List.mem_cons_of_mem _ hq)) hcr hab
      refine ⟨fun a ha => (f2 a ha).trans (f1 a ha), r1 ++ r2, ?_, ?_⟩
      · rw [e2, e1, List.append_assoc]
      · intro c hcm
        rcases List.mem_append.mp hcm with hcm | hcm
        · exact c1 c hcm
        · exact c2 c hcm

/-! ## No leftovers between resolutions -/

theorem applyProperty_congr (t1 t2 : UIStyle) (d : StyleSheetProperty)
    (hp : t1.mProperties = t2.mProperties)
    (ht : t1.mTransitionAttributes = t2.mTransitionAttributes) :
    (t1.applyProperty d).mProperties = (t2.applyProperty d).mProperties
      ∧ (t1.applyProperty d).mTransitionAttributes
        = (t2.applyProperty d).mTransitionAttributes := by
  unfold UIStyle.applyProperty
  simp only
  rw [hp, ht]
  cases mapFind t2.mProperties d.name with
  | none => exact ⟨rfl, rfl⟩
  | some it =>
    by_cases hge : d.specificity ≥ it.specificity
    · simp only [hge, if_true]
      exact ⟨trivial, trivial⟩
    · simp only [hge, if_false]
      exact ⟨hp, ht⟩

theorem foldl_applyProperty_congr (seq : List StyleSheetProperty) (t1 t2 : UIStyle)
    (hp : t1.mProperties = t2.mProperties)
    (ht : t1.mTransitionAttributes = t2.mTransitionAttributes) :
    (seq.foldl UIStyle.applyProperty t1).mProperties
        = (seq.foldl UIStyle.applyProperty t2).mProperties
      ∧ (seq.foldl UIStyle.applyProperty t1).mTransitionAttributes
        = (seq.foldl UIStyle.applyProperty t2).mTransitionAttributes := by
  induction seq generalizing t1 t2 with
  | nil => exact ⟨hp, ht⟩
  | cons d rest ih =>
    rw [List.foldl_cons, List.foldl_cons]
    obtain ⟨h1, h2⟩ := applyProperty_congr t1 t2 d hp ht
    exact ih _ _ h1 h2

theorem appliedProperties_congr (sc1 sc2 : Scene) (x1 x2 : WidgetId)
    (rules : List StyleSheetStyle)
    (h : ∀ R ∈ rules, sc1.select R.selector x1 sc1.selectDefault
      = sc2.select R.selector x2 sc2.selectDefault) :
    appliedProperties sc1 x1 rules = appliedProperties sc2 x2 rules := by
  unfold appliedProperties
  rw [List.filter_congr h]

theorem mem_transitions_applyProperty (t : UIStyle) (p d : StyleSheetProperty)
    (h : d ∈ (t.applyProperty p).mTransitionAttributes) :
    d = p ∨ d ∈ t.mTransitionAttributes := by
  unfold UIStyle.applyProperty at h
  simp only at h
  have hstored : d ∈ (if startsWith p.name "transition" = true then
      t.mTransitionAttributes ++ [p] else t.mTransitionAttributes) →
      d = p ∨ d ∈ t.mTransitionAttributes := by
    intro hm
    by_cases hs : startsWith p.name "transition" = true
    · rw [if_pos hs] at hm
      rcases List.mem_append.mp hm with hm | hm
      · exact Or.inr hm
      · exact Or.inl (List.mem_singleton.mp hm)
    · rw [if_neg hs] at hm
      exact Or.inr hm
  cases hf : mapFind t.mProperties p.name with
  | none =>
    rw [hf] at h
    exact hstored h
  | some it =>
    rw [hf] at h
    by_cases hge : p.specificity ≥ it.specificity
    · simp only [hge, if_true] at h
      exact hstored h
    · simp only [hge, if_false] at h
      exact Or.inr h

theorem mem_transitions_foldl (seq : List StyleSheetProperty) (t : UIStyle)
    (d : StyleSheetProperty)
    (h : d ∈ (seq.foldl UIStyle.applyProperty t).mTransitionAttributes) :
    d ∈ seq ∨ d ∈ t.mTransitionAttributes := by
  induction seq generalizing t with
  | nil => exact Or.inr h
  | cons q rest ih =>
    rw [List.foldl_cons] at h
    rcases ih _ h with h1 | h1
    · exact Or.inl (List.mem_cons_of_mem _ h1)
    · rcases mem_transitions_applyProperty t q d h1 with h2 | h2
      · exact Or.inl (h2 ▸ List.mem_cons_self _ _)
      · exact Or.inr h2

theorem resolve_mTransitionAttributes (sc : Scene) (widget : WidgetId) (self : UIStyle) :
    (UIStyle.resolve sc widget self).mTransitionAttributes
      = ((appliedProperties sc widget self.rules).foldl UIStyle.applyProperty
          self.beginStateChange).mTransitionAttributes := by
  rw [resolve_eq]

/-- C28. No leftovers between resolutions. Two styles with the same inline style, the same
cacheable rules and the same non-cacheable rules, resolved at moments at which the selectors of
these rules give the same answers for their widgets: the resolved property maps are the same
and so are the collected transition attributes, whatever else the styles hold, the property map
and the transition attributes left by an earlier resolution included. Every property of the
resolved map, and every collected transition attribute, is a property of a rule that selects
the widget. Whenever `onStateChange` returns, the style holds this map and these attributes. -/
theorem resolve_no_leftovers (sc1 sc2 : Scene) (x1 x2 : WidgetId) (s1 s2 : UIStyle)
    (hE : s1.mElementStyle = s2.mElementStyle)
    (hC : s1.mCacheableStyles = s2.mCacheableStyles)
    (hN : s1.mNoncacheableStyles = s2.mNoncacheableStyles)
    (hsel : ∀ R ∈ s1.rules, sc1.select R.selector x1 sc1.selectDefault
      = sc2.select R.selector x2 sc2.selectDefault) :
    (UIStyle.resolve sc1 x1 s1).mProperties = (UIStyle.resolve sc2 x2 s2).mProperties
      ∧ (UIStyle.resolve sc1 x1 s1).mTransitionAttributes
        = (UIStyle.resolve sc2 x2 s2).mTransitionAttributes
      ∧ (∀ d ∈ (UIStyle.resolve sc1 x1 s1).mProperties,
          ∃ R ∈ s1.rules, sc1.select R.selector x1 sc1.selectDefault = true ∧ d ∈ R.properties)
      ∧ (∀ d ∈ (UIStyle.resolve sc1 x1 s1).mTransitionAttributes,
          ∃ R ∈ s1.rules, sc1.select R.selector x1 sc1.selectDefault = true ∧ d ∈ R.properties)
      ∧ (∀ depth w self1, w.styles x1 = some s1 →
          styleAfterStateChange sc1 depth x1 w = some self1 →
          self1.mProperties = (UIStyle.resolve sc1 x1 s1).mProperties
            ∧ self1.mTransitionAttributes
              = (UIStyle.resolve sc1 x1 s1).mTransitionAttributes) := by
  have hrules : s1.rules = s2.rules := by
    unfold UIStyle.rules
    rw [hE, hC, hN]
  have happ : appliedProperties sc1 x1 s1.rules = appliedProperties sc2 x2 s2.rules := by
    rw [← hrules]
    exact appliedProperties_congr sc1 sc2 x1 x2 s1.rules hsel
  obtain ⟨c1, c2⟩ := foldl_applyProperty_congr (appliedProperties sc2 x2 s2.rules)
    s1.beginStateChange s2.beginStateChange rfl rfl
  refine ⟨?_, ?_, fun d hd => resolve_mem sc1 x1 s1 d hd, ?_, ?_⟩
  · rw [resolve_mProperties, resolve_mProperties, happ]
    exact c1
  · rw [resolve_mTransitionAttributes, resolve_mTransitionAttributes, happ]
    exact c2
  · intro d hd
    rw [resolve_mTransitionAttributes] at hd
    rcases mem_transitions_foldl _ _ d hd with h1 | h1
    · exact (mem_appliedProperties sc1 x1 s1.rules d).mp h1
    · cases h1
  · intro depth w self1 hs h
    have e := styleAfterStateChange_resolution sc1 depth x1 w s1 self1 hs h
    have e1 := congrArg (fun t => t.1) e
    have e2 := congrArg (fun t => t.2.1) e
    exact ⟨e1, e2⟩

/-- C28, on the style with the rule `.a {transition: all 1s; color: red}` and on the same style
with a property map and transition attributes left by an earlier resolution. -/
theorem resolve_no_leftovers_witness :
    ((UIStyle.resolve sceneAll 0 { mCacheableStyles := [ruleTransition] }).mProperties
        = (UIStyle.resolve sceneAll 0
            { mCacheableStyles := [ruleTransition], mProperties := [colorBlue, widthInline],
              mTransitionAttributes := [colorGreen], mState := 9 }).mProperties
      ∧ (UIStyle.resolve sceneAll 0 { mCacheableStyles := [ruleTransition] }).mTransitionAttributes
        = (UIStyle.resolve sceneAll 0
            { mCacheableStyles := [ruleTransition], mProperties := [colorBlue, widthInline],
              mTransitionAttributes := [colorGreen], mState := 9 }).mTransitionAttributes)
      ∧ (UIStyle.resolve sceneAll 0
            { mCacheableStyles := [ruleTransition], mProperties := [colorBlue, widthInline],
              mTransitionAttributes := [colorGreen], mState := 9 }).mProperties
        = [{ name := "color", value := "red", specificity := 100 },
            { name := "transition", value := "all 1s", specificity := 100 }]
      ∧ (UIStyle.resolve sceneAll 0
            { mCacheableStyles := [ruleTransition], mProperties := [colorBlue, widthInline],
              mTransitionAttributes := [colorGreen], mState := 9 }).mTransitionAttributes
        = [{ name := "transition", value := "all 1s", specificity := 100 }] :=
  have h := resolve_no_leftovers sceneAll sceneAll 0 0 { mCacheableStyles := [ruleTransition] }
    { mCacheableStyles := [ruleTransition], mProperties := [colorBlue, widthInline],
      mTransitionAttributes := [colorGreen], mState := 9 } rfl rfl rfl (fun _ _ => rfl)
  ⟨⟨h.1, h.2.1⟩, by decide, by decide⟩

/-! ## `load` and the inline style -/

/-- The stateless lookup of a style whose inline style has no properties is the lookup in its
cacheable rules. -/
theorem getStatelessStyleSheetProperty_of_nil (s : UIStyle) (n : String)
    (h : s.mElementStyle.properties = []) :
    s.getStatelessStyleSheetProperty n = StyleSheetProperty.empty
      ∨ ∃ st ∈ s.mCacheableStyles, st.selector.pseudoClasses = false
          ∧ s.getStatelessStyleSheetProperty n ∈ st.properties
          ∧ (s.getStatelessStyleSheetProperty n).name = n := by
  unfold UIStyle.getStatelessStyleSheetProperty
  by_cases hn : n = ""
  · left
    simp [hn]
  · rw [if_pos hn]
    have hf : mapFind s.mElementStyle.properties n = none := by
      rw [h]
      rfl
    have he := (getPropertyByName_undeclared s.mElementStyle n hf).2
    simp only [he, Bool.not_true, Bool.and_false, Bool.false_eq_true, if_false]
    cases hl : UIStyle.statelessLoop n s.mCacheableStyles with
    | none => exact Or.inl rfl
    | some p =>
      obtain ⟨st, hst, h1, h2, h3⟩ := statelessLoop_some n _ p hl
      exact Or.inr ⟨st, hst, h1, h2, h3⟩

/-- C29. The function `load` discards the inline style. After `load` of the style `self` of
`a`, whatever the element style held, it holds no property and keeps its selector. So each
property of a map that `onStateChange` resolves afterwards, in any scene, is a property of a
rule that `load` took from the stylesheet and that selects the widget, and
`getStatelessStyleSheetProperty` gives the empty property or a property of a cacheable rule
taken from the stylesheet. -/
theorem load_discards_inline_style (sc : Scene) (a : WidgetId) (w : World) (self : UIStyle)
    (hs : w.styles a = some self) :
    ∃ s1, (load sc a w).styles a = some s1
      ∧ s1.mElementStyle.properties = []
      ∧ s1.mElementStyle.selector = self.mElementStyle.selector
      ∧ (∀ n, mapFind s1.mElementStyle.properties n = none)
      ∧ (∀ (sc2 : Scene) d, d ∈ (UIStyle.resolve sc2 a s1).mProperties →
          ∃ R ∈ matchedStyles sc a,
            sc2.select R.selector a sc2.selectDefault = true ∧ d ∈ R.properties)
      ∧ (∀ (sc2 : Scene) depth self2,
          styleAfterStateChange sc2 depth a (load sc a w) = some self2 →
          ∀ d ∈ self2.mProperties, ∃ R ∈ matchedStyles sc a,
            sc2.select R.selector a sc2.selectDefault = true ∧ d ∈ R.properties)
      ∧ (∀ n, s1.getStatelessStyleSheetProperty n = StyleSheetProperty.empty
          ∨ ∃ st ∈ matchedStyles sc a, st.selector.cacheable = true
              ∧ st.selector.pseudoClasses = false
              ∧ s1.getStatelessStyleSheetProperty n ∈ st.properties) := by
  obtain ⟨s1, h1, hc, hn, _, he, _⟩ := load_style sc a w self hs
  have hprops : s1.mElementStyle.properties = [] := by rw [he]
  have hres : ∀ (sc2 : Scene) d, d ∈ (UIStyle.resolve sc2 a s1).mProperties →
      ∃ R ∈ matchedStyles sc a,
        sc2.select R.selector a sc2.selectDefault = true ∧ d ∈ R.properties := by
    intro sc2 d hd
    obtain ⟨R, hR, hm, hdR⟩ := resolve_mem sc2 a s1 d hd
    unfold UIStyle.rules at hR
    rcases List.mem_cons.mp hR with e | e
    · rw [e, hprops] at hdR
      cases hdR
    · rw [hc, hn] at e
      rcases List.mem_append.mp e with e | e
      · exact ⟨R, (List.mem_filter.mp e).1, hm, hdR⟩
      · exact ⟨R, (List.mem_filter.mp e).1, hm, hdR⟩
  refine ⟨s1, h1, hprops, by rw [he], fun n => by rw [hprops]; rfl, hres, ?_, ?_⟩
  · intro sc2 depth self2 h d hd
    rw [styleAfterStateChange_mProperties sc2 depth a _ s1 self2 h1 h] at hd
    exact hres sc2 d hd
  · intro n
    rcases getStatelessStyleSheetProperty_of_nil s1 n hprops with h | ⟨st, hst, hp, hm, _⟩
    · exact Or.inl h
    · rw [hc] at hst
      obtain ⟨m1, m2⟩ := List.mem_filter.mp hst
      exact Or.inr ⟨st, m1, m2, hp, hm⟩

/-- C29, on a style that was given the inline attributes `padding: 4 8 12 16` and `width: 20`:
before `load` the stateless lookup finds the inline values, after `load` in a scene whose
stylesheet is `.a {color: red}`, `.a {color: green}` it finds none of them, and the resolved
map holds the property of the stylesheet only. -/
theorem load_discards_inline_style_witness :
    (∃ s1, (load sceneRedGreen 0 worldInline).styles 0 = some s1
      ∧ s1.mElementStyle.properties = []
      ∧ s1.mElementStyle.selector = inlineStyle.selector
      ∧ (∀ n, mapFind s1.mElementStyle.properties n = none)
      ∧ (∀ (sc2 : Scene) d, d ∈ (UIStyle.resolve sc2 0 s1).mProperties →
          ∃ R ∈ matchedStyles sceneRedGreen 0,
            sc2.select R.selector 0 sc2.selectDefault = true ∧ d ∈ R.properties)
      ∧ (∀ (sc2 : Scene) depth self2,
          styleAfterStateChange sc2 depth 0 (load sceneRedGreen 0 worldInline) = some self2 →
          ∀ d ∈ self2.mProperties, ∃ R ∈ matchedStyles sceneRedGreen 0,
            sc2.select R.selector 0 sc2.selectDefault = true ∧ d ∈ R.properties)
      ∧ (∀ n, s1.getStatelessStyleSheetProperty n = StyleSheetProperty.empty
          ∨ ∃ st ∈ matchedStyles sceneRedGreen 0, st.selector.cacheable = true
              ∧ st.selector.pseudoClasses = false
              ∧ s1.getStatelessStyleSheetProperty n ∈ st.properties))
      ∧ (worldInline.styles 0).map (fun s => s.getStatelessStyleSheetProperty "width")
        = some widthInline
      ∧ (worldInline.styles 0).map
          (fun s => (s.getStatelessStyleSheetProperty "padding-left").value)
        = some "16"
      ∧ ((load sceneRedGreen 0 worldInline).styles 0).map
          (fun s => s.getStatelessStyleSheetProperty "width") = some StyleSheetProperty.empty
      ∧ ((load sceneRedGreen 0 worldInline).styles 0).map
          (fun s => s.getStatelessStyleSheetProperty "padding-left")
        = some StyleSheetProperty.empty
      ∧ ((load sceneRedGreen 0 worldInline).styles 0).map
          (fun s => s.getStatelessStyleSheetProperty "color") = some colorRed
      ∧ (styleAfterStateChange sceneRedGreen 1 0 (load sceneRedGreen 0 worldInline)).map
          (fun s => s.mProperties) = some [colorGreen]
      ∧ (styleAfterStateChange sceneRedGreen 1 0 worldInline).map
          (fun s => s.mProperties.map (fun d => d.name))
        = some ["padding-bottom", "padding-left", "padding-right", "padding-top", "width"] :=
  ⟨load_discards_inline_style sceneRedGreen 0 worldInline
      (UIStyle.setStyleSheetProperties parserFixed (UIStyle.fresh {} inlineStyle)
        [paddingImportant, widthInline]) rfl,
    by decide, by decide, by decide, by decide, by decide, by decide, by decide⟩

/-! ## Styles with cacheable rules only -/

/-- One call of `onStateChange` of a style: from the world in which the attribute transaction
has ended, the related widgets are called in turn, then `mChangingState` is lowered. -/
theorem onStateChange_succ (sc : Scene) (depth : Nat) (x : WidgetId) (w : World)
    (self : UIStyle) (hs : w.styles x = some self) :
    onStateChange sc (depth + 1) x w
      = ((UIStyle.resolve sc x self).mRelatedWidgets.foldlM
            (fun w2 related => onStateChange sc depth related w2)
            (midStateChange sc x w)).map
          (fun w2 => w2.modify x (fun s => { s with mChangingState := false })) := by
  rw [onStateChange, hs]
  simp only [midStateChange, hs]

theorem resolve_mRelatedWidgets (sc : Scene) (x : WidgetId) (self : UIStyle) :
    (UIStyle.resolve sc x self).mRelatedWidgets = self.mRelatedWidgets := by
  have e := congrArg UIStyle.mRelatedWidgets (unresolved_resolve sc x self)
  exact e

theorem pass_midStateChange (sc : Scene) (x : WidgetId) (w : World) :
    Pass sc w (midStateChange sc x w) := by
  unfold midStateChange
  cases hs : w.styles x with
  | none => exact pass_refl sc w
  | some self => exact pass_resolve sc w x self _ hs

theorem related_of_pass (sc : Scene) (w w1 : World) (h : Pass sc w w1) (y : WidgetId) :
    w1.related y = w.related y := by
  unfold World.related
  obtain ⟨e, _⟩ := h y
  cases h1 : w1.styles y with
  | none =>
    cases h0 : w.styles y with
    | none => rfl
    | some s => rw [h1, h0] at e; cases e
  | some s1 =>
    cases h0 : w.styles y with
    | none => rw [h1, h0] at e; cases e
    | some s =>
      rw [h1, h0] at e
      simp only [Option.map_some', Option.some.injEq] at e ⊢
      have e2 := congrArg UIStyle.mRelatedWidgets e
      exact e2

/-- A call of `onStateChange` that returns with some call depth returns the same world with a
greater one. -/
theorem onStateChange_mono (sc : Scene) (depth : Nat) :
    ∀ (x : WidgetId) (w w1 : World), onStateChange sc depth x w = some w1 →
      onStateChange sc (depth + 1) x w = some w1 := by
  induction depth with
  | zero => intro x w w1 h; simp [onStateChange] at h
  | succ depth ih =>
    intro x w w1 h
    have hloop : ∀ (L : List WidgetId) (wa wb : World),
        L.foldlM (fun w2 related => onStateChange sc depth related w2) wa = some wb →
        L.foldlM (fun w2 related => onStateChange sc (depth + 1) related w2) wa = some wb := by
      intro L
      induction L with
      | nil => intro wa wb hab; exact hab
      | cons r rest ihL =>
        intro wa wb hab
        rw [List.foldlM_cons] at hab ⊢
        cases hr : onStateChange sc depth r wa with
        | none => rw [hr] at hab; simp at hab
        | some wr =>
          rw [hr] at hab
          rw [ih r wa wr hr]
          simp only [Option.bind_eq_bind, Option.some_bind] at hab ⊢
          exact ihL wr wb hab
    cases hs : w.styles x with
    | none =>
      rw [onStateChange, hs] at h ⊢
      exact h
    | some self =>
      rw [onStateChange_succ sc depth x w self hs] at h
      rw [onStateChange_succ sc (depth + 1) x w self hs]
      simp only [Option.map_eq_some'] at h ⊢
      obtain ⟨w2, hw2, e⟩ := h
      exact ⟨w2, hloop _ _ _ hw2, e⟩

theorem onStateChange_mono_le (sc : Scene) (d1 d2 : Nat) (hle : d1 ≤ d2) (x : WidgetId)
    (w w1 : World) (h : onStateChange sc d1 x w = some w1) :
    onStateChange sc d2 x w = some w1 := by
  induction d2 with
  | zero =>
    have : d1 = 0 := by omega
    subst this
    exact h
  | succ d2 ih =>
    by_cases he : d1 = d2 + 1
    · subst he
      exact h
    · exact onStateChange_mono sc d2 x w w1 (ih (by omega))

/-- Whether a call of `onStateChange` returns depends on the related widgets of the styles of
the world only. -/
theorem onStateChange_isSome_congr (sc : Scene) (depth : Nat) :
    ∀ (x : WidgetId) (wa wb : World), (∀ y, wa.related y = wb.related y) →
      (onStateChange sc depth x wa).isSome = (onStateChange sc depth x wb).isSome := by
  induction depth with
  | zero => intro x wa wb _; rfl
  | succ depth ih =>
    intro x wa wb hg
    have hloop : ∀ (L : List WidgetId) (va vb : World), (∀ y, va.related y = vb.related y) →
        (L.foldlM (fun w2 related => onStateChange sc depth related w2) va).isSome
          = (L.foldlM (fun w2 related => onStateChange sc depth related w2) vb).isSome := by
      intro L
      induction L with
      | nil => intro va vb _; rfl
      | cons r rest ihL =>
        intro va vb hv
        rw [List.foldlM_cons, List.foldlM_cons]
        have e := ih r va vb hv
        cases hra : onStateChange sc depth r va with
        | none =>
          cases hrb : onStateChange sc depth r vb with
          | none => rfl
          | some wrb => rw [hra, hrb] at e; cases e
        | some wra =>
          cases hrb : onStateChange sc depth r vb with
          | none => rw [hra, hrb] at e; cases e
          | some wrb =>
            simp only [Option.bind_eq_bind, Option.some_bind]
            apply ihL
            intro y
            rw [related_of_pass sc va wra (onStateChange_pass sc depth r va wra hra).1 y,
              related_of_pass sc vb wrb (onStateChange_pass sc depth r vb wrb hrb).1 y]
            exact hv y
    have hx := hg x
    unfold World.related at hx
    cases ha : wa.styles x with
    | none =>
      cases hb : wb.styles x with
      | none =>
        rw [onStateChange, onStateChange, ha, hb]
        rfl
      | some sb => rw [ha, hb] at hx; cases hx
    | some sa =>
      cases hb : wb.styles x with
      | none => rw [ha, hb] at hx; cases hx
      | some sb =>
        rw [ha, hb] at hx
        simp only [Option.map_some', Option.some.injEq] at hx
        rw [onStateChange_succ sc depth x wa sa ha, onStateChange_succ sc depth x wb sb hb,
          Option.isSome_map', Option.isSome_map', resolve_mRelatedWidgets,
          resolve_mRelatedWidgets, hx]
        apply hloop
        intro y
        rw [related_of_pass sc wa _ (pass_midStateChange sc x wa) y,
          related_of_pass sc wb _ (pass_midStateChange sc x wb) y]
        exact hg y

/-- When `onStateChange` of a style returns, `onStateChange` of the style of each of its
related widgets returns with one call less. -/
theorem onStateChange_related_return (sc : Scene) (depth : Nat) (x : WidgetId) (w w1 : World)
    (self : UIStyle) (hs : w.styles x = some self)
    (h : onStateChange sc (depth + 1) x w = some w1) :
    ∀ r ∈ self.mRelatedWidgets, (onStateChange sc depth r w).isSome = true := by
  have hloop : ∀ (L : List WidgetId) (wa wb : World),
      L.foldlM (fun w2 related => onStateChange sc depth related w2) wa = some wb →
      ∀ r ∈ L, (onStateChange sc depth r wa).isSome = true := by
    intro L
    induction L with
    | nil => intro wa wb _ r hr; cases hr
    | cons q rest ihL =>
      intro wa wb hab r hr
      rw [List.foldlM_cons] at hab
      cases hq : onStateChange sc depth q wa with
      | none => rw [hq] at hab; simp at hab
      | some wq =>
        rw [hq] at hab
        simp only [Option.bind_eq_bind, Option.some_bind] at hab
        rcases List.mem_cons.mp hr with e | e
        · rw [e, hq]
          rfl
        · have h1 := ihL wq wb hab r e
          rw [onStateChange_isSome_congr sc depth r wa wq
            (fun y => (related_of_pass sc wa wq
              (onStateChange_pass sc depth q wa wq hq).1 y).symm)]
          exact h1
  rw [onStateChange_succ sc depth x w self hs] at h
  simp only [Option.map_eq_some'] at h
  obtain ⟨w2, hw2, _⟩ := h
  intro r hr
  rw [← resolve_mRelatedWidgets sc x self] at hr
  have h1 := hloop _ _ _ hw2 r hr
  rw [onStateChange_isSome_congr sc depth r w (midStateChange sc x w)
    (fun y => (related_of_pass sc w _ (pass_midStateChange sc x w) y).symm)]
  exact h1

/-- The calls of a completed `onStateChange` of a style: the attribute transaction of the
resolved style, then the calls of the related widgets, none of which is a call on the widget of
the style. -/
theorem onStateChange_own_calls (sc : Scene) (depth : Nat) :
    ∀ (x : WidgetId) (w w1 : World) (self : UIStyle), w.styles x = some self →
      onStateChange sc depth x w = some w1 →
      ∃ rest, w1.calls
          = w.calls ++ UIStyle.attributeCalls x (UIStyle.resolve sc x self) ++ rest
        ∧ ∀ c ∈ rest, c.widget ≠ x := by
  induction depth with
  | zero => intro x w w1 self _ h; simp [onStateChange] at h
  | succ depth ih =>
    intro x w w1 self hs h
    by_cases hprev : (onStateChange sc depth x w).isSome = true
    · obtain ⟨w0, h0⟩ := Option.isSome_iff_exists.mp hprev
      have h1 := onStateChange_mono sc depth x w w0 h0
      rw [h] at h1
      cases h1
      exact ih x w w1 self hs h0
    · have hrel : ∀ r ∈ (UIStyle.resolve sc x self).mRelatedWidgets,
          (onStateChange sc depth r w).isSome = true := by
        intro r hr
        rw [resolve_mRelatedWidgets] at hr
        exact onStateChange_related_return sc depth x w w1 self hs h r hr
      have hclosed : ∀ y s, (onStateChange sc depth y w).isSome = true → w.styles y = some s →
          ∀ r ∈ s.mRelatedWidgets, (onStateChange sc depth r w).isSome = true := by
        intro y s hy hys r hr
        cases depth with
        | zero => simp [onStateChange] at hy
        | succ k =>
          obtain ⟨wy, hwy⟩ := Option.isSome_iff_exists.mp hy
          have h1 := onStateChange_related_return sc k y w wy s hys hwy r hr
          obtain ⟨wr, hwr⟩ := Option.isSome_iff_exists.mp h1
          rw [onStateChange_mono sc k r w wr hwr]
          rfl
      rw [onStateChange_succ sc depth x w self hs] at h
      simp only [Option.map_eq_some'] at h
      obtain ⟨w2, hw2, rfl⟩ := h
      have hc1 := closed_of_pass sc (fun y => (onStateChange sc depth y w).isSome = true) w
        (midStateChange sc x w) (pass_midStateChange sc x w) hclosed
      obtain ⟨_, rest, e, c⟩ := relatedLoop_outside sc
        (fun y => (onStateChange sc depth y w).isSome = true) depth _ _ _ hrel hc1 hw2
      refine ⟨rest, ?_, ?_⟩
      · rw [calls_modify, e]
        simp only [midStateChange, hs]
      · intro q hq hqx
        have := c q hq
        rw [hqx] at this
        exact hprev this

/-! ## The attribute transaction of a pass -/

/-- C27. The single attribute transaction, for the style `self` of `widget` in any world. The
calls of a pass on its widget are its attribute transaction: `beginAttributesTransaction`, one
`setAttribute` for every entry of the resolved property map, in the order of the map, with the
name, the value and the volatile flag of the entry and the current state, then
`endAttributesTransaction`; it holds one `beginAttributesTransaction` and one
`endAttributesTransaction`. The pass appends the whole transaction to the calls before it
calls any related widget: at every call depth, `onStateChange` is the loop over the related
widgets started from the world that holds the transaction. Whenever the call returns, its calls
are the transaction followed by the calls of the related widgets, none of which is made on the
widget, so the widget got one `beginAttributesTransaction` and one `endAttributesTransaction`;
and with related widgets that form no cycle the call returns. -/
theorem onStateChange_single_transaction (sc : Scene) (widget : WidgetId) (w : World)
    (self : UIStyle) (hself : w.styles widget = some self) :
    UIStyle.attributeCalls widget (UIStyle.resolve sc widget self)
        = [WidgetCall.beginAttributesTransaction widget]
          ++ (UIStyle.resolve sc widget self).mProperties.map
              (fun d => WidgetCall.setAttribute widget d.name d.value d.isVolatile
                self.mCurrentState)
          ++ [WidgetCall.endAttributesTransaction widget]
      ∧ (UIStyle.attributeCalls widget (UIStyle.resolve sc widget self)).count
          (WidgetCall.beginAttributesTransaction widget) = 1
      ∧ (UIStyle.attributeCalls widget (UIStyle.resolve sc widget self)).count
          (WidgetCall.endAttributesTransaction widget) = 1
      ∧ (midStateChange sc widget w).calls
        = w.calls ++ UIStyle.attributeCalls widget (UIStyle.resolve sc widget self)
      ∧ (∀ depth, onStateChange sc (depth + 1) widget w
          = (self.mRelatedWidgets.foldlM
                (fun w2 related => onStateChange sc depth related w2)
                (midStateChange sc widget w)).map
              (fun w2 => w2.modify widget (fun s => { s with mChangingState := false })))
      ∧ (∀ depth w1, onStateChange sc depth widget w = some w1 →
          ∃ rest,
            w1.calls
              = w.calls ++ UIStyle.attributeCalls widget (UIStyle.resolve sc widget self)
                ++ rest
            ∧ (∀ c ∈ rest, c.widget ≠ widget)
            ∧ (UIStyle.attributeCalls widget (UIStyle.resolve sc widget self) ++ rest).count
                (WidgetCall.beginAttributesTransaction widget) = 1
            ∧ (UIStyle.attributeCalls widget (UIStyle.resolve sc widget self) ++ rest).count
                (WidgetCall.endAttributesTransaction widget) = 1)
      ∧ (∀ rank : WidgetId → Nat,
          (∀ y s, w.styles y = some s → ∀ r ∈ s.mRelatedWidgets, rank r < rank y) →
            ∃ w1, onStateChange sc (rank widget + 1) widget w = some w1) := by
  have hpb : WidgetCall.beginAttributesTransaction widget ∉
      (UIStyle.resolve sc widget self).mProperties.map
        (fun property => WidgetCall.setAttribute widget property.name property.value
          property.isVolatile (UIStyle.resolve sc widget self).mCurrentState) := by
    simp
  have hpe : WidgetCall.endAttributesTransaction widget ∉
      (UIStyle.resolve sc widget self).mProperties.map
        (fun property => WidgetCall.setAttribute widget property.name property.value
          property.isVolatile (UIStyle.resolve sc widget self).mCurrentState) := by
    simp
  have hcb : (UIStyle.attributeCalls widget (UIStyle.resolve sc widget self)).count
      (WidgetCall.beginAttributesTransaction widget) = 1 := by
    unfold UIStyle.attributeCalls
    rw [List.count_append, List.count_append, List.count_eq_zero_of_not_mem hpb]
    simp
  have hce : (UIStyle.attributeCalls widget (UIStyle.resolve sc widget self)).count
      (WidgetCall.endAttributesTransaction widget) = 1 := by
    unfold UIStyle.attributeCalls
    rw [List.count_append, List.count_append, List.count_eq_zero_of_not_mem hpe]
    simp
  refine ⟨?_, hcb, hce, ?_, ?_, ?_, ?_⟩
  · unfold UIStyle.attributeCalls
    rw [resolve_mCurrentState]
  · simp only [midStateChange, hself]
  · intro depth
    rw [onStateChange_succ sc depth widget w self hself, resolve_mRelatedWidgets]
  · intro depth w1 h
    obtain ⟨rest, e, c⟩ := onStateChange_own_calls sc depth widget w w1 self hself h
    have hb : WidgetCall.beginAttributesTransaction widget ∉ rest := fun hm => c _ hm rfl
    have he : WidgetCall.endAttributesTransaction widget ∉ rest := fun hm => c _ hm rfl
    refine ⟨rest, e, c, ?_, ?_⟩
    · rw [List.count_append, hcb, List.count_eq_zero_of_not_mem hb]
    · rw [List.count_append, hce, List.count_eq_zero_of_not_mem he]
  · intro rank hrank
    exact onStateChange_returns sc rank (rank widget + 1) widget w hrank (Nat.lt_succ_self _)

/-- C27, in the world `worldThree`, built by three constructors: `onStateChange` of the style
of widget `0`, whose related widget is widget `1`; and in the world `worldMutual`, whose two
styles are each the related widget of the other: the pass of the style of widget `0` makes its
whole transaction before it calls widget `1`. -/
theorem onStateChange_single_transaction_witness :
    ((midStateChange sceneThree 0 worldThree).calls
        = worldThree.calls
          ++ UIStyle.attributeCalls 0
              (UIStyle.resolve sceneThree 0
                { mCacheableStyles := [ruleAGreen], mRelatedWidgets := [1] })
      ∧ (∀ depth w1, onStateChange sceneThree depth 0 worldThree = some w1 →
          ∃ rest,
            w1.calls
              = worldThree.calls
                ++ UIStyle.attributeCalls 0
                    (UIStyle.resolve sceneThree 0
                      { mCacheableStyles := [ruleAGreen], mRelatedWidgets := [1] })
                ++ rest
            ∧ (∀ c ∈ rest, c.widget ≠ 0)
            ∧ (UIStyle.attributeCalls 0
                    (UIStyle.resolve sceneThree 0
                      { mCacheableStyles := [ruleAGreen], mRelatedWidgets := [1] })
                  ++ rest).count (WidgetCall.beginAttributesTransaction 0) = 1
            ∧ (UIStyle.attributeCalls 0
                    (UIStyle.resolve sceneThree 0
                      { mCacheableStyles := [ruleAGreen], mRelatedWidgets := [1] })
                  ++ rest).count (WidgetCall.endAttributesTransaction 0) = 1))
      ∧ callsAfterStateChange sceneThree 2 0 worldThree
        = some [WidgetCall.beginAttributesTransaction 0,
            WidgetCall.setAttribute 0 "color" "green" false 0,
            WidgetCall.endAttributesTransaction 0,
            WidgetCall.beginAttributesTransaction 1,
            WidgetCall.setAttribute 1 "color" "green" false 0,
            WidgetCall.setAttribute 1 "width" "10" false 0,
            WidgetCall.endAttributesTransaction 1]
      ∧ (midStateChange sceneMutual 0 worldMutual).calls
        = [WidgetCall.beginAttributesTransaction 0,
            WidgetCall.setAttribute 0 "color" "red" false 0,
            WidgetCall.endAttributesTransaction 0]
      ∧ worldReentered.calls
        = [WidgetCall.beginAttributesTransaction 0,
            WidgetCall.setAttribute 0 "color" "red" false 0,
            WidgetCall.endAttributesTransaction 0,
            WidgetCall.beginAttributesTransaction 1,
            WidgetCall.setAttribute 1 "color" "red" false 0,
            WidgetCall.endAttributesTransaction 1] :=
  have h := onStateChange_single_transaction sceneThree 0 worldThree
    { mCacheableStyles := [ruleAGreen], mRelatedWidgets := [1] } (by decide)
  ⟨⟨h.2.2.2.1, h.2.2.2.2.2.1⟩, by decide, by decide, by decide⟩

/-! ## Related widgets that form a cycle: the pass that is entered again -/

theorem foldlM_singleton (f : World → WidgetId → Option World) (r : WidgetId) (w : World) :
    [r].foldlM f w = f w r := by
  rw [List.foldlM_cons]
  cases f w r <;> rfl

/-- C5. The re-entrant call in the world `worldMutual`, which two constructors and a `load()`
build. In the middle of `onStateChange` of the style of widget `0`, that style has called the
style of widget `1`, which is about to call the style of widget `0` again (`worldReentered`):
`mChangingState` of the style of widget `0` is raised, and `onStateChange` at the call depth
`depth + 2` is that call on `worldReentered` at the depth `depth`. The call is not absorbed:
it resolves the properties and makes the attribute transaction of widget `0` a second time,
then calls the style of widget `1` again; it has no result at any call depth. -/
theorem reentrant_onStateChange_not_absorbed :
    (worldReentered.styles 0).map UIStyle.isChangingState = some true
      ∧ (∀ depth, onStateChange sceneMutual (depth + 2) 0 worldMutual
          = ((onStateChange sceneMutual depth 0 worldReentered).map
                (fun w2 => w2.modify 1 (fun s => { s with mChangingState := false }))).map
              (fun w2 => w2.modify 0 (fun s => { s with mChangingState := false })))
      ∧ worldReentered.calls
        = [WidgetCall.beginAttributesTransaction 0,
            WidgetCall.setAttribute 0 "color" "red" false 0,
            WidgetCall.endAttributesTransaction 0,
            WidgetCall.beginAttributesTransaction 1,
            WidgetCall.setAttribute 1 "color" "red" false 0,
            WidgetCall.endAttributesTransaction 1]
      ∧ (midStateChange sceneMutual 0 worldReentered).calls
        = worldReentered.calls
          ++ [WidgetCall.beginAttributesTransaction 0,
              WidgetCall.setAttribute 0 "color" "red" false 0,
              WidgetCall.endAttributesTransaction 0]
      ∧ (∀ depth, onStateChange sceneMutual (depth + 1) 0 worldReentered
          = (onStateChange sceneMutual depth 1 (midStateChange sceneMutual 0 worldReentered)).map
              (fun w2 => w2.modify 0 (fun s => { s with mChangingState := false })))
      ∧ (∀ depth, onStateChange sceneMutual depth 0 worldReentered = none)
      ∧ (∀ depth, onStateChange sceneMutual depth 0 worldReentered ≠ some worldReentered) := by
  have h0 : worldMutual.styles 0
      = some { mElementStyle := inlineStyle, mNoncacheableStyles := [ruleHoverRed],
               mRelatedWidgets := [1], mSubscribedWidgets := [1] } := by decide
  have h1 : (midStateChange sceneMutual 0 worldMutual).styles 1
      = some { mElementStyle := inlineStyle, mNoncacheableStyles := [ruleHoverRed],
               mRelatedWidgets := [0], mSubscribedWidgets := [0] } := by decide
  have hnone : ∀ depth, onStateChange sceneMutual depth 0 worldReentered = none :=
    fun depth => onStateChange_mutual sceneMutual depth 0 1 worldReentered _ _ rfl rfl
      (by decide) (by decide)
  refine ⟨by decide, ?_, by decide, by decide, ?_, hnone, ?_⟩
  · intro depth
    rw [onStateChange_succ sceneMutual (depth + 1) 0 worldMutual _ h0, resolve_mRelatedWidgets,
      foldlM_singleton,
      onStateChange_succ sceneMutual depth 1 (midStateChange sceneMutual 0 worldMutual) _ h1,
      resolve_mRelatedWidgets, foldlM_singleton]
    rfl
  · intro depth
    obtain ⟨s, hs, hrel⟩ : ∃ s, worldReentered.styles 0 = some s ∧ s.mRelatedWidgets = [1] :=
      ⟨_, rfl, by decide⟩
    rw [onStateChange_succ sceneMutual depth 0 worldReentered s hs, resolve_mRelatedWidgets,
      hrel, foldlM_singleton]
  · intro depth h
    rw [hnone depth] at h
    cases h

/-- C19. Dependent re-evaluation in the world `worldMutual`, which two constructors and a
`load()` build: widget `1` has a style and is in the related widgets of the style of widget
`0`, and `onStateChange` of the style of widget `0` has no result at any call depth, so there
is no style of widget `1` afterwards. In the middle of the call the style of widget `1` has
been resolved (`worldReentered`), but the call goes on to call the style of widget `0` again,
without end. In any world, whenever `onStateChange` of a style returns, the style of each of
its related widgets has kept its state, its rules and its sets and has the resolution that
`resolve` computes for it. -/
theorem dependent_reevaluation_has_no_result :
    worldMutual.live 0 = true ∧ worldMutual.live 1 = true
      ∧ worldMutual.hasRelated 0 1 = true
      ∧ (∀ depth, styleOfAfterStateChange sceneMutual depth 0 1 worldMutual = none)
      ∧ (worldMutual.styles 1).map (fun s => s.mProperties) = some []
      ∧ (worldReentered.styles 1).map (fun s => s.mProperties)
        = some [{ name := "color", value := "red", specificity := 200 }]
      ∧ (∀ (sc : Scene) (w w1 : World) (A B : WidgetId) (sA sB : UIStyle) (depth : Nat),
          w.styles B = some sB → w.styles A = some sA → A ∈ sB.mRelatedWidgets →
          onStateChange sc depth B w = some w1 →
          ∃ s2, w1.styles A = some s2 ∧ s2.unresolved = sA.unresolved
            ∧ s2.resolution = (UIStyle.resolve sc A sA).resolution) := by
  refine ⟨by decide, by decide, by decide, ?_, by decide, by decide, ?_⟩
  · intro depth
    unfold styleOfAfterStateChange
    rw [onStateChange_mutual sceneMutual depth 0 1 worldMutual _ _ rfl rfl (by decide)
      (by decide)]
    rfl
  · intro sc w w1 A B sA sB depth hB hA hrel h
    exact onStateChange_related_resolved sc depth w w1 A B sA sB hB hA hrel h

end EE
